import Mathlib

set_option autoImplicit false

/-!
Mainflux dbreader adapter.

A shallow embedding of the reader scheduling adapter (`readers/dbreader`): the payload
encoder and publish loop of `service.go`, the incremental CSV reader of `csv/reader.go`
and the configuration registry of `readerManager.go` with its `scheduler.go`.

The first part models the functions of the Go standard library that the adapter calls
(`strconv`, `time.Parse`, `strings`, `fmt`, `encoding/csv`); the adapter's own functions
follow, under the names they have in the source.
-/

/-! ## Go standard library -/

namespace Go

/-- The bytes of a Go string, as numbers: Go strings are byte sequences, UTF-8 encoded. -/
def bytes (s : String) : List Nat :=
  s.toList.flatMap (fun c => (String.utf8EncodeChar c).map UInt8.toNat)

/-- Byte value of an ASCII character. -/
def ch (c : Char) : Nat := c.toNat

/-- The helper `lower` of strconv: `c | ('x' - 'X')`. -/
def lower (c : Nat) : Nat := c ||| 0x20

/-- Decimal digit test on a byte. -/
def isDigit (c : Nat) : Bool := decide (ch '0' ≤ c ∧ c ≤ ch '9')

/-- The two error kinds of strconv's `NumError`. -/
inductive NumErr where
  | ErrSyntax
  | ErrRange
  deriving DecidableEq, Repr

/-! ### strconv.ParseBool -/

/-- Go `strconv.ParseBool`: the twelve accepted spellings, anything else is an error. -/
def ParseBool (str : String) : Option Bool :=
  if str ∈ ["1", "t", "T", "TRUE", "true", "True"] then some true
  else if str ∈ ["0", "f", "F", "FALSE", "false", "False"] then some false
  else none

/-! ### strconv.ParseUint and strconv.ParseInt, for an explicit base in 2..36 -/

/-- Value of a byte as a digit: `0-9`, then letters of either case from 10 on. -/
def digitVal (c : Nat) : Option Nat :=
  if ch '0' ≤ c ∧ c ≤ ch '9' then some (c - ch '0')
  else if ch 'a' ≤ lower c ∧ lower c ≤ ch 'z' then some (lower c - ch 'a' + 10)
  else none

/-- The digit loop of `strconv.ParseUint`; `n` is the 64-bit accumulator. -/
def parseUintLoop (base maxVal cutoff : Nat) : List Nat → Nat → Except NumErr Nat
  | [], n => .ok n
  | c :: cs, n =>
    match digitVal c with
    | none => .error .ErrSyntax
    | some d =>
      if d ≥ base then .error .ErrSyntax
      else if n ≥ cutoff then .error .ErrRange
      else
        let nb := n * base
        let n1 := (nb + d) % 2 ^ 64
        if n1 < nb ∨ n1 > maxVal then .error .ErrRange
        else parseUintLoop base maxVal cutoff cs n1

/-- Go `strconv.ParseUint(s, base, bitSize)` on the bytes of `s`, for `2 ≤ base ≤ 36` and
`1 ≤ bitSize ≤ 64` (with an explicit base no underscore and no base mark is accepted). -/
def parseUintBytes (s : List Nat) (base bitSize : Nat) : Except NumErr Nat :=
  if s = [] then .error .ErrSyntax
  else parseUintLoop base (2 ^ bitSize - 1) ((2 ^ 64 - 1) / base + 1) s 0

/-- Go `strconv.ParseUint(s, base, bitSize)`. -/
def ParseUint (s : String) (base bitSize : Nat) : Except NumErr Nat :=
  parseUintBytes (bytes s) base bitSize

/-- Go `strconv.ParseInt(s, base, bitSize)`: an optional sign, then `ParseUint`, then the
range check against `2^(bitSize-1)`. -/
def ParseInt (s : String) (base bitSize : Nat) : Except NumErr Int :=
  match bytes s with
  | [] => .error .ErrSyntax
  | c :: cs =>
    let neg := c == ch '-'
    let rest := if c = ch '+' ∨ c = ch '-' then cs else c :: cs
    match parseUintBytes rest base bitSize with
    | .error .ErrSyntax => .error .ErrSyntax
    | r =>
      let un : Nat := match r with
        | .ok n => n
        | .error _ => 2 ^ bitSize - 1
      let cutoff := 2 ^ (bitSize - 1)
      if !neg && decide (un ≥ cutoff) then .error .ErrRange
      else if neg && decide (un > cutoff) then .error .ErrRange
      else .ok (if neg then -(un : Int) else (un : Int))

/-! ### strconv.ParseFloat -/

/-- A float64 value: not-a-number, an infinity, or the finite number `± m * 2^e`. -/
inductive Float64 where
  | NaN
  | Inf (neg : Bool)
  | fin (neg : Bool) (m : Nat) (e : Int)
  deriving DecidableEq, Repr

/-- Length of the common beginning of `s` and the lower-case word `w`, ignoring the case of
`s` (strconv `commonPrefixLenIgnoreCase`). -/
def commonLenIgnoreCase : List Nat → List Nat → Nat
  | c :: s, p :: w =>
    let c1 := if ch 'A' ≤ c ∧ c ≤ ch 'Z' then c + 32 else c
    if c1 = p then commonLenIgnoreCase s w + 1 else 0
  | _, _ => 0

/-- The `infinity` branch of strconv `special`, after the sign. -/
def specialInf (neg : Bool) (nsign : Nat) (s : List Nat) : Option (Float64 × Nat) :=
  let n := commonLenIgnoreCase s (bytes "infinity")
  let n := if 3 < n ∧ n < 8 then 3 else n
  if n = 3 ∨ n = 8 then some (.Inf neg, nsign + n) else none

/-- Go strconv `special`: recognises `inf`, `infinity` (optionally signed) and `nan` at the
start of the input; gives the value and the number of bytes used. -/
def special (s : List Nat) : Option (Float64 × Nat) :=
  match s with
  | [] => none
  | c :: cs =>
    if c = ch '+' ∨ c = ch '-' then specialInf (c == ch '-') 1 cs
    else if c = ch 'i' ∨ c = ch 'I' then specialInf false 0 s
    else if c = ch 'n' ∨ c = ch 'N' then
      if commonLenIgnoreCase s (bytes "nan") = 3 then some (.NaN, 3) else none
    else none

/-- Go strconv `underscoreOK`, after the optional sign and base mark: `saw` is the class of
the last byte (`0` digit, `1` underscore, `2` other, `3` start). -/
def underscoreLoop (hex : Bool) : List Nat → Nat → Bool
  | [], saw => saw != 1
  | c :: cs, saw =>
    if (ch '0' ≤ c ∧ c ≤ ch '9') ∨ (hex = true ∧ ch 'a' ≤ lower c ∧ lower c ≤ ch 'f') then
      underscoreLoop hex cs 0
    else if c = ch '_' then
      if saw != 0 then false else underscoreLoop hex cs 1
    else if saw = 1 then false
    else underscoreLoop hex cs 2

/-- Go strconv `underscoreOK`: an underscore stands only between digits, or between a base
mark and a digit. -/
def underscoreOK (s : List Nat) : Bool :=
  let s := match s with
    | c :: cs => if c = ch '-' ∨ c = ch '+' then cs else s
    | [] => s
  match s with
  | z :: b :: cs =>
    if z = ch '0' ∧ (lower b = ch 'b' ∨ lower b = ch 'o' ∨ lower b = ch 'x') then
      underscoreLoop (lower b == ch 'x') cs 0
    else underscoreLoop false s 3
  | _ => underscoreLoop false s 3

/-- Running state of the mantissa loop of strconv `readFloat`. `mant` holds every
significant digit (Go keeps the first 19, or 16 in base sixteen, and a truncation flag; the
number read is the same). -/
structure MantState where
  sawdot : Bool := false
  sawdigits : Bool := false
  underscores : Bool := false
  nd : Nat := 0
  dp : Int := 0
  mant : Nat := 0
  deriving Repr

/-- The mantissa loop of strconv `readFloat`: stops at the first byte that is no part of
the mantissa and returns the rest of the input. -/
def mantLoop (base : Nat) : List Nat → MantState → MantState × List Nat
  | [], st => (st, [])
  | c :: cs, st =>
    if c = ch '_' then mantLoop base cs { st with underscores := true }
    else if c = ch '.' then
      if st.sawdot then (st, c :: cs)
      else mantLoop base cs { st with sawdot := true, dp := st.nd }
    else if ch '0' ≤ c ∧ c ≤ ch '9' then
      if c = ch '0' ∧ st.nd = 0 then
        mantLoop base cs { st with sawdigits := true, dp := st.dp - 1 }
      else
        mantLoop base cs
          { st with sawdigits := true, nd := st.nd + 1, mant := st.mant * base + (c - ch '0') }
    else if base = 16 ∧ ch 'a' ≤ lower c ∧ lower c ≤ ch 'f' then
      mantLoop base cs
        { st with sawdigits := true, nd := st.nd + 1, mant := st.mant * 16 + (lower c - ch 'a' + 10) }
    else (st, c :: cs)

/-- The exponent digit loop of strconv `readFloat`: digits and underscores; the exponent
stops growing once it has reached 10000. Returns exponent, underscore flag and the rest. -/
def expLoop : List Nat → Nat → Bool → Nat × Bool × List Nat
  | [], e, u => (e, u, [])
  | c :: cs, e, u =>
    if c = ch '_' then expLoop cs e true
    else if ch '0' ≤ c ∧ c ≤ ch '9' then
      expLoop cs (if e < 10000 then e * 10 + (c - ch '0') else e) u
    else (e, u, c :: cs)

/-- What strconv `readFloat` reads: sign, base, and the number as `mant * B^exp` with `B`
ten, or two for a base sixteen literal; `rest` is the unread input. -/
structure FloatLit where
  neg : Bool
  hex : Bool
  mant : Nat
  exp : Int
  rest : List Nat
  deriving Repr

/-- Go strconv `readFloat`: `none` when the input does not start with a number. -/
def readFloat (s : List Nat) : Option FloatLit :=
  match s with
  | [] => none
  | c0 :: s0 =>
    let neg := c0 == ch '-'
    let s1 := if c0 = ch '+' ∨ c0 = ch '-' then s0 else s
    let hex : Bool := match s1 with
      | z :: x :: _ :: _ => z == ch '0' && lower x == ch 'x'
      | _ => false
    let base := if hex then 16 else 10
    let expChar := if hex then ch 'p' else ch 'e'
    let (st, s2) := mantLoop base (if hex then s1.drop 2 else s1) {}
    if !st.sawdigits then none
    else
      let dp0 : Int := if st.sawdot then st.dp else st.nd
      let scale : Int := if hex then 4 else 1
      let fin (dp : Int) (underscores : Bool) (rest : List Nat) : Option FloatLit :=
        if underscores && !underscoreOK (s.take (s.length - rest.length)) then none
        else some { neg := neg, hex := hex, mant := st.mant,
                    exp := if st.mant = 0 then 0 else dp - scale * st.nd, rest := rest }
      match s2 with
      | c :: s3 =>
        if lower c = expChar then
          match s3 with
          | [] => none
          | d :: s4 =>
            let esign : Int := if d = ch '-' then -1 else 1
            let s5 := if d = ch '+' ∨ d = ch '-' then s4 else s3
            match s5 with
            | [] => none
            | f :: _ =>
              if f < ch '0' ∨ f > ch '9' then none
              else
                let (e, u, rest) := expLoop s5 0 st.underscores
                fin (scale * dp0 + e * esign) u rest
        else if hex then none
        else fin (scale * dp0) st.underscores s2
      | [] => if hex then none else fin (scale * dp0) st.underscores s2

/-- The loop of `log2`. -/
def log2Loop : Nat → Nat → Nat
  | 0, _ => 0
  | fuel + 1, n => if n < 2 then 0 else log2Loop fuel (n / 2) + 1

/-- The binary logarithm of `n`, rounded down (0 for `n = 0`). -/
def log2 (n : Nat) : Nat := log2Loop n n

/-- Round the positive rational `num / den` to the nearest binary float with `p` bits of
precision and least exponent `emin`, ties to even: the result is `n * 2^u`. -/
def roundNearestEven (p : Nat) (emin : Int) (num den : Nat) : Nat × Int :=
  let l : Int := (log2 num : Int) - (log2 den : Int)
  let below : Bool := if 0 ≤ l then decide (num < den * 2 ^ l.toNat)
                      else decide (num * 2 ^ (-l).toNat < den)
  let e2 : Int := if below then l - 1 else l
  let u : Int := max e2 emin - ((p : Int) - 1)
  let N : Nat := if 0 ≤ u then num else num * 2 ^ (-u).toNat
  let D : Nat := if 0 ≤ u then den * 2 ^ u.toNat else den
  let n0 := N / D
  let r := N % D
  let n := if 2 * r < D then n0 else if D < 2 * r then n0 + 1
           else if n0 % 2 = 0 then n0 else n0 + 1
  (n, u)

/-- Does `n * 2^u` reach `2^bound`? For `n > 0` that is `log2 n + u ≥ bound`. -/
def reaches (n : Nat) (u : Int) (bound : Nat) : Bool :=
  decide (0 < n ∧ (bound : Int) ≤ (log2 n : Int) + u)

/-- Go `strconv.ParseFloat(s, bitSize)` for `bitSize` 32 or 64: the special words, else a
decimal or base sixteen literal that spans the whole input, rounded to the nearest float of
that size; a literal that rounds past the largest finite float is `ErrRange`. -/
def ParseFloat (s : String) (bitSize : Nat) : Except NumErr Float64 :=
  let b := bytes s
  match special b with
  | some (v, n) => if n = b.length then .ok v else .error .ErrSyntax
  | none =>
    match readFloat b with
    | none => .error .ErrSyntax
    | some lit =>
      if lit.rest ≠ [] then .error .ErrSyntax
      else if lit.mant = 0 then .ok (.fin lit.neg 0 0)
      else
        let B : Nat := if lit.hex then 2 else 10
        let num := if 0 ≤ lit.exp then lit.mant * B ^ lit.exp.toNat else lit.mant
        let den := if 0 ≤ lit.exp then 1 else B ^ (-lit.exp).toNat
        let (p, emin, bound) : Nat × Int × Nat :=
          if bitSize = 32 then (24, -126, 128) else (53, -1022, 1024)
        let (n, u) := roundNearestEven p emin num den
        if reaches n u bound then .error .ErrRange else .ok (.fin lit.neg n u)

/-! ### time.Parse (time/format.go, Go 1.15) -/

/-- The layout elements of package time (`stdLongMonth` ... `stdFracSecond9`); the two
fractional second elements carry their number of digits. -/
inductive Std where
  | LongMonth | Month | NumMonth | ZeroMonth | LongWeekDay | WeekDay | Day | UnderDay | ZeroDay
  | Hour | Hour12 | ZeroHour12 | Minute | ZeroMinute | Second | ZeroSecond | LongYear | Year
  | PM | pm | TZ
  | ISO8601TZ | ISO8601SecondsTZ | ISO8601ShortTZ | ISO8601ColonTZ | ISO8601ColonSecondsTZ
  | NumTZ | NumSecondsTz | NumShortTZ | NumColonTZ | NumColonSecondsTZ
  | FracSecond0 (n : Nat) | FracSecond9 (n : Nat)
  deriving DecidableEq, Repr

/-- Does `s` begin with the bytes `p`? -/
def startsWith : List Nat → List Nat → Bool
  | _, [] => true
  | [], _ :: _ => false
  | c :: s, d :: p => c == d && startsWith s p

/-- Package time `startsWithLowerCase`. -/
def startsWithLowerCase : List Nat → Bool
  | [] => false
  | c :: _ => decide (ch 'a' ≤ c ∧ c ≤ ch 'z')

/-- Byte `i` of `s` exists and is a decimal digit (package time `isDigit`). -/
def isDigitAt (s : List Nat) (i : Nat) : Bool :=
  match s.get? i with
  | some c => isDigit c
  | none => false

/-- The table `std0x` of package time: the elements written `01` ... `06`. -/
def std0x : List Std :=
  [.ZeroMonth, .ZeroDay, .ZeroHour12, .ZeroMinute, .ZeroSecond, .Year]

/-- One step of `nextStdChunk`: the layout element that starts at the head of `l`, if any,
as (literal bytes that still belong to the text before it, element, rest of the layout). -/
def stdAt (l : List Nat) : Option (List Nat × Std × List Nat) :=
  match l with
  | [] => none
  | c :: t =>
    if c = ch 'J' then
      if startsWith l (bytes "Jan") then
        if startsWith l (bytes "January") then some ([], .LongMonth, l.drop 7)
        else if !startsWithLowerCase (l.drop 3) then some ([], .Month, l.drop 3)
        else none
      else none
    else if c = ch 'M' then
      if startsWith l (bytes "Mon") then
        if startsWith l (bytes "Monday") then some ([], .LongWeekDay, l.drop 6)
        else if !startsWithLowerCase (l.drop 3) then some ([], .WeekDay, l.drop 3)
        else none
      else if startsWith l (bytes "MST") then some ([], .TZ, l.drop 3)
      else none
    else if c = ch '0' then
      match t with
      | d :: t2 =>
        if ch '1' ≤ d ∧ d ≤ ch '6' then (std0x.get? (d - ch '1')).map (fun s => ([], s, t2))
        else none
      | [] => none
    else if c = ch '1' then
      match t with
      | d :: t2 => if d = ch '5' then some ([], .Hour, t2) else some ([], .NumMonth, t)
      | [] => some ([], .NumMonth, t)
    else if c = ch '2' then
      if startsWith l (bytes "2006") then some ([], .LongYear, l.drop 4)
      else some ([], .Day, t)
    else if c = ch '_' then
      match t with
      | d :: t2 =>
        if d = ch '2' then
          if startsWith t (bytes "2006") then some ([c], .LongYear, t.drop 4)
          else some ([], .UnderDay, t2)
        else none
      | [] => none
    else if c = ch '3' then some ([], .Hour12, t)
    else if c = ch '4' then some ([], .Minute, t)
    else if c = ch '5' then some ([], .Second, t)
    else if c = ch 'P' then
      match t with
      | d :: t2 => if d = ch 'M' then some ([], .PM, t2) else none
      | [] => none
    else if c = ch 'p' then
      match t with
      | d :: t2 => if d = ch 'm' then some ([], .pm, t2) else none
      | [] => none
    else if c = ch '-' then
      if startsWith l (bytes "-070000") then some ([], .NumSecondsTz, l.drop 7)
      else if startsWith l (bytes "-07:00:00") then some ([], .NumColonSecondsTZ, l.drop 9)
      else if startsWith l (bytes "-0700") then some ([], .NumTZ, l.drop 5)
      else if startsWith l (bytes "-07:00") then some ([], .NumColonTZ, l.drop 6)
      else if startsWith l (bytes "-07") then some ([], .NumShortTZ, l.drop 3)
      else none
    else if c = ch 'Z' then
      if startsWith l (bytes "Z070000") then some ([], .ISO8601SecondsTZ, l.drop 7)
      else if startsWith l (bytes "Z07:00:00") then some ([], .ISO8601ColonSecondsTZ, l.drop 9)
      else if startsWith l (bytes "Z0700") then some ([], .ISO8601TZ, l.drop 5)
      else if startsWith l (bytes "Z07:00") then some ([], .ISO8601ColonTZ, l.drop 6)
      else if startsWith l (bytes "Z07") then some ([], .ISO8601ShortTZ, l.drop 3)
      else none
    else if c = ch '.' then
      match t with
      | d :: _ =>
        if d = ch '0' ∨ d = ch '9' then
          let run := (t.takeWhile (fun x => x == d)).length
          if !isDigitAt t run then
            some ([], if d = ch '9' then .FracSecond9 run else .FracSecond0 run, t.drop run)
          else none
        else none
      | [] => none
    else none

/-- Package time `nextStdChunk`: the text before the first layout element, the element
(`none` when the layout holds no further element) and the layout after it. -/
def nextStdChunk : List Nat → List Nat × Option Std × List Nat
  | [] => ([], none, [])
  | c :: t =>
    match stdAt (c :: t) with
    | some (lit, std, suf) => (lit, some std, suf)
    | none =>
      let r := nextStdChunk t
      (c :: r.1, r.2.1, r.2.2)

/-- Package time `cutspace`. -/
def cutspace : List Nat → List Nat
  | [] => []
  | c :: s => if c = ch ' ' then cutspace s else c :: s

/-- Package time `skip`: remove the literal text `p` from the front of `value`; a run of
spaces in `p` stands for any run of spaces, the empty one included. -/
def skip (fuel : Nat) (value p : List Nat) : Option (List Nat) :=
  match fuel with
  | 0 => none
  | fuel + 1 =>
    match p with
    | [] => some value
    | c :: p1 =>
      if c = ch ' ' then
        match value with
        | v :: _ => if v ≠ ch ' ' then none
                    else skip fuel (cutspace value) (cutspace p)
        | [] => skip fuel (cutspace value) (cutspace p)
      else
        match value with
        | v :: value1 => if v = c then skip fuel value1 p1 else none
        | [] => none

/-- Package time `leadingInt`: the leading decimal digits of `s` as an int64, and the rest;
`none` on overflow. -/
def leadingInt : List Nat → Nat → Option (Nat × List Nat)
  | [], x => some (x, [])
  | c :: s, x =>
    if c < ch '0' ∨ c > ch '9' then some (x, c :: s)
    else if x > (2 ^ 63 - 1) / 10 then none
    else
      let x1 := x * 10 + (c - ch '0')
      if x1 ≥ 2 ^ 63 then none else leadingInt s x1

/-- Package time `atoi`: an optional sign and then digits up to the end of `s`. -/
def atoi (s : List Nat) : Option Int :=
  let neg : Bool := match s with
    | c :: _ => c == ch '-'
    | [] => false
  let s1 := match s with
    | c :: t => if c = ch '-' ∨ c = ch '+' then t else s
    | [] => s
  match leadingInt s1 0 with
  | some (q, []) => some (if neg then -(q : Int) else (q : Int))
  | _ => none

/-- Package time `getnum`: a number of one or two digits, two when `fixed`. -/
def getnum (s : List Nat) (fixed : Bool) : Option (Nat × List Nat) :=
  match s with
  | a :: t =>
    if !isDigit a then none
    else
      match t with
      | b :: t2 =>
        if isDigit b then some ((a - ch '0') * 10 + (b - ch '0'), t2)
        else if fixed then none else some (a - ch '0', t)
      | [] => if fixed then none else some (a - ch '0', t)
  | [] => none

/-- Package time `match`: equality of two texts of one length up to the case of letters. -/
def matchFold : List Nat → List Nat → Bool
  | c1 :: s1, c2 :: s2 =>
    (c1 == c2 || (lower c1 == lower c2 && decide (ch 'a' ≤ lower c1 ∧ lower c1 ≤ ch 'z')))
      && matchFold s1 s2
  | _, _ => true

/-- The loop of package time `lookup`: the first name of `tab` that `val` starts with, as
its index (counted from `i`) and the text after it. -/
def lookupFrom (i : Nat) (tab : List String) (val : List Nat) : Option (Nat × List Nat) :=
  match tab with
  | [] => none
  | v :: tab1 =>
    let n := (bytes v).length
    if val.length ≥ n ∧ matchFold (val.take n) (bytes v) = true then some (i, val.drop n)
    else lookupFrom (i + 1) tab1 val

/-- Package time `lookup`, the index counted from zero. -/
def lookup (tab : List String) (val : List Nat) : Option (Nat × List Nat) :=
  lookupFrom 0 tab val

def shortDayNames : List String := ["Sun", "Mon", "Tue", "Wed", "Thu", "Fri", "Sat"]

def longDayNames : List String :=
  ["Sunday", "Monday", "Tuesday", "Wednesday", "Thursday", "Friday", "Saturday"]

def shortMonthNames : List String :=
  ["Jan", "Feb", "Mar", "Apr", "May", "Jun", "Jul", "Aug", "Sep", "Oct", "Nov", "Dec"]

def longMonthNames : List String :=
  ["January", "February", "March", "April", "May", "June", "July", "August", "September",
   "October", "November", "December"]

/-- Package time `parseNanoseconds`, success or failure only: a period, then a number
below `10^9` in the next `nbytes - 1` bytes. -/
def parseNanoseconds (value : List Nat) (nbytes : Nat) : Bool :=
  match value with
  | c :: t =>
    if c ≠ ch '.' then false
    else
      match atoi (t.take (nbytes - 1)) with
      | some ns => decide (0 ≤ ns ∧ ns < 10 ^ 9)
      | none => false
  | [] => false

/-- Package time `parseSignedOffset`: length of a signed hour offset in -14..+12, zero
excluded, at the start of `value`; 0 when there is none. -/
def parseSignedOffset (value : List Nat) : Nat :=
  match value with
  | sign :: t =>
    if sign ≠ ch '-' ∧ sign ≠ ch '+' then 0
    else
      match leadingInt t 0 with
      | none => 0
      | some (x, rem) =>
        let xi : Int := if sign = ch '-' then -(x : Int) else (x : Int)
        if xi = 0 ∨ xi < -14 ∨ 12 < xi then 0 else value.length - rem.length
  | [] => 0

/-- Number of upper-case letters at the start of `value`, counted up to six. -/
def upperRun : List Nat → Nat → Nat
  | _, 0 => 0
  | [], _ => 0
  | c :: s, k + 1 => if c < ch 'A' ∨ ch 'Z' < c then 0 else upperRun s k + 1

/-- Package time `parseTimeZone`: length of the time zone abbreviation at the start of
`value`, `none` when there is none. -/
def parseTimeZone (value : List Nat) : Option Nat :=
  if value.length < 3 then none
  else if startsWith value (bytes "ChST") ∨ startsWith value (bytes "MeST") then some 4
  else if startsWith value (bytes "GMT") then
    some (if value.length = 3 then 3 else 3 + parseSignedOffset (value.drop 3))
  else if value.head? = some (ch '+') ∨ value.head? = some (ch '-') then
    let n := parseSignedOffset value
    if n > 0 then some n else none
  else
    let nUpper := upperRun value 6
    if nUpper = 5 then (if value.get? 4 = some (ch 'T') then some 5 else none)
    else if nUpper = 4 then
      (if value.get? 3 = some (ch 'T') ∨ startsWith value (bytes "WITA") then some 4 else none)
    else if nUpper = 3 then some 3
    else none

/-- Package time `isLeap`. -/
def isLeap (year : Int) : Bool := year % 4 = 0 && (year % 100 != 0 || year % 400 = 0)

/-- Package time `daysIn`, for a month in 1..12. -/
def daysIn (month : Nat) (year : Int) : Nat :=
  if month = 2 ∧ isLeap year then 29
  else if month = 2 then 28
  else if month = 4 ∨ month = 6 ∨ month = 9 ∨ month = 11 then 30
  else 31

/-- The date fields `time.Parse` checks once the whole value is read. -/
structure DateFields where
  year : Int := 0
  month : Nat := 1
  day : Nat := 1
  deriving Repr

/-- The numeric zone elements of `time.Parse`: the bytes of hour, minute and second of the
offset and the text after it; `none` when the value is too short or a colon is missing. -/
def zoneParts (std : Std) (value : List Nat) :
    Option (List Nat × List Nat × List Nat × List Nat) :=
  if std = .ISO8601ColonTZ ∨ std = .NumColonTZ then
    if value.length < 6 then none
    else if value.get? 3 ≠ some (ch ':') then none
    else some ((value.drop 1).take 2, (value.drop 4).take 2, bytes "00", value.drop 6)
  else if std = .NumShortTZ ∨ std = .ISO8601ShortTZ then
    if value.length < 3 then none
    else some ((value.drop 1).take 2, bytes "00", bytes "00", value.drop 3)
  else if std = .ISO8601ColonSecondsTZ ∨ std = .NumColonSecondsTZ then
    if value.length < 9 then none
    else if value.get? 3 ≠ some (ch ':') ∨ value.get? 6 ≠ some (ch ':') then none
    else some ((value.drop 1).take 2, (value.drop 4).take 2, (value.drop 7).take 2, value.drop 9)
  else if std = .ISO8601SecondsTZ ∨ std = .NumSecondsTz then
    if value.length < 7 then none
    else some ((value.drop 1).take 2, (value.drop 3).take 2, (value.drop 5).take 2, value.drop 7)
  else
    if value.length < 5 then none
    else some ((value.drop 1).take 2, (value.drop 3).take 2, bytes "00", value.drop 5)

/-- One layout element of `time.Parse`: read it from the front of `value`; `layout` is the
layout after the element. `none` is a parse error (a malformed or out of range field). -/
def parseStd (std : Std) (layout value : List Nat) (d : DateFields) :
    Option (List Nat × DateFields) :=
  match std with
  | .Year =>
    if value.length < 2 then none
    else (atoi (value.take 2)).map fun y =>
      (value.drop 2, { d with year := if y ≥ 69 then y + 1900 else y + 2000 })
  | .LongYear =>
    if value.length < 4 ∨ !isDigitAt value 0 then none
    else (atoi (value.take 4)).map fun y => (value.drop 4, { d with year := y })
  | .Month => (lookup shortMonthNames value).map fun r => (r.2, { d with month := r.1 + 1 })
  | .LongMonth => (lookup longMonthNames value).map fun r => (r.2, { d with month := r.1 + 1 })
  | .NumMonth | .ZeroMonth =>
    (getnum value (std == .ZeroMonth)).bind fun r =>
      if r.1 = 0 ∨ 12 < r.1 then none else some (r.2, { d with month := r.1 })
  | .WeekDay => (lookup shortDayNames value).map fun r => (r.2, d)
  | .LongWeekDay => (lookup longDayNames value).map fun r => (r.2, d)
  | .Day | .UnderDay | .ZeroDay =>
    let value1 := match value with
      | c :: t => if std = .UnderDay ∧ c = ch ' ' then t else value
      | [] => value
    (getnum value1 (std == .ZeroDay)).map fun r => (r.2, { d with day := r.1 })
  | .Hour =>
    (getnum value false).bind fun r => if 24 ≤ r.1 then none else some (r.2, d)
  | .Hour12 | .ZeroHour12 =>
    (getnum value (std == .ZeroHour12)).bind fun r => if 12 < r.1 then none else some (r.2, d)
  | .Minute | .ZeroMinute =>
    (getnum value (std == .ZeroMinute)).bind fun r => if 60 ≤ r.1 then none else some (r.2, d)
  | .Second | .ZeroSecond =>
    (getnum value (std == .ZeroSecond)).bind fun r =>
      if 60 ≤ r.1 then none
      else
        let v := r.2
        if v.length ≥ 2 ∧ v.head? = some (ch '.') ∧ isDigitAt v 1 = true then
          match (nextStdChunk layout).2.1 with
          | some (.FracSecond0 _) => some (v, d)
          | some (.FracSecond9 _) => some (v, d)
          | _ =>
            let n := 2 + ((v.drop 2).takeWhile isDigit).length
            if parseNanoseconds v n then some (v.drop n, d) else none
        else some (v, d)
  | .PM =>
    if value.length < 2 then none
    else if value.take 2 = bytes "PM" ∨ value.take 2 = bytes "AM" then some (value.drop 2, d)
    else none
  | .pm =>
    if value.length < 2 then none
    else if value.take 2 = bytes "pm" ∨ value.take 2 = bytes "am" then some (value.drop 2, d)
    else none
  | .TZ =>
    if startsWith value (bytes "UTC") then some (value.drop 3, d)
    else (parseTimeZone value).map fun n => (value.drop n, d)
  | .FracSecond0 k =>
    let ndigit := 1 + k
    if value.length < ndigit then none
    else if parseNanoseconds value ndigit then some (value.drop ndigit, d) else none
  | .FracSecond9 _ =>
    if value.length < 2 ∨ value.head? ≠ some (ch '.') ∨ !isDigitAt value 1 then some (value, d)
    else
      let i := (((value.drop 1).take 9).takeWhile isDigit).length
      if parseNanoseconds value (1 + i) then some (value.drop (1 + i), d) else none
  | _ =>
    if (std = .ISO8601TZ ∨ std = .ISO8601ShortTZ ∨ std = .ISO8601ColonTZ)
        ∧ value.head? = some (ch 'Z') then some (value.drop 1, d)
    else
      (zoneParts std value).bind fun (hh, mm, ss, rest) =>
        match atoi hh, atoi mm, atoi ss with
        | some _, some _, some _ =>
          if value.head? = some (ch '+') ∨ value.head? = some (ch '-') then some (rest, d)
          else none
        | _, _, _ => none

/-- The element loop of `time.Parse`: skip the literal text, read the next element, until
the layout is used up; then the value must be used up too and the day must exist in its
month. `fuel` bounds the number of elements. -/
def parseLoop (fuel : Nat) (layout value : List Nat) (d : DateFields) : Bool :=
  match fuel with
  | 0 => false
  | fuel + 1 =>
    let (pre, std, suffix) := nextStdChunk layout
    match skip (pre.length + 1) value pre with
    | none => false
    | some value1 =>
      match std with
      | none => value1.isEmpty && decide (1 ≤ d.day ∧ d.day ≤ daysIn d.month d.year)
      | some s =>
        match parseStd s suffix value1 d with
        | none => false
        | some (value2, d2) => parseLoop fuel suffix value2 d2

/-- Go `time.Parse(layout, value)`, success or failure only: `true` when the error is
`nil`. -/
def timeParseOk (layout value : String) : Bool :=
  parseLoop ((bytes layout).length + 1) (bytes layout) (bytes value) {}

/-! ### strings and fmt -/

/-- Drop the leading spaces of a list of characters. -/
def trimLeft : List Char → List Char
  | [] => []
  | c :: s => if c = ' ' then trimLeft s else c :: s

/-- Go `strings.Trim(s, " ")`: `s` without its leading and trailing spaces. -/
def Trim (s : String) : String :=
  String.mk (trimLeft (trimLeft s.toList).reverse).reverse

/-- The loop of `Split`: `cur` holds the characters of the current piece, reversed. -/
def splitLoop (sep : Char) : List Char → List Char → List String
  | [], cur => [String.mk cur.reverse]
  | c :: s, cur =>
    if c = sep then String.mk cur.reverse :: splitLoop sep s []
    else splitLoop sep s (c :: cur)

/-- Go `strings.Split(s, sep)` for a separator of one character: the pieces of `s` between
the separators, one more than there are separators. -/
def Split (s : String) (sep : Char) : List String := splitLoop sep s.toList []

/-! ### encoding/csv -/

/-- The errors of `encoding/csv`: a record with the wrong number of fields, or a lexical
error (a misplaced quote), given by its message. -/
inductive CsvErr where
  | ErrFieldCount
  | lexical (msg : String)
  deriving DecidableEq, Repr

/-- What `(*csv.Reader).Read` returns in place of a record: `io.EOF` or a parse error. -/
inductive CsvReadErr where
  | EOF
  | parse (e : CsvErr)
  deriving DecidableEq, Repr

/-- One record of a file as the lexer of `encoding/csv` splits it into fields, or the
lexical error it reports there. Quoting, the separator and the reader options
`TrimLeadingSpace` and `LazyQuotes` belong to the lexer and are not modelled; the lexer
skips empty lines, so none appears here. -/
abbrev CsvLine := Except String (List String)

/-- The part of `(*csv.Reader).Read` that follows the lexer, for `FieldsPerRecord ≥ 0`:
with `FieldsPerRecord` zero the record sets it, otherwise a record of another length is
`ErrFieldCount`. Returns the record and the new `FieldsPerRecord`. -/
def csvRecord (fieldsPerRecord : Nat) (line : CsvLine) : Except CsvErr (List String × Nat) :=
  match line with
  | .error msg => .error (.lexical msg)
  | .ok record =>
    if fieldsPerRecord > 0 then
      if record.length ≠ fieldsPerRecord then .error .ErrFieldCount
      else .ok (record, fieldsPerRecord)
    else .ok (record, record.length)

/-! ### time.Duration -/

/-- The value of an integer as an `int64`: arithmetic on `int64` wraps around. -/
def wrapInt64 (x : Int) : Int := (x + 2 ^ 63) % 2 ^ 64 - 2 ^ 63

/-- The conversion `time.Duration(x)` of a `float64` to `int64`: the fraction is discarded.
For a value that does not fit the language leaves the result to the machine; amd64 gives
the least `int64`. -/
def truncInt64 (q : Rat) : Int :=
  let t := Int.tdiv q.num q.den
  if -(2 ^ 63) ≤ t ∧ t < 2 ^ 63 then t else -(2 ^ 63)

/-- The constant `time.Second`, in nanoseconds. -/
def Second : Int := 1000000000

end Go

/-! ## readers/dbreader/reader/reader.go -/

namespace reader

/-- The name of the identity column. -/
def MFX_ID : String := "mfx_id"

/-- A dynamically typed cell value (Go `interface{}`): `nil`, or one of the scalar types
the readers produce. -/
inductive Value where
  | null
  | int (i : Int)
  | uint (n : Nat)
  | float (f : Go.Float64)
  | bool (b : Bool)
  | str (s : String)
  deriving DecidableEq, Repr

/-- A row, Go `map[string]interface{}`: its entries in the order in which `range` visits
them. A Go map holds a key once. -/
abbrev Row := List (String × Value)

/-- Go `row[key]` with the comma-ok form. -/
def Row.get : Row → String → Option Value
  | [], _ => none
  | e :: row, key => if e.1 = key then some e.2 else Row.get row key

/-- Go `row[key] = v`: replaces the value of a key the map holds, else adds the entry. -/
def Row.set : Row → String → Value → Row
  | [], key, v => [(key, v)]
  | e :: row, key, v => if e.1 = key then (key, v) :: row else e :: Row.set row key v

/-- The keys of a row. -/
def Row.keys (row : Row) : List String := row.map (fun e => e.1)

end reader

/-! ## readers/dbreader/service.go -/

namespace dbreader

open reader

def protocol : String := "dbreader"

/-- Go `error`, by its message. -/
abbrev Error := String

/-- The type `Message` of message.go. -/
structure Message where
  Typ : String
  ChannelID : String
  ThingID : String
  Table : List Row
  deriving Repr

end dbreader

namespace messaging

/-- The type `messaging.Message` of the bus. -/
structure Message where
  Channel : String
  Subtopic : String
  Publisher : String
  Protocol : String
  Payload : String
  Created : Int
  deriving DecidableEq, Repr

end messaging

namespace dbreader

open reader

/-- Go `fmt.Sprint(val)` and `fmt.Sprintf("%v", val)` of a cell value. How fmt prints a
float64 is not modelled: `fmtFloat` stands for it. -/
def Sprint (fmtFloat : Go.Float64 → String) : Value → String
  | .null => "<nil>"
  | .int i => toString i
  | .uint n => toString n
  | .float f => fmtFloat f
  | .bool b => if b then "true" else "false"
  | .str s => s

def isNumeric (s : String) : Bool :=
  match Go.ParseFloat s 64 with
  | .ok _ => true
  | .error _ => false

def isBoolean (s : String) : Bool :=
  match Go.ParseBool s with
  | some _ => true
  | none => false

/-- The table `timestamps`: layout name and layout. -/
def timestamps : List (String × String) :=
  [("ANSIC", "Mon Jan _2 15:04:05 2006"),
   ("UnixDate", "Mon Jan _2 15:04:05 MST 2006"),
   ("RubyDate", "Mon Jan 02 15:04:05 -0700 2006"),
   ("RFC822", "02 Jan 06 15:04 MST"),
   ("RFC822Z", "02 Jan 06 15:04 -0700"),
   ("RFC850", "Monday, 02-Jan-06 15:04:05 MST"),
   ("RFC1123", "Mon, 02 Jan 2006 15:04:05 MST"),
   ("RFC1123Z", "Mon, 02 Jan 2006 15:04:05 -0700"),
   ("RFC3339", "2006-01-02T15:04:05Z07:00"),
   ("RFC3339Nano", "2006-01-02T15:04:05.999999999Z07:00"),
   ("Stamp", "Jan _2 15:04:05"),
   ("StampMilli", "Jan _2 15:04:05.000"),
   ("StampMicro", "Jan _2 15:04:05.000000"),
   ("StampNano", "Jan _2 15:04:05.000000000")]

def isDate (s : String) : Bool :=
  timestamps.any (fun ts => Go.timeParseOk ts.2 s)

/-- The pair `vKey, vLim` that `genSenML` picks for a value. -/
def senMLKey (v : String) : String × String :=
  if isNumeric v then ("v", "")
  else if isBoolean v then ("vb", "")
  else if isDate v then ("vd", "")
  else ("vs", "\"")

/-- The function `genSenML`: the payload as a string (the source returns its bytes). -/
def genSenML (rowID v : String) : String :=
  let k := senMLKey v
  "[\x7b\"n\":\"" ++ rowID ++ "\",\"" ++ k.1 ++ "\":" ++ k.2 ++ v ++ k.2 ++ "\x7d]"

/-- One call of the bus publisher: topic and message. -/
abbrev Call := String × messaging.Message

/-- The bus publisher, `messaging.Publisher`: whether a call fails may depend on the call
and on the calls made before it. -/
abbrev Publisher := List Call → String → messaging.Message → Option Error

/-- The inner loop of `Publish`, over the cells of one row; `log` holds the publish calls
made so far. Returns the calls made and the error, if one stopped the loop. -/
def publishRow (fmtFloat : Go.Float64 → String) (pub : Publisher) (m : Message)
    (rowID : String) : List (String × Value) → List Call → List Call × Option Error
  | [], log => (log, none)
  | (col, val) :: cells, log =>
    if val = Value.null ∨ col = MFX_ID then publishRow fmtFloat pub m rowID cells log
    else
      let v := Go.Trim (Sprint fmtFloat val)
      if v = "" then publishRow fmtFloat pub m rowID cells log
      else
        let msg : messaging.Message :=
          { Publisher := m.ThingID, Protocol := protocol, Channel := m.ChannelID,
            Subtopic := col, Payload := genSenML rowID v, Created := 0 }
        let topic := "channels." ++ m.ChannelID ++ "." ++ col
        match pub log topic msg with
        | some err => (log ++ [(topic, msg)], some err)
        | none => publishRow fmtFloat pub m rowID cells (log ++ [(topic, msg)])

/-- The sample id `Publish` computes for a row. -/
def rowIDOf (fmtFloat : Go.Float64 → String) (row : Row) : String :=
  match row.get MFX_ID with
  | some val => Sprint fmtFloat val
  | none => MFX_ID

/-- The outer loop of `Publish`, over the rows of the table. -/
def publishRows (fmtFloat : Go.Float64 → String) (pub : Publisher) (m : Message) :
    List Row → List Call → List Call × Option Error
  | [], log => (log, none)
  | row :: rows, log =>
    match publishRow fmtFloat pub m (rowIDOf fmtFloat row) row log with
    | (log1, some err) => (log1, some err)
    | (log1, none) => publishRows fmtFloat pub m rows log1

/-- The method `adapterService.Publish`: the publish calls it makes, in order, and the
error it returns. -/
def Publish (fmtFloat : Go.Float64 → String) (pub : Publisher) (m : Message) :
    List Call × Option Error :=
  publishRows fmtFloat pub m m.Table []

/-- A cell that `Publish` is to forward: its value is not nil, its column is not the
identity column, and its text without leading and trailing spaces is not empty. -/
def forwarded (fmtFloat : Go.Float64 → String) (e : String × Value) : Bool :=
  decide (e.2 ≠ Value.null ∧ e.1 ≠ MFX_ID ∧ Go.Trim (Sprint fmtFloat e.2) ≠ "")

/-- The topic and message `Publish` builds for the cell `e` of a row with sample id
`rowID`. -/
def mkCall (fmtFloat : Go.Float64 → String) (m : Message) (rowID : String)
    (e : String × Value) : Call :=
  ("channels." ++ m.ChannelID ++ "." ++ e.1,
   { Publisher := m.ThingID, Protocol := protocol, Channel := m.ChannelID, Subtopic := e.1,
     Payload := genSenML rowID (Go.Trim (Sprint fmtFloat e.2)), Created := 0 })

/-- The publish calls `Publish` is to make for a table: for each row in turn, one for each
cell to forward. -/
def intendedCalls (fmtFloat : Go.Float64 → String) (m : Message) (table : List Row) :
    List Call :=
  table.flatMap (fun row =>
    (row.filter (forwarded fmtFloat)).map (mkCall fmtFloat m (rowIDOf fmtFloat row)))

/-- Make the calls of a list one after the other until one fails: the calls made, added
to `log`, and the error of the failing call. -/
def attempt (pub : Publisher) : List Call → List Call → List Call × Option Error
  | [], log => (log, none)
  | c :: cs, log =>
    match pub log c.1 c.2 with
    | some err => (log ++ [c], some err)
    | none => attempt pub cs (log ++ [c])

end dbreader

/-! ## readers/dbreader/csv/reader.go -/

namespace csv

open reader

/-- The default polling interval, in seconds. -/
def interval : Rat := 60

/-- The errors `Read` returns. -/
inductive Error where
  | errEmptyCSV
  | errOpenCSVFile (fileName : String)
  | csv (e : Go.CsvErr)
  deriving DecidableEq, Repr

/-- The type `csvReader`; the float64 `Interval64` is a rational number here. -/
structure csvReader where
  FileName : String
  ColsStr : String
  columns : List String
  Interval64 : Rat
  DBType : String
  HeadPos : Int
  deriving DecidableEq, Repr

/-- The method `Init`. The network share login it may run with the `FSUser` and `FSPass`
entries of `params` is an external command whose result is dropped; it is left out. -/
def Init (r : csvReader) (_params : List (String × String)) : csvReader :=
  let r1 := if r.ColsStr.length > 0 then { r with columns := Go.Split r.ColsStr ',' } else r
  if r1.Interval64 ≤ 0 then { r1 with Interval64 := interval } else r1

def Interval (r : csvReader) : Rat := r.Interval64

/-- The result of `json.Marshal` on a csv reader, given by the reader that `json.Unmarshal`
of the text into a fresh reader gives back: the exported fields are kept, and `columns`,
which is not exported, is nil. -/
def Marshal (r : csvReader) : Option csvReader := some { r with columns := [] }

def contains : List String → String → Bool
  | [], _ => false
  | a :: s, e => if a = e then true else contains s e

def parseValue (value : String) : Value :=
  match Go.ParseInt value 32 64 with
  | .ok v => .int v
  | .error _ =>
    match Go.ParseUint value 32 64 with
    | .ok v => .uint v
    | .error _ =>
      match Go.ParseFloat value 32 with
      | .ok v => .float v
      | .error _ =>
        match Go.ParseBool value with
        | some v => .bool v
        | none => .str value

/-- The block "Set columns" of `Read`: the map `headers` from field position to column
name, as the list of its entries. -/
def setColumns (columns : List String) (record : List String) : List (Nat × String) :=
  if columns.length > 0 then record.enum.filter (fun p => contains columns p.2)
  else record.enum

/-- The loop of `Read` over the fields of one record, filling `row`. -/
def fillRow (headers : List (Nat × String)) : List (Nat × String) → Row → Row
  | [], row => row
  | (i, y) :: fields, row =>
    match headers.lookup i with
    | some header => fillRow headers fields (row.set header (parseValue y))
    | none => fillRow headers fields row

/-- The row `Read` builds for one record, once `HeadPos` has been advanced to `headPos`. -/
def mkRow (headers : List (Nat × String)) (headPos : Int) (record : List String) : Row :=
  fillRow headers record.enum (Row.set [] MFX_ID (.int headPos))

/-- The method `rewindHead`: `n` calls of `cr.Read()`, `n` the value of `HeadPos` (none for
a negative one). `fpr` is FieldsPerRecord of `cr` and `lines` what it has not read. -/
def rewindHead : Nat → Nat → List Go.CsvLine → Except Go.CsvReadErr (Nat × List Go.CsvLine)
  | 0, fpr, lines => .ok (fpr, lines)
  | _ + 1, _, [] => .error .EOF
  | n + 1, fpr, line :: lines =>
    match Go.csvRecord fpr line with
    | .error e => .error (.parse e)
    | .ok (_, fpr1) => rewindHead n fpr1 lines

/-- The final loop of `Read`: one row per record until `io.EOF`. Returns `HeadPos`, `out`
and the error. -/
def readRows (headers : List (Nat × String)) :
    Nat → List Go.CsvLine → Int → List Row → Int × List Row × Option Error
  | _, [], headPos, out => (headPos, out, none)
  | fpr, line :: lines, headPos, out =>
    match Go.csvRecord fpr line with
    | .error e => (headPos, out, some (.csv e))
    | .ok (record, fpr1) =>
      readRows headers fpr1 lines (headPos + 1) (out ++ [mkRow headers (headPos + 1) record])

/-- The method `Read`. `file` is what `os.Open(r.FileName)` finds: `none` when the file
cannot be opened, else its records. Returns the reader after the call, `out` and `err`. -/
def Read (r : csvReader) (file : Option (List Go.CsvLine)) :
    csvReader × List Row × Option Error :=
  match file with
  | none => (r, [], some (.errOpenCSVFile r.FileName))
  | some [] => (r, [], some .errEmptyCSV)
  | some (first :: lines) =>
    match Go.csvRecord 0 first with
    | .error e => (r, [], some (.csv e))
    | .ok (record, fpr) =>
      let headers := setColumns r.columns record
      match rewindHead r.HeadPos.toNat fpr lines with
      | .error .EOF => (r, [], none)
      | .error (.parse e) => (r, [], some (.csv e))
      | .ok (fpr1, lines1) =>
        let res := readRows headers fpr1 lines1 r.HeadPos []
        ({ r with HeadPos := res.1 }, res.2.1, res.2.2)

end csv

/-! ## readers/dbreader/scheduler.go and readerManager.go -/

namespace dbreader

/-- A `time.Ticker`: its period in nanoseconds, and whether `Stop` has been called. -/
structure Ticker where
  period : Int
  stopped : Bool
  deriving DecidableEq, Repr

/-- The type `scheduler`. The channel `done` has no content of its own: it is identified
with the scheduler that owns it. -/
structure scheduler where
  ticker : Option Ticker
  interval : Rat
  deriving DecidableEq, Repr

/-- The type `config`; `scheduler` is the address of a scheduler on the heap. -/
structure config (R : Type) where
  ID : String
  ChannelID : String
  scheduler : Nat
  Reader : R

/-- What the registry needs of a reader variant: the factory, JSON decoding into a reader
(`json.Unmarshal(data, &reader)`: an error, or the reader, which the JSON text `null` sets
to the nil interface, `none`), the methods `Init` and `Interval`, and JSON encoding
(`json.Marshal`, given by the reader that decoding its text into a fresh reader gives back:
the exported fields; `none` when `json.Marshal` returns an error). -/
structure ReaderOps (R : Type) where
  readerFactory : R
  Unmarshal : String → R → Except Error (Option R)
  Init : List (String × String) → R → R
  Interval : R → Rat
  Marshal : R → Option R

/-- The type `readerManager`. `configs` is `none` for the nil map a new manager holds. -/
structure readerManager (R : Type) where
  cfgFile : String
  readerType : String
  configs : Option (List (String × config R))
  params : List (String × String)

/-- The effects of the registry on schedulers, on its map and on its file, in the order
they happen. -/
inductive Event where
  | stop (s : Nat)
  | tickerStop (s : Nat)
  | doneSend (s : Nat)
  | mapDelete (id : String)
  | mapStore (id : String) (s : Nat)
  | newTicker (s : Nat) (period : Int)
  | spawn (s : Nat)
  | mapNew
  | saveAll
  deriving DecidableEq, Repr

/-- The state the registry works on: the manager, the schedulers allocated so far (the
address of a scheduler is its position), the polling tasks that are alive, each with the
scheduler and the entry it was started for, and the effects so far. -/
structure World (R : Type) where
  rm : readerManager R
  heap : List scheduler
  tasks : List (Nat × config R)
  trace : List Event

/-- How a call ends: it returns, it faults (a runtime panic), or it blocks for ever. -/
inductive Res (α : Type) where
  | ok (a : α)
  | fault
  | blocked

/-- Go `m[key]` with the comma-ok form, on the entries of a map. -/
def mapGet {R : Type} : List (String × config R) → String → Option (config R)
  | [], _ => none
  | e :: m, id => if e.1 = id then some e.2 else mapGet m id

/-- Go `delete(m, key)`. -/
def mapDelete {R : Type} (m : List (String × config R)) (id : String) :
    List (String × config R) :=
  m.filter (fun e => e.1 != id)

/-- Go `m[key] = v`. -/
def mapStore {R : Type} (m : List (String × config R)) (id : String) (v : config R) :
    List (String × config R) :=
  mapDelete m id ++ [(id, v)]

/-- Remove the first task that waits on the channel of scheduler `s`. -/
def removeTask {R : Type} (s : Nat) : List (Nat × config R) → Option (List (Nat × config R))
  | [] => none
  | t :: ts => if t.1 = s then some ts else (removeTask s ts).map (fun r => t :: r)

/-- The method `scheduler.stop` on the scheduler at address `s`: nothing when it has no
ticker; else the ticker is stopped and `true` is sent on `done`, which a polling task of
this scheduler must receive (it then exits); with no such task the send blocks for ever.
The trace records the call, and the two effects when they happen. -/
def scheduler.stop {R : Type} (w : World R) (s : Nat) : Res (World R) :=
  match w.heap[s]? with
  | none => .fault
  | some sch =>
    match sch.ticker with
    | none => .ok { w with trace := w.trace ++ [.stop s] }
    | some t =>
      let heap1 := w.heap.set s { sch with ticker := some { t with stopped := true } }
      match removeTask s w.tasks with
      | none => .blocked
      | some tasks1 =>
        .ok { w with heap := heap1, tasks := tasks1,
                     trace := w.trace ++ [.stop s, .tickerStop s, .doneSend s] }

/-- The method `readerManager.Create`. Returns the state after the call with the id and
the error returned. -/
def Create {R : Type} (ops : ReaderOps R) (w : World R) (id channelID readerData : String) :
    Res (World R × String × Option Error) :=
  match ops.Unmarshal readerData ops.readerFactory with
  | .error err => .ok (w, "", some err)
  | .ok none => .fault
  | .ok (some r0) =>
    let rd := ops.Init w.rm.params r0
    let cleared : Res (World R) :=
      match w.rm.configs.bind (fun m => mapGet m id) with
      | some cfg =>
        match scheduler.stop w cfg.scheduler with
        | .ok w1 =>
          .ok { w1 with rm := { w1.rm with configs := w1.rm.configs.map (fun m => mapDelete m id) },
                        trace := w1.trace ++ [.mapDelete id] }
        | .fault => .fault
        | .blocked => .blocked
      | none => .ok w
    match cleared with
    | .fault => .fault
    | .blocked => .blocked
    | .ok w2 =>
      let s := w2.heap.length
      let cfg : config R := { scheduler := s, ID := id, ChannelID := channelID, Reader := rd }
      match w2.rm.configs with
      | none => .fault
      | some m =>
        .ok ({ w2 with rm := { w2.rm with configs := some (mapStore m id cfg) },
                       heap := w2.heap ++ [{ ticker := none, interval := ops.Interval rd }],
                       trace := w2.trace ++ [.mapStore id s] }, id, none)

/-- The error values of readerManager.go and service.go that the calls below return. -/
def errCfgNotFound : Error := "configuration not found"

def errFileNotFound : Error := "file not found"

def errOpenFile : Error := "failed to open file"

def ErrMalformedIdentity : Error := "malformed identity received"

/-- The value `errors.Wrap(wrapper, cause)`: the error of this package and the error of the
operating system it wraps. -/
structure Wrapped where
  wrapper : Error
  cause : String
  deriving DecidableEq, Repr

/-- The function `NewReaderManager`: the map `configs` and the parameters are left nil. -/
def NewReaderManager {R : Type} (cfgFile readerType : String) : readerManager R :=
  { cfgFile := cfgFile, readerType := readerType, configs := none, params := [] }

/-- The method `readerManager.SetParams`. -/
def SetParams {R : Type} (w : World R) (params : List (String × String)) : World R :=
  { w with rm := { w.rm with params := params } }

/-- The duration `time.Second * time.Duration(s.interval)` that `start` asks a ticker for. -/
def tickerPeriod (interval : Rat) : Int := Go.wrapInt64 (Go.Second * Go.truncInt64 interval)

/-- The method `scheduler.start` on the scheduler at address `s`: `stop`, then a new ticker.
`time.NewTicker` panics for a duration that is not positive. -/
def scheduler.start {R : Type} (w : World R) (s : Nat) : Res (World R) :=
  match scheduler.stop w s with
  | .fault => .fault
  | .blocked => .blocked
  | .ok w1 =>
    match w1.heap[s]? with
    | none => .fault
    | some sch =>
      let d := tickerPeriod sch.interval
      if d ≤ 0 then .fault
      else
        .ok { w1 with heap := w1.heap.set s { sch with ticker := some { period := d,
                                                                          stopped := false } },
                      trace := w1.trace ++ [.newTicker s d] }

/-- The method `readerManager.Schedule`: the entry is looked up (an id that is not in the
map gives the zero `config`, whose scheduler is the nil pointer, and `start` faults on
it), its scheduler is started, and a polling task is spawned that holds this copy of the
entry and lives until it receives on `done`. -/
def Schedule {R : Type} (w : World R) (thingID : String) : Res (World R) :=
  match w.rm.configs.bind (fun m => mapGet m thingID) with
  | none => .fault
  | some cfg =>
    match scheduler.start w cfg.scheduler with
    | .fault => .fault
    | .blocked => .blocked
    | .ok w1 =>
      .ok { w1 with tasks := w1.tasks ++ [(cfg.scheduler, cfg)],
                    trace := w1.trace ++ [.spawn cfg.scheduler] }

/-- The loop of `StartAll` over the ids of the map. -/
def startEach {R : Type} : List String → World R → Res (World R)
  | [], w => .ok w
  | id :: ids, w =>
    match Schedule w id with
    | .fault => .fault
    | .blocked => .blocked
    | .ok w1 => startEach ids w1

/-- The method `readerManager.StartAll`. -/
def StartAll {R : Type} (w : World R) : Res (World R) :=
  startEach ((w.rm.configs.getD []).map (fun e => e.1)) w

/-- The method `readerManager.Delete`. Returns the state after the call and the error. -/
def Delete {R : Type} (w : World R) (id : String) : Res (World R × Option Error) :=
  match w.rm.configs.bind (fun m => mapGet m id) with
  | none => .ok (w, some errCfgNotFound)
  | some cfg =>
    match scheduler.stop w cfg.scheduler with
    | .fault => .fault
    | .blocked => .blocked
    | .ok w1 =>
      .ok ({ w1 with rm := { w1.rm with configs := w1.rm.configs.map (fun m => mapDelete m id) },
                     trace := w1.trace ++ [.mapDelete id] }, none)

/-- A line of the persisted store as `json.Unmarshal(line, &cfg)` leaves `cfg`, which held
a fresh reader: the id, the channel id and the reader (`none` for the nil interface that
the JSON value `null` for `metadata` leaves). -/
structure StoredConfig (R : Type) where
  ID : String
  ChannelID : String
  Reader : Option R

/-- A line of the store: `none` when `json.Unmarshal` returns an error for it. Lines are
taken to fit the buffer of `bufio.Scanner`. -/
abbrev StoreLine (R : Type) := Option (StoredConfig R)

/-- The file `cfgFile` as `LoadAll` finds it: `os.Stat` reports that it does not exist,
`os.OpenFile` fails, or it is read line by line. -/
inductive Disk (R : Type) where
  | missing (cause : String)
  | unreadable (cause : String)
  | file (lines : List (StoreLine R))

/-- The loop of `LoadAll` over the lines of the file. A line that does not decode is
skipped; `Init` on the nil reader faults. -/
def loadLines {R : Type} (ops : ReaderOps R) : List (StoreLine R) → World R → Res (World R)
  | [], w => .ok w
  | none :: lines, w => loadLines ops lines w
  | some sc :: lines, w =>
    match sc.Reader with
    | none => .fault
    | some r =>
      let rd := ops.Init w.rm.params r
      let s := w.heap.length
      let cfg : config R := { ID := sc.ID, ChannelID := sc.ChannelID, scheduler := s, Reader := rd }
      match w.rm.configs with
      | none => .fault
      | some m =>
        loadLines ops lines
          { w with rm := { w.rm with configs := some (mapStore m sc.ID cfg) },
                   heap := w.heap ++ [{ ticker := none, interval := ops.Interval rd }],
                   trace := w.trace ++ [.mapStore sc.ID s] }

/-- The method `readerManager.LoadAll`. Returns the state after the call and the error. -/
def LoadAll {R : Type} (ops : ReaderOps R) (w : World R) (disk : Disk R) :
    Res (World R × Option Wrapped) :=
  match disk with
  | .missing cause => .ok (w, some { wrapper := errFileNotFound, cause := cause })
  | .unreadable cause => .ok (w, some { wrapper := errOpenFile, cause := cause })
  | .file lines =>
    match loadLines ops lines { w with rm := { w.rm with configs := some [] },
                                        trace := w.trace ++ [.mapNew] } with
    | .fault => .fault
    | .blocked => .blocked
    | .ok w1 => .ok (w1, none)

/-- What the file system does during one call of `SaveAll`: nothing goes wrong, `os.Create`
fails, the write of line `n` (counted from 0) fails, or `file.Sync` fails. -/
inductive SaveFault where
  | none
  | create (err : Error)
  | write (n : Nat) (err : Error)
  | sync (err : Error)
  deriving DecidableEq, Repr

/-- The lines the loop of `SaveAll` has to write, as they decode: one for every entry of
the map for which `json.Marshal` succeeds. -/
def savedLines {R : Type} (ops : ReaderOps R) (m : List (String × config R)) :
    List (StoredConfig R) :=
  m.filterMap (fun e =>
    (ops.Marshal e.2.Reader).map (fun r =>
      { ID := e.2.ID, ChannelID := e.2.ChannelID, Reader := some r }))

/-- The method `readerManager.SaveAll`. Returns the state after the call, the lines the
file holds when the call has truncated it (`none`: the file is as it was), and the error. -/
def SaveAll {R : Type} (ops : ReaderOps R) (w : World R) (fault : SaveFault) :
    World R × Option (List (StoredConfig R)) × Option Error :=
  let w1 := { w with trace := w.trace ++ [.saveAll] }
  let ls := savedLines ops (w.rm.configs.getD [])
  match fault with
  | .create err => (w1, none, some err)
  | .write n err => if n < ls.length then (w1, some (ls.take n), some err) else (w1, some ls, none)
  | .sync err => (w1, some ls, some err)
  | .none => (w1, some ls, none)

/-- The method `adapterService.CreateThing`. Returns the state after the call, what
`SaveAll` left in the file (`none`: the file is as it was) and the error. -/
def CreateThing {R : Type} (ops : ReaderOps R) (w : World R) (thingID channelID metadata : String)
    (fault : SaveFault) : Res (World R × Option (List (StoredConfig R)) × Option Error) :=
  if (Go.bytes metadata).length ≤ 0 ∨ metadata = "null" then
    .ok (w, none, some ErrMalformedIdentity)
  else
    match Create ops w thingID channelID metadata with
    | .fault => .fault
    | .blocked => .blocked
    | .ok (w1, _, some err) => .ok (w1, none, some err)
    | .ok (w1, id, none) =>
      let saved := SaveAll ops w1 fault
      match Schedule saved.1 id with
      | .fault => .fault
      | .blocked => .blocked
      | .ok w3 => .ok (w3, saved.2.1, none)

/-- The method `adapterService.RemoveThing`. -/
def RemoveThing {R : Type} (ops : ReaderOps R) (w : World R) (thingID : String)
    (fault : SaveFault) : Res (World R × Option (List (StoredConfig R)) × Option Error) :=
  match Delete w thingID with
  | .fault => .fault
  | .blocked => .blocked
  | .ok (w1, some err) => .ok (w1, none, some ("Reader " ++ thingID ++ " not found: " ++ err))
  | .ok (w1, none) =>
    let saved := SaveAll ops w1 fault
    .ok (saved.1, saved.2.1, none)

/-- What the registry holds for an id, the address of the scheduler apart: the id, the
channel id and the reader of the entry. -/
def entryView {R : Type} (w : World R) (id : String) : Option (String × String × R) :=
  (w.rm.configs.bind (fun m => mapGet m id)).map (fun c => (c.ID, c.ChannelID, c.Reader))

/-- The entry for `id` is scheduled, once: its scheduler has a ticker that has not been
stopped, and exactly one polling task waits on that scheduler, the task of this entry. -/
def scheduledOnce {R : Type} (w : World R) (id : String) : Prop :=
  ∃ cfg sch tk, w.rm.configs.bind (fun m => mapGet m id) = some cfg
    ∧ w.heap[cfg.scheduler]? = some sch ∧ sch.ticker = some tk ∧ tk.stopped = false
    ∧ w.tasks.filter (fun t => decide (t.1 = cfg.scheduler)) = [(cfg.scheduler, cfg)]

/-- The polling tasks that are alive for an id. -/
def tasksOf {R : Type} (w : World R) (id : String) : List (Nat × config R) :=
  w.tasks.filter (fun t => decide (t.2.ID = id))

/-- The state of a newly constructed manager: no scheduler is allocated, no task is alive. -/
def newWorld {R : Type} (cfgFile readerType : String) : World R :=
  { rm := NewReaderManager cfgFile readerType, heap := [], tasks := [], trace := [] }

/-- The states that calls of `SetParams`, `LoadAll`, `Create`, `Delete`, `Schedule` and
`StartAll` which return lead to from a new manager, `LoadAll` finding any file. With
`guarded` a call of `LoadAll` is made only while no polling task is alive. -/
inductive Reachable {R : Type} (ops : ReaderOps R) (guarded : Bool) : World R → Prop where
  | fresh (cfgFile readerType : String) : Reachable ops guarded (newWorld cfgFile readerType)
  | setParams (w : World R) (params : List (String × String)) :
      Reachable ops guarded w → Reachable ops guarded (SetParams w params)
  | loadAll (w w1 : World R) (disk : Disk R) (err : Option Wrapped) :
      Reachable ops guarded w → (guarded = true → w.tasks = []) →
      LoadAll ops w disk = .ok (w1, err) → Reachable ops guarded w1
  | create (w w1 : World R) (id channelID readerData rid : String) (err : Option Error) :
      Reachable ops guarded w → Create ops w id channelID readerData = .ok (w1, rid, err) →
      Reachable ops guarded w1
  | delete (w w1 : World R) (id : String) (err : Option Error) :
      Reachable ops guarded w → Delete w id = .ok (w1, err) → Reachable ops guarded w1
  | schedule (w w1 : World R) (id : String) :
      Reachable ops guarded w → Schedule w id = .ok w1 → Reachable ops guarded w1
  | startAll (w w1 : World R) :
      Reachable ops guarded w → StartAll w = .ok w1 → Reachable ops guarded w1

/-- Every polling task that is alive waits on the scheduler of the entry that the map holds
for the id of the task. -/
def tasksOwned {R : Type} (w : World R) : Prop :=
  ∀ t ∈ w.tasks, ∃ cfg, w.rm.configs.bind (fun m => mapGet m t.2.ID) = some cfg
    ∧ cfg.scheduler = t.1

/-- The invariant of the registry, on the entries of the map, the schedulers and the
polling tasks: the entries have distinct ids and distinct schedulers, each entry is
stored under its id and its scheduler is allocated; every task waits on the scheduler of an
entry that has its id, no two tasks wait on one scheduler, and the scheduler of an entry
has a ticker exactly when a task waits on it. -/
structure InvOn {R : Type} (m : List (String × config R)) (heap : List scheduler)
    (tasks : List (Nat × config R)) : Prop where
  keys : (m.map (fun e => e.1)).Nodup
  entry : ∀ e ∈ m, e.2.ID = e.1 ∧ e.2.scheduler < heap.length
  scheds : (m.map (fun e => e.2.scheduler)).Nodup
  owner : ∀ t ∈ tasks, ∃ e ∈ m, e.1 = t.2.ID ∧ e.2.scheduler = t.1
  single : (tasks.map (fun t => t.1)).Nodup
  ticking : ∀ e ∈ m, ∀ sch, heap[e.2.scheduler]? = some sch →
    (sch.ticker ≠ none ↔ ∃ t ∈ tasks, t.1 = e.2.scheduler)

/-- The invariant on a state; the nil map counts as the empty one. -/
def Inv {R : Type} (w : World R) : Prop := InvOn (w.rm.configs.getD []) w.heap w.tasks

/-- Every ticker that the scheduler of an entry of the map has is running: `Stop` has not
been called on it. -/
def tickersRun {R : Type} (w : World R) : Prop :=
  ∀ e ∈ w.rm.configs.getD [], ∀ sch t, w.heap[e.2.scheduler]? = some sch →
    sch.ticker = some t → t.stopped = false

/-- The last line of a store that has the id: the line `LoadAll` keeps for it. -/
def lastLine {R : Type} : List (StoredConfig R) → String → Option (StoredConfig R)
  | [], _ => none
  | sc :: lines, id =>
    match lastLine lines id with
    | some x => some x
    | none => if sc.ID = id then some sc else none

/-- One tick of the polling task that `Schedule` spawns: `Read` on the reader of the entry
and, unless `Read` returns an error, `Publish` of the table it returned. Returns the entry,
whose reader `Read` may have changed, and the message handed to `Publish`, if any. -/
def tick {R E : Type} (read : R → R × List reader.Row × Option E) (readerType : String)
    (cfg : config R) : config R × Option Message :=
  let res := read cfg.Reader
  match res.2.2 with
  | some _ => ({ cfg with Reader := res.1 }, none)
  | none =>
    ({ cfg with Reader := res.1 },
     some { ThingID := cfg.ID, ChannelID := cfg.ChannelID, Typ := readerType, Table := res.2.1 })

/-- The interface `Service`, as the event consumer uses it, over a state `σ`: each method
returns the state after the call and the error. -/
structure Service (σ : Type) where
  CreateThing : σ → String → String → String → Res (σ × Option Error)
  UpdateThing : σ → String → String → String → Res (σ × Option Error)
  RemoveThing : σ → String → Res (σ × Option Error)
  CreateChannel : σ → String → String → Res (σ × Option Error)
  RemoveChannel : σ → String → Res (σ × Option Error)

/-- The type `adapterService` as a `Service` on the state of the registry. The file system
behaves as `fault` says at every `SaveAll`; what is written to the file is not kept. -/
def adapterService {R : Type} (ops : ReaderOps R) (fault : SaveFault) : Service (World R) :=
  { CreateThing := fun w thingID channelID metadata =>
      match CreateThing ops w thingID channelID metadata fault with
      | .fault => .fault
      | .blocked => .blocked
      | .ok res => .ok (res.1, res.2.2),
    UpdateThing := fun w _ _ _ => .ok (w, none),
    RemoveThing := fun w thingID =>
      match RemoveThing ops w thingID fault with
      | .fault => .fault
      | .blocked => .blocked
      | .ok res => .ok (res.1, res.2.2),
    CreateChannel := fun w _ _ => .ok (w, none),
    RemoveChannel := fun w _ => .ok (w, none) }

end dbreader

/-! ## readers/dbreader/mssql/reader.go -/

namespace mssql

/-- The type `mssqlReader`. -/
structure mssqlReader where
  DBType : String
  Server : String
  Instance : String
  Port : Int
  User : String
  Pass : String
  Database : String
  appName : String
  TableName : String
  Columns : String
  Where : String
  Interval64 : Rat
  deriving DecidableEq, Repr

/-- The method `mssqlReader.Init`. -/
def Init (r : mssqlReader) (_params : List (String × String)) : mssqlReader :=
  let r1 := if r.Where = "" then { r with Where := "1=1" } else r
  let r2 := if r1.Columns = "" then { r1 with Columns := "*" } else r1
  { r2 with appName := "dbreader" }

/-- The method `mssqlReader.Interval`. -/
def Interval (r : mssqlReader) : Rat := r.Interval64

end mssql

/-! ## readers/dbreader/redis/streams.go and events.go -/

namespace redis

open dbreader

def thingCreate : String := "thing.create"

def thingUpdate : String := "thing.update"

def thingRemove : String := "thing.remove"

def channelRemove : String := "channel.remove"

/-- A value of the map `msg.Values` (a `map[string]interface{}`): a string, or a value of
another type. -/
inductive Value where
  | str (s : String)
  | other
  deriving DecidableEq, Repr

/-- The map `msg.Values`, by its entries. -/
abbrev Values := List (String × Value)

/-- Go `event[key]`. -/
def get : Values → String → Option Value
  | [], _ => none
  | e :: event, key => if e.1 = key then some e.2 else get event key

/-- The function `read`: the string under `key`, or `dflt` when there is none or the value
is not a string. -/
def read (event : Values) (key dflt : String) : String :=
  match get event key with
  | some (.str val) => val
  | _ => dflt

/-- The type `dbReaderMetadata`; `D` is the type of the field `DbReaderData`. -/
structure dbReaderMetadata (D : Type) where
  Typ : String
  DbReaderData : D
  ChannelID : String

structure createThingEvent where
  id : String
  channelID : String
  dbReaderData : String
  deriving DecidableEq, Repr

structure removeThingEvent where
  id : String
  deriving DecidableEq, Repr

structure removeChannelEvent where
  id : String
  deriving DecidableEq, Repr

/-- The errors the consumer meets: the value `errMetadataType`, which it compares with by
identity, an error of `encoding/json`, or an error a service method returned. -/
inductive Err where
  | errMetadataType
  | json (msg : String)
  | service (e : Error)
  deriving DecidableEq, Repr

/-- The method `Error` of an error. -/
def Err.Error : Err → String
  | .errMetadataType => "metadatada is not of type dbreader"
  | .json msg => msg
  | .service e => e

/-- What the consumer uses of `encoding/json`: `json.Unmarshal` of the metadata text into a
zero `dbReaderMetadata`, and `json.Marshal` of the field `DbReaderData`; each gives a result
or the message of an error. -/
structure JSON (D : Type) where
  Unmarshal : String → Except String (dbReaderMetadata D)
  Marshal : D → Except String String

/-- The function `decodeCreateThing`. -/
def decodeCreateThing {D : Type} (js : JSON D) (event : Values) : Except Err createThingEvent :=
  let strmeta := read event "metadata" "\x7b\x7d"
  match js.Unmarshal strmeta with
  | .error e => .error (.json e)
  | .ok metadata =>
    if metadata.Typ ≠ "dbReader" then .error .errMetadataType
    else
      match js.Marshal metadata.DbReaderData with
      | .error e => .error (.json e)
      | .ok dbReaderDataJSON =>
        .ok { id := read event "id" "", channelID := metadata.ChannelID,
              dbReaderData := dbReaderDataJSON }

def decodeRemoveThing (event : Values) : removeThingEvent := { id := read event "id" "" }

def decodeRemoveChannel (event : Values) : removeChannelEvent := { id := read event "id" "" }

/-- What the consumer does, in the order it happens: the calls of the service, the lines
it logs, and the entries it acknowledges (`XAck`). -/
inductive Effect where
  | createThing (id channelID dbReaderData : String)
  | updateThing (id channelID dbReaderData : String)
  | removeThing (id : String)
  | removeChannel (id : String)
  | debug (msg : String)
  | warn (msg : String)
  | ack (id : String)
  deriving DecidableEq, Repr

/-- A call of a service method by a handler: the state after it, the call, and the error. -/
def called {σ : Type} (call : Effect) (res : Res (σ × Option Error)) :
    Res (σ × List Effect × Option Err) :=
  match res with
  | .fault => .fault
  | .blocked => .blocked
  | .ok r => .ok (r.1, [call], r.2.map Err.service)

def handleCreateThing {σ : Type} (svc : Service σ) (st : σ) (cte : createThingEvent) :
    Res (σ × List Effect × Option Err) :=
  called (.createThing cte.id cte.channelID cte.dbReaderData)
    (svc.CreateThing st cte.id cte.channelID cte.dbReaderData)

def handleUpdateThing {σ : Type} (svc : Service σ) (st : σ) (cte : createThingEvent) :
    Res (σ × List Effect × Option Err) :=
  called (.updateThing cte.id cte.channelID cte.dbReaderData)
    (svc.UpdateThing st cte.id cte.channelID cte.dbReaderData)

def handleRemoveThing {σ : Type} (svc : Service σ) (st : σ) (rte : removeThingEvent) :
    Res (σ × List Effect × Option Err) :=
  called (.removeThing rte.id) (svc.RemoveThing st rte.id)

def handleRemoveChannel {σ : Type} (svc : Service σ) (st : σ) (rce : removeChannelEvent) :
    Res (σ × List Effect × Option Err) :=
  called (.removeChannel rce.id) (svc.RemoveChannel st rce.id)

/-- The `switch` of `Subscribe` on one entry: the state, what was done, and `err`. -/
def handleEvent {σ D : Type} (js : JSON D) (svc : Service σ) (st : σ) (event : Values) :
    Res (σ × List Effect × Option Err) :=
  match get event "operation" with
  | some (.str op) =>
    if op = thingCreate then
      match decodeCreateThing js event with
      | .error e => .ok (st, [], some e)
      | .ok cte => handleCreateThing svc st cte
    else if op = thingUpdate then
      match decodeCreateThing js event with
      | .error e => .ok (st, [.debug e.Error], some e)
      | .ok ute => handleCreateThing svc st ute
    else if op = thingRemove then handleRemoveThing svc st (decodeRemoveThing event)
    else if op = channelRemove then handleRemoveChannel svc st (decodeRemoveChannel event)
    else .ok (st, [], none)
  | _ => .ok (st, [], none)

/-- An entry of the stream: the type `redis.XMessage`. -/
structure XMessage where
  ID : String
  Values : Values
  deriving DecidableEq, Repr

/-- The loop of `Subscribe` over the entries of one batch, `streams[0].Messages`: an error
other than `errMetadataType` is logged and ends the loop, otherwise the entry is
acknowledged. `log` holds what was done before. -/
def handleMessages {σ D : Type} (js : JSON D) (svc : Service σ) :
    List XMessage → σ → List Effect → Res (σ × List Effect)
  | [], st, log => .ok (st, log)
  | msg :: msgs, st, log =>
    match handleEvent js svc st msg.Values with
    | .fault => .fault
    | .blocked => .blocked
    | .ok (st1, done, err) =>
      match err with
      | none => handleMessages js svc msgs st1 (log ++ done ++ [.ack msg.ID])
      | some e =>
        if e ≠ .errMetadataType then
          .ok (st1, log ++ done ++ [.warn ("Failed to handle event sourcing: " ++ e.Error)])
        else handleMessages js svc msgs st1 (log ++ done ++ [.ack msg.ID])

/-- The entries a log acknowledges. -/
def acked : List Effect → List String
  | [] => []
  | .ack id :: log => id :: acked log
  | _ :: log => acked log

/-- The calls of the service in a log. -/
def calls (log : List Effect) : List Effect :=
  log.filter (fun e =>
    match e with
    | .debug _ => false
    | .warn _ => false
    | .ack _ => false
    | _ => true)

/-- The entries `msgs` are handled one after the other, from the state `st` to the state
`st1`, each with no error or with `errMetadataType`, and each is acknowledged; `log` is
what is done on the way. -/
inductive Handled {σ D : Type} (js : JSON D) (svc : Service σ) :
    σ → List XMessage → σ → List Effect → Prop where
  | nil (st : σ) : Handled js svc st [] st []
  | cons (st st1 st2 : σ) (msg : XMessage) (msgs : List XMessage) (done log : List Effect)
      (err : Option Err) :
      handleEvent js svc st msg.Values = .ok (st1, done, err) →
      (err = none ∨ err = some .errMetadataType) →
      Handled js svc st1 msgs st2 log →
      Handled js svc st (msg :: msgs) st2 (done ++ [.ack msg.ID] ++ log)

end redis

/-! ## readers/dbreader/fieldbinding/fieldbinding.go -/

namespace fieldbinding

/-- What `GetFieldArr` uses of the driver, for values of type `V`: `Scan` gives the text
`u.String()` of the `UniqueIdentifier` `u` when `u.Scan(v)` returns no error, and `str` is
a string as a value. -/
structure Driver (V : Type) where
  Scan : Option V → Option String
  str : String → V

/-- The type `FieldBinding`, for values of type `V`; `none` is the nil interface. An entry
of `FieldPtrArr` is the position of the slot of `FieldArr` it points to. `FieldTypeArr`,
which holds nil pointers only and is never read, and the lock are left out. -/
structure FieldBinding (V : Type) where
  FieldArr : List (Option V)
  FieldPtrArr : List (Option Nat)
  FieldCount : Int
  MapFieldToID : Option (List (String × Int))

/-- The function `NewFieldBinding`. -/
def NewFieldBinding {V : Type} : FieldBinding V :=
  { FieldArr := [], FieldPtrArr := [], FieldCount := 0, MapFieldToID := none }

/-- Go `m[k] = v` on the entries of a map. -/
def mapPut {α : Type} (m : List (String × α)) (k : String) (v : α) : List (String × α) :=
  m.filter (fun e => e.1 != k) ++ [(k, v)]

/-- Go `m[k]` with the comma-ok form. -/
def mapFind {α : Type} : List (String × α) → String → Option α
  | [], _ => none
  | e :: m, k => if e.1 = k then some e.2 else mapFind m k

/-- The method `put`; `none` is the fault of an assignment to an entry of the nil map. -/
def put {V : Type} (fb : FieldBinding V) (k : String) (v : Int) : Option (FieldBinding V) :=
  match fb.MapFieldToID with
  | none => none
  | some m => some { fb with MapFieldToID := some (mapPut m k v) }

/-- The loop of `PutFields`, at position `k`; `none` is an index out of range. -/
def putLoop {V : Type} : List String → Nat → FieldBinding V → Option (FieldBinding V)
  | [], _, fb => some fb
  | v :: fArr, k, fb =>
    if k < fb.FieldPtrArr.length ∧ k < fb.FieldArr.length then
      match put { fb with FieldPtrArr := fb.FieldPtrArr.set k (some k) } v k with
      | none => none
      | some fb1 => putLoop fArr (k + 1) fb1
    else none

/-- The method `PutFields`. -/
def PutFields {V : Type} (fb : FieldBinding V) (fArr : List String) : Option (FieldBinding V) :=
  putLoop fArr 0
    { fb with FieldArr := List.replicate fArr.length none,
              FieldPtrArr := List.replicate fArr.length none,
              MapFieldToID := some [] }

def GetFieldPtrArr {V : Type} (fb : FieldBinding V) : List (Option Nat) := fb.FieldPtrArr

/-- What `GetFieldArr` stores for the content of a slot: the text of the unique identifier
when the content scans as one, else the content. -/
def rendered {V : Type} (drv : Driver V) (cell : Option V) : Option V :=
  match drv.Scan cell with
  | none => cell
  | some text => some (drv.str text)

/-- The loop of `GetFieldArr` over the entries of `MapFieldToID`; `none` is an index out of
range. -/
def getLoop {V : Type} (drv : Driver V) (arr : List (Option V)) :
    List (String × Int) → List (String × Option V) → Option (List (String × Option V))
  | [], m => some m
  | e :: entries, m =>
    if e.2 < 0 then none
    else
      match arr[e.2.toNat]? with
      | none => none
      | some cell => getLoop drv arr entries (mapPut m e.1 (rendered drv cell))

/-- The method `GetFieldArr`: the row, by its entries. -/
def GetFieldArr {V : Type} (drv : Driver V) (fb : FieldBinding V) :
    Option (List (String × Option V)) :=
  getLoop drv fb.FieldArr (fb.MapFieldToID.getD []) []

/-- The last position a name has in a list of names. -/
def lastIndexOf : List String → String → Option Nat
  | [], _ => none
  | x :: names, name =>
    match lastIndexOf names name with
    | some j => some (j + 1)
    | none => if x = name then some 0 else none

end fieldbinding

/-! ## rules/rules.go and rules/api/rules/http/requests.go -/

namespace rules

/-- The type `Action`. -/
structure Action where
  Host : String
  Port : String
  Channel : String
  Subtopic : String
  deriving DecidableEq, Repr

/-- The type `Rule`; an entry of `Actions` is given by its field `Mainflux`, and `Options`
by its field `SendMetaToSink`. -/
structure Rule where
  ID : String
  SQL : String
  Actions : List Action
  SendMetaToSink : Bool
  deriving DecidableEq, Repr

/-- The two error values of the package `rules` that request validation returns. -/
inductive Err where
  | ErrUnauthorizedAccess
  | ErrMalformedEntity
  deriving DecidableEq, Repr

/-- The type `ruleReq`. -/
structure ruleReq where
  token : String
  name : String
  Rule : Rule
  deriving DecidableEq, Repr

/-- The method `ruleReq.validate`. -/
def ruleReq.validate (req : ruleReq) : Option Err :=
  if req.token = "" then some .ErrUnauthorizedAccess else none

end rules

/-! ## JSON texts -/

namespace Json

def isWs (c : Char) : Bool := c = ' ' || c = '\t' || c = '\n' || c = '\r'

def skipWs : List Char → List Char
  | [] => []
  | c :: s => if isWs c then skipWs s else c :: s

def isDigit (c : Char) : Bool := decide ('0' ≤ c ∧ c ≤ '9')

def isHex (c : Char) : Bool :=
  isDigit c || decide ('a' ≤ c ∧ c ≤ 'f') || decide ('A' ≤ c ∧ c ≤ 'F')

/-- A string of RFC 8259 after its opening quote: what follows the closing quote. -/
def strRest : List Char → Option (List Char)
  | [] => none
  | [c] => if c = '"' then some [] else none
  | c :: d :: s =>
    if c = '"' then some (d :: s)
    else if c = '\\' then
      if d ∈ ['"', '\\', '/', 'b', 'f', 'n', 'r', 't'] then strRest s
      else if d = 'u' then
        match s with
        | h1 :: h2 :: h3 :: h4 :: s1 =>
          if isHex h1 && isHex h2 && isHex h3 && isHex h4 then strRest s1 else none
        | _ => none
      else none
    else if c.toNat < 0x20 then none
    else strRest (d :: s)

def digits : List Char → List Char
  | [] => []
  | c :: s => if isDigit c then digits s else c :: s

/-- The optional exponent of a number. -/
def expPart (s : List Char) : Option (List Char) :=
  match s with
  | [] => some []
  | e :: t =>
    if e = 'e' || e = 'E' then
      let t1 := match t with
        | [] => []
        | sg :: u => if sg = '+' || sg = '-' then u else sg :: u
      match t1 with
      | [] => none
      | d :: u => if isDigit d then some (digits u) else none
    else some (e :: t)

/-- The optional fraction of a number, and the exponent. -/
def fracPart (s : List Char) : Option (List Char) :=
  match s with
  | [] => some []
  | p :: t =>
    if p = '.' then
      match t with
      | [] => none
      | d :: u => if isDigit d then expPart (digits u) else none
    else expPart (p :: t)

/-- A number of RFC 8259: what follows it. -/
def number (s : List Char) : Option (List Char) :=
  let s1 := match s with
    | [] => []
    | m :: t => if m = '-' then t else m :: t
  match s1 with
  | [] => none
  | c :: t =>
    if c = '0' then fracPart t
    else if isDigit c then fracPart (digits t)
    else none

def literal (lit : List Char) (s : List Char) : Option (List Char) :=
  if lit.isPrefixOf s then some (s.drop lit.length) else none

mutual

/-- A value of RFC 8259, after optional white space: what follows it. -/
def value : Nat → List Char → Option (List Char)
  | 0, _ => none
  | fuel + 1, s =>
    match skipWs s with
    | [] => none
    | c :: t =>
      if c = '"' then strRest t
      else if c = '[' then
        match skipWs t with
        | [] => none
        | d :: u => if d = ']' then some u else elements fuel (d :: u)
      else if c = '\x7b' then
        match skipWs t with
        | [] => none
        | d :: u => if d = '\x7d' then some u else members fuel (d :: u)
      else if c = 't' then literal "true".toList (c :: t)
      else if c = 'f' then literal "false".toList (c :: t)
      else if c = 'n' then literal "null".toList (c :: t)
      else number (c :: t)

/-- The elements of an array that is not empty, and its closing bracket. -/
def elements : Nat → List Char → Option (List Char)
  | 0, _ => none
  | fuel + 1, s =>
    match value fuel s with
    | none => none
    | some r =>
      match skipWs r with
      | [] => none
      | c :: t => if c = ']' then some t else if c = ',' then elements fuel t else none

/-- The members of an object that is not empty, and its closing brace. -/
def members : Nat → List Char → Option (List Char)
  | 0, _ => none
  | fuel + 1, s =>
    match skipWs s with
    | [] => none
    | q :: k =>
      if q = '"' then
        match strRest k with
        | none => none
        | some r =>
          match skipWs r with
          | [] => none
          | c :: t =>
            if c = ':' then
              match value fuel t with
              | none => none
              | some r1 =>
                match skipWs r1 with
                | [] => none
                | e :: u =>
                  if e = '\x7d' then some u else if e = ',' then members fuel u else none
            else none
      else none

end

/-- A text is a well-formed JSON document (RFC 8259): one value, white space around it. -/
def Valid (s : String) : Bool :=
  match value (2 * s.length + 2) s.toList with
  | none => false
  | some r => (skipWs r).isEmpty

end Json

/-! ## Example data -/

namespace dbreader

open reader

/-- A float format for the examples, which hold no float. -/
def exampleFmt : Go.Float64 → String := fun _ => "0"

/-- A bus publisher that never fails. -/
def okPublisher : Publisher := fun _ _ _ => none

/-- A bus publisher that fails on its second call. -/
def secondCallFails : Publisher := fun log _ _ => if log.length = 1 then some "bus down" else none

/-- The one-row batch `{mfx_id: 7, temp: "21.5", note: ""}` for thing `th`, channel `ch`. -/
def exampleMessage : Message :=
  { Typ := "csv", ChannelID := "ch", ThingID := "th",
    Table := [[(MFX_ID, .int 7), ("temp", .str "21.5"), ("note", .str "")]] }

/-- A batch of two rows with three cells to forward in all. -/
def twoRowMessage : Message :=
  { Typ := "csv", ChannelID := "ch", ThingID := "th",
    Table := [[(MFX_ID, .int 1), ("temp", .str "21.5"), ("hum", .int 40)],
              [(MFX_ID, .int 2), ("temp", .str "22")]] }

end dbreader

namespace csv

open reader

/-- A reader of `data.csv` with no column allow-list that has consumed nothing yet. -/
def exampleReader : csvReader :=
  { FileName := "data.csv", ColsStr := "", columns := [], Interval64 := 60, DBType := "csv",
    HeadPos := 0 }

/-- The header `a,b,c`. -/
def headerABC : List String := ["a", "b", "c"]

/-- Three data rows under the header `a,b,c`. -/
def threeRows : List (List String) := [["1", "2", "3"], ["4", "5", "6"], ["7", "8", "9"]]

/-- Two more data rows. -/
def twoMoreRows : List (List String) := [["x", "y", "z"], ["p", "q", "r"]]

/-- The file with header `a,b,c` and the given data rows. -/
def fileABC (rows : List (List String)) : Option (List Go.CsvLine) :=
  some (.ok headerABC :: rows.map .ok)

end csv

namespace dbreader

/-- The csv reader variant, with a stand-in for the JSON decoding of a payload: the text
`null` gives the nil reader, the empty text is an error, any other text is taken as the
file name. -/
def exampleOps : ReaderOps csv.csvReader :=
  { readerFactory := { FileName := "", ColsStr := "", columns := [], Interval64 := 0,
                       DBType := "", HeadPos := 0 },
    Unmarshal := fun data r =>
      if data = "null" then .ok none
      else if data = "" then .error "unexpected end of JSON input"
      else .ok (some { r with FileName := data }),
    Init := fun params r => csv.Init r params,
    Interval := csv.Interval,
    Marshal := csv.Marshal }

/-- A registry that holds one entry, `t1`, whose scheduler (address 0) has a running
ticker and a polling task. -/
def exampleWorld : World csv.csvReader :=
  { rm := { cfgFile := "readers.cfg", readerType := "csv",
            configs := some [("t1", { ID := "t1", ChannelID := "ch1", scheduler := 0,
                                      Reader := csv.exampleReader })],
            params := [] },
    heap := [{ ticker := some { period := 60000000000, stopped := false }, interval := 60 }],
    tasks := [(0, { ID := "t1", ChannelID := "ch1", scheduler := 0,
                    Reader := csv.exampleReader })],
    trace := [] }

/-- A registry whose map is empty, as `LoadAll` of an empty file leaves it. -/
def emptyWorld : World csv.csvReader :=
  { rm := { cfgFile := "readers.cfg", readerType := "csv", configs := some [], params := [] },
    heap := [], tasks := [], trace := [] }

/-- The store with one line, for the thing `t1` on channel `ch1` with the example reader. -/
def storeT1 : Disk csv.csvReader :=
  .file [some { ID := "t1", ChannelID := "ch1", Reader := some csv.exampleReader }]

/-- A line for the thing `t1` whose reader has no interval: it decodes to 0. -/
def lineNoInterval : StoredConfig csv.csvReader :=
  { ID := "t1", ChannelID := "ch1",
    Reader := some { FileName := "data.csv", ColsStr := "", columns := [], Interval64 := 0,
                     DBType := "csv", HeadPos := 0 } }

/-- Two lines for the thing `t1`, on the channels `ch1` and `ch2`, and one for `t2`. -/
def threeLines : List (StoredConfig csv.csvReader) :=
  [{ ID := "t1", ChannelID := "ch1", Reader := some csv.exampleReader },
   { ID := "t2", ChannelID := "ch1", Reader := some csv.exampleReader },
   { ID := "t1", ChannelID := "ch2", Reader := some csv.exampleReader }]

end dbreader

namespace csv

/-- The file with header `a,b,c`, the row `1,2,3` and then a record of two fields. -/
def shortRecordFile : Option (List Go.CsvLine) :=
  some [.ok headerABC, .ok ["1", "2", "3"], .ok ["4", "5"]]

/-- The same file with the short record completed to `4,5,6`. -/
def completedFile : Option (List Go.CsvLine) :=
  some [.ok headerABC, .ok ["1", "2", "3"], .ok ["4", "5", "6"]]

end csv

namespace dbreader

open reader

/-- A batch of one row whose cell `note` holds the text `a"b`. -/
def quoteMessage : Message :=
  { Typ := "csv", ChannelID := "ch", ThingID := "th",
    Table := [[(MFX_ID, .int 1), ("note", .str "a\"b")]] }

end dbreader

namespace redis

open dbreader

/-- A stand-in for `encoding/json` on the metadata of an event: the text `\x7b\x7d` decodes
to the zero value (the nil map, which is marshalled as `null`), a text `type|channel|data`
to its three parts, and any other text is an error. -/
def exampleJSON : JSON String :=
  { Unmarshal := fun text =>
      if text = "\x7b\x7d" then .ok { Typ := "", DbReaderData := "null", ChannelID := "" }
      else
        match Go.Split text '|' with
        | [typ, channel, data] => .ok { Typ := typ, DbReaderData := data, ChannelID := channel }
        | _ => .error "invalid character",
    Marshal := fun data => .ok data }

/-- A `thing.create` entry whose metadata has the type `other`. -/
def otherTypeEntry : XMessage :=
  { ID := "1-0",
    Values := [("operation", .str "thing.create"), ("id", .str "t9"),
               ("metadata", .str "other|ch9|x.csv")] }

/-- A batch of three entries: `t1` is removed, `t1` is removed once more, and a channel is
removed. -/
def removeTwiceBatch : List XMessage :=
  [{ ID := "1-0", Values := [("operation", .str "thing.remove"), ("id", .str "t1")] },
   { ID := "2-0", Values := [("operation", .str "thing.remove"), ("id", .str "t1")] },
   { ID := "3-0", Values := [("operation", .str "channel.remove"), ("id", .str "ch1")] }]

end redis

namespace fieldbinding

/-- A stand-in for the driver on texts: the text `guid` scans as a unique identifier. -/
def exampleDriver : Driver String :=
  { Scan := fun v => if v = some "guid" then some "6F9619FF-8B86-D011-B42D-00C04FC964FF" else none,
    str := fun text => text }

end fieldbinding

/-! ## Properties -/

/-! ### Rows as maps -/

namespace reader

theorem Row.get_set_self (row : Row) (k : String) (v : Value) : (row.set k v).get k = some v := by
  induction row with
  | nil => simp [Row.set, Row.get]
  | cons e row ih =>
    by_cases h : e.1 = k
    · simp [Row.set, h, Row.get]
    · simp [Row.set, h, Row.get, ih]

theorem Row.get_set_ne (row : Row) (k k1 : String) (v : Value) (hne : k1 ≠ k) :
    (row.set k v).get k1 = row.get k1 := by
  induction row with
  | nil => simp [Row.set, Row.get, Ne.symm hne]
  | cons e row ih =>
    by_cases h : e.1 = k
    · have h1 : ¬ e.1 = k1 := fun h2 => hne (h2.symm.trans h)
      simp [Row.set, h, Row.get, Ne.symm hne, h1]
    · by_cases h2 : e.1 = k1
      · rw [show Row.set (e :: row) k v = e :: Row.set row k v from by simp [Row.set, h]]
        simp [Row.get, h2]
      · simp [Row.set, h, Row.get, h2, ih]

theorem Row.mem_keys_set (row : Row) (k k1 : String) (v : Value) :
    k1 ∈ (row.set k v).keys ↔ k1 = k ∨ k1 ∈ row.keys := by
  induction row with
  | nil => simp [Row.set, Row.keys]
  | cons e row ih =>
    by_cases h : e.1 = k
    · simp only [Row.set, h, if_true, Row.keys, List.map_cons, List.mem_cons]
      tauto
    · simp only [Row.set, h, if_false, Row.keys, List.map_cons, List.mem_cons] at ih ⊢
      rw [ih]
      tauto

theorem Row.nodup_keys_set (row : Row) (k : String) (v : Value) (hnd : row.keys.Nodup) :
    (row.set k v).keys.Nodup := by
  induction row with
  | nil => simp [Row.set, Row.keys]
  | cons e row ih =>
    by_cases h : e.1 = k
    · simp only [Row.set, h, if_true]
      simp only [Row.keys, List.map_cons, List.nodup_cons] at hnd ⊢
      rw [← h]
      exact hnd
    · simp only [Row.set, h, if_false]
      simp only [Row.keys, List.map_cons, List.nodup_cons] at hnd ⊢
      refine ⟨?_, ih hnd.2⟩
      intro hmem
      have := (Row.mem_keys_set row k e.1 v).1 hmem
      rcases this with h1 | h1
      · exact h h1
      · exact hnd.1 h1

theorem Row.get_eq_find (row : Row) (k : String) :
    row.get k = (row.find? (fun e => decide (e.1 = k))).map (fun e => e.2) := by
  induction row with
  | nil => rfl
  | cons e row ih =>
    by_cases h : e.1 = k
    · simp [Row.get, List.find?_cons, h]
    · simp [Row.get, List.find?_cons, h, ih]

theorem Row.get_of_perm {row l : Row} (hp : row.Perm l) (k : String) (v : Value)
    (hex : ∃ e ∈ l, e.1 = k) (huniq : ∀ e ∈ l, e.1 = k → e.2 = v) : row.get k = some v := by
  rw [Row.get_eq_find]
  cases hfind : row.find? (fun e => decide (e.1 = k)) with
  | none =>
    obtain ⟨e, he, hk⟩ := hex
    have := List.find?_eq_none.1 hfind e (hp.mem_iff.2 he)
    simp [hk] at this
  | some e =>
    have hmem := List.mem_of_find?_eq_some hfind
    have hk := List.find?_some hfind
    simp at hk
    simp [huniq e (hp.mem_iff.1 hmem) hk]

end reader

namespace dbreader

open reader

/-! ### The payload encoder -/

/-- C1: `genSenML rowID v` is the text `[{"n":"<rowID>","<K>":<V>}]`, where the tag `K` is
`v` when `v` parses as a float, else `vb` when it parses as a boolean, else `vd` when one
of the timestamp layouts parses it, else `vs`, and `V` is `v` itself, put between double
quotes exactly when `K` is `vs`. So `42` gets tag `v`, `true` gets `vb`,
`2024-01-02T03:04:05Z` gets `vd`, and `hello` gets `vs` and is quoted. -/
theorem genSenML_payload :
    (∀ rowID v : String, ∃ K : String,
      K = (if isNumeric v then "v" else if isBoolean v then "vb"
           else if isDate v then "vd" else "vs") ∧
      genSenML rowID v =
        "[\x7b\"n\":\"" ++ rowID ++ "\",\"" ++ K ++ "\":"
          ++ (if K = "vs" then "\"" ++ v ++ "\"" else v) ++ "\x7d]")
    ∧ (∀ rowID : String, genSenML rowID "42" = "[\x7b\"n\":\"" ++ rowID ++ "\",\"v\":42\x7d]")
    ∧ (∀ rowID : String,
        genSenML rowID "true" = "[\x7b\"n\":\"" ++ rowID ++ "\",\"vb\":true\x7d]")
    ∧ (∀ rowID : String, genSenML rowID "2024-01-02T03:04:05Z" =
        "[\x7b\"n\":\"" ++ rowID ++ "\",\"vd\":2024-01-02T03:04:05Z\x7d]")
    ∧ (∀ rowID : String, genSenML rowID "hello" =
        "[\x7b\"n\":\"" ++ rowID ++ "\",\"vs\":\"hello\"\x7d]") := by
  refine ⟨?_, ?_, ?_, ?_, ?_⟩
  · intro rowID v
    refine ⟨_, rfl, ?_⟩
    unfold genSenML senMLKey
    have e : ∀ X : String, "\",\"vs\":" ++ ("\"" ++ X) = "\",\"vs\":\"" ++ X := fun X => by
      rw [← String.append_assoc]; rfl
    split_ifs <;> simp_all [String.append_assoc]
  · intro rowID
    have h : senMLKey "42" = ("v", "") := by decide
    simp [genSenML, h, String.append_assoc]
  · intro rowID
    have h : senMLKey "true" = ("vb", "") := by decide
    simp [genSenML, h, String.append_assoc]
  · intro rowID
    have h : senMLKey "2024-01-02T03:04:05Z" = ("vd", "") := by decide
    simp [genSenML, h, String.append_assoc]
  · intro rowID
    have h : senMLKey "hello" = ("vs", "\"") := by decide
    simp [genSenML, h, String.append_assoc]

/-! ### The publish loop -/

theorem attempt_never_fails (pub : Publisher) (hpub : ∀ log t x, pub log t x = none)
    (cs log : List Call) : attempt pub cs log = (log ++ cs, none) := by
  induction cs generalizing log with
  | nil => simp [attempt]
  | cons c cs ih => simp [attempt, hpub, ih]

theorem attempt_append (pub : Publisher) (a b log : List Call) :
    attempt pub (a ++ b) log =
      match attempt pub a log with
      | (l, some err) => (l, some err)
      | (l, none) => attempt pub b l := by
  induction a generalizing log with
  | nil => simp [attempt]
  | cons c a ih =>
    simp only [List.cons_append, attempt]
    cases h : pub log c.1 c.2 with
    | some err => simp
    | none => simpa using ih (log ++ [c])

theorem attempt_log (pub : Publisher) (cs log : List Call) :
    ∃ pre, (attempt pub cs log).1 = log ++ pre ∧ pre <+: cs := by
  induction cs generalizing log with
  | nil => exact ⟨[], by simp [attempt]⟩
  | cons c cs ih =>
    simp only [attempt]
    cases h : pub log c.1 c.2 with
    | some err => exact ⟨[c], by simp, by simp [List.prefix_cons_iff]⟩
    | none =>
      obtain ⟨pre, h1, h2⟩ := ih (log ++ [c])
      exact ⟨c :: pre, by simp [h1], by simpa [List.cons_prefix_cons] using h2⟩

theorem attempt_error (pub : Publisher) (cs log : List Call) (err : Error)
    (h : (attempt pub cs log).2 = some err) :
    ∃ pre c, (attempt pub cs log).1 = log ++ pre ++ [c] ∧ pub (log ++ pre) c.1 c.2 = some err := by
  induction cs generalizing log with
  | nil => simp [attempt] at h
  | cons c cs ih =>
    simp only [attempt] at h ⊢
    cases hp : pub log c.1 c.2 with
    | some e =>
      rw [hp] at h
      simp at h
      exact ⟨[], c, by simp, by simpa [h] using hp⟩
    | none =>
      rw [hp] at h
      obtain ⟨pre, d, h1, h2⟩ := ih (log ++ [c]) h
      exact ⟨c :: pre, d, by simpa using h1, by simpa using h2⟩

theorem attempt_failing_call_is_last (pub : Publisher) (cs log pre post : List Call) (c : Call)
    (err : Error) (h : (attempt pub cs log).1 = log ++ pre ++ c :: post)
    (hf : pub (log ++ pre) c.1 c.2 = some err) :
    post = [] ∧ (attempt pub cs log).2 = some err := by
  induction cs generalizing log pre with
  | nil =>
    simp [attempt] at h
  | cons d cs ih =>
    simp only [attempt] at h ⊢
    cases hp : pub log d.1 d.2 with
    | some e =>
      rw [hp] at h
      simp only [List.append_assoc, List.append_cancel_left_eq] at h
      cases pre with
      | nil =>
        simp at h
        obtain ⟨rfl, rfl⟩ := h
        simp at hf
        rw [hp] at hf
        simpa using hf
      | cons x pre =>
        simp at h
    | none =>
      rw [hp] at h
      obtain ⟨q, hq, -⟩ := attempt_log pub cs (log ++ [d])
      cases pre with
      | nil =>
        rw [hq] at h
        simp at h
        obtain ⟨rfl, -⟩ := h
        simp at hf
        rw [hp] at hf
        simp at hf
      | cons x pre =>
        have hx : x = d := by
          rw [hq] at h
          simp at h
          exact h.1.symm
        subst hx
        have h2 : (attempt pub cs (log ++ [x])).1 = (log ++ [x]) ++ pre ++ c :: post := by
          simpa using h
        exact ih (log ++ [x]) pre h2 (by simpa using hf)

theorem publishRow_eq_attempt (fmtFloat : Go.Float64 → String) (pub : Publisher) (m : Message)
    (rowID : String) (cells : List (String × Value)) (log : List Call) :
    publishRow fmtFloat pub m rowID cells log =
      attempt pub ((cells.filter (forwarded fmtFloat)).map (mkCall fmtFloat m rowID)) log := by
  induction cells generalizing log with
  | nil => simp [publishRow, attempt]
  | cons e cells ih =>
    obtain ⟨col, val⟩ := e
    unfold publishRow
    by_cases h1 : val = Value.null ∨ col = MFX_ID
    · have hf : forwarded fmtFloat (col, val) = false := by
        simp only [forwarded, decide_eq_false_iff_not]
        rcases h1 with h | h <;> simp [h]
      simp [h1, hf, ih]
    · by_cases h2 : Go.Trim (Sprint fmtFloat val) = ""
      · have hf : forwarded fmtFloat (col, val) = false := by
          simp [forwarded, h2]
        simp [h1, h2, hf, ih]
      · have hf : forwarded fmtFloat (col, val) = true := by
          simp only [forwarded, decide_eq_true_eq]
          push_neg at h1
          exact ⟨h1.1, h1.2, h2⟩
        simp only [h1, h2, if_false, List.filter_cons, hf, if_true, List.map_cons, attempt, mkCall]
        cases pub log ("channels." ++ m.ChannelID ++ "." ++ col)
          { Publisher := m.ThingID, Protocol := protocol, Channel := m.ChannelID, Subtopic := col,
            Payload := genSenML rowID (Go.Trim (Sprint fmtFloat val)), Created := 0 } with
        | some err => rfl
        | none => simpa [mkCall] using ih _

theorem publishRows_eq_attempt (fmtFloat : Go.Float64 → String) (pub : Publisher) (m : Message)
    (rows : List Row) (log : List Call) :
    publishRows fmtFloat pub m rows log = attempt pub (intendedCalls fmtFloat m rows) log := by
  induction rows generalizing log with
  | nil => simp [publishRows, intendedCalls, attempt]
  | cons row rows ih =>
    simp only [publishRows, intendedCalls, List.flatMap_cons, attempt_append,
      publishRow_eq_attempt]
    cases h : attempt pub
        ((row.filter (forwarded fmtFloat)).map (mkCall fmtFloat m (rowIDOf fmtFloat row))) log with
    | mk l r =>
      cases r with
      | some err => rfl
      | none => simpa [intendedCalls] using ih l

theorem Publish_eq_attempt (fmtFloat : Go.Float64 → String) (pub : Publisher) (m : Message) :
    Publish fmtFloat pub m = attempt pub (intendedCalls fmtFloat m m.Table) [] :=
  publishRows_eq_attempt fmtFloat pub m m.Table []

/-- C2: when no publish call fails, `Publish` returns no error and the calls it makes are,
row after row in table order, one call for each cell whose value is not nil, whose column
is not `mfx_id` and whose text is not empty once the spaces around it are trimmed, and no
other call; so the calls for the rows of a first part of the table all come before the
calls for the rows after it. For the one row `{mfx_id: 7, temp: "21.5", note: ""}`, in
whatever order its cells are visited, the only call is the one for `temp`. -/
theorem Publish_one_call_per_cell (fmtFloat : Go.Float64 → String) (pub : Publisher)
    (m : Message) (hpub : ∀ log t x, pub log t x = none) :
    (Publish fmtFloat pub m).2 = none
    ∧ (Publish fmtFloat pub m).1 =
        m.Table.flatMap (fun row =>
          (row.filter (fun e => decide (e.2 ≠ Value.null ∧ e.1 ≠ MFX_ID
              ∧ Go.Trim (Sprint fmtFloat e.2) ≠ ""))).map
            (mkCall fmtFloat m (rowIDOf fmtFloat row)))
    ∧ (∀ t1 t2 : List Row, m.Table = t1 ++ t2 →
        (Publish fmtFloat pub m).1 =
          (Publish fmtFloat pub { m with Table := t1 }).1
            ++ (Publish fmtFloat pub { m with Table := t2 }).1)
    ∧ (∀ row : Row, row.Perm [(MFX_ID, .int 7), ("temp", .str "21.5"), ("note", .str "")] →
        Publish fmtFloat pub { m with Table := [row] } =
          ([("channels." ++ m.ChannelID ++ ".temp",
             { Publisher := m.ThingID, Protocol := "dbreader", Channel := m.ChannelID,
               Subtopic := "temp", Payload := "[\x7b\"n\":\"7\",\"v\":21.5\x7d]",
               Created := 0 })], none)) := by
  have key : ∀ m1 : Message, Publish fmtFloat pub m1 = (intendedCalls fmtFloat m1 m1.Table, none) := by
    intro m1
    rw [Publish_eq_attempt, attempt_never_fails pub hpub]
    simp
  refine ⟨by rw [key], ?_, ?_, ?_⟩
  · rw [key]
    rfl
  · intro t1 t2 ht
    have h : ∀ u : List Row, mkCall fmtFloat { m with Table := u } = mkCall fmtFloat m :=
      fun u => by funext r e; rfl
    rw [key, key, key, ht]
    simp [intendedCalls, h]
  · intro row hrow
    rw [key]
    have hid : rowIDOf fmtFloat row = "7" := by
      have : row.get MFX_ID = some (.int 7) := by
        apply Row.get_of_perm hrow
        · exact ⟨(MFX_ID, .int 7), by simp, rfl⟩
        · intro e he hk
          simp at he
          rcases he with rfl | rfl | rfl
          · rfl
          · exact absurd hk (by decide)
          · exact absurd hk (by decide)
      simp only [rowIDOf, this, Sprint]
      decide
    have hfil : row.filter (forwarded fmtFloat) = [("temp", .str "21.5")] := by
      have h1 := hrow.filter (forwarded fmtFloat)
      have h2 : List.filter (forwarded fmtFloat)
          [(MFX_ID, Value.int 7), ("temp", Value.str "21.5"), ("note", Value.str "")]
          = [("temp", Value.str "21.5")] := by
        have a1 : forwarded fmtFloat (MFX_ID, Value.int 7) = false := by simp [forwarded]
        have a2 : forwarded fmtFloat ("temp", Value.str "21.5") = true := by
          simp only [forwarded, Sprint, decide_eq_true_eq]
          decide
        have a3 : forwarded fmtFloat ("note", Value.str "") = false := by
          simp only [forwarded, Sprint, decide_eq_false_iff_not]
          decide
        simp [List.filter, a1, a2, a3]
      rw [h2] at h1
      exact List.perm_singleton.1 h1
    have hpay : genSenML "7" (Go.Trim "21.5") = "[\x7b\"n\":\"7\",\"v\":21.5\x7d]" := by decide
    simp [intendedCalls, hid, hfil, mkCall, Sprint, hpay, protocol, String.append_assoc]

/-- Witness of C2: the example batch with a publisher that never fails. -/
theorem Publish_one_call_per_cell_witness :
    (∀ log t x, okPublisher log t x = none)
    ∧ Publish exampleFmt okPublisher exampleMessage =
        ([("channels.ch.temp",
           { Publisher := "th", Protocol := "dbreader", Channel := "ch", Subtopic := "temp",
             Payload := "[\x7b\"n\":\"7\",\"v\":21.5\x7d]", Created := 0 })], none) :=
  ⟨fun _ _ _ => rfl,
   (Publish_one_call_per_cell exampleFmt okPublisher exampleMessage (fun _ _ _ => rfl)).2.2.2
     [(MFX_ID, .int 7), ("temp", .str "21.5"), ("note", .str "")] (List.Perm.refl _)⟩

/-- C3: every call `Publish` makes is the call for a cell `(col, val)` of a row of the
table: its topic is `"channels." + m.ChannelID + "." + col`, and its message has
`Publisher = m.ThingID`, `Channel = m.ChannelID`, `Subtopic = col`, `Protocol = "dbreader"`
and `Payload = genSenML(sampleId, trimmed text of val)`, where the sample id is the text of
the row's `mfx_id` value, or the word `mfx_id` when the row has no such column. -/
theorem Publish_message_fields (fmtFloat : Go.Float64 → String) (pub : Publisher) (m : Message)
    (c : Call) (hc : c ∈ (Publish fmtFloat pub m).1) :
    ∃ row ∈ m.Table, ∃ col val, (col, val) ∈ row
      ∧ c.1 = "channels." ++ m.ChannelID ++ "." ++ col
      ∧ c.2.Publisher = m.ThingID
      ∧ c.2.Channel = m.ChannelID
      ∧ c.2.Subtopic = col
      ∧ c.2.Protocol = "dbreader"
      ∧ c.2.Payload =
          genSenML (match row.get MFX_ID with
                    | some idv => Sprint fmtFloat idv
                    | none => "mfx_id")
            (Go.Trim (Sprint fmtFloat val)) := by
  obtain ⟨pre, h1, h2⟩ := attempt_log pub (intendedCalls fmtFloat m m.Table) []
  rw [Publish_eq_attempt, h1] at hc
  simp only [List.nil_append] at hc
  have hc2 := h2.subset hc
  simp only [intendedCalls, List.mem_flatMap, List.mem_map, List.mem_filter] at hc2
  obtain ⟨row, hrow, e, ⟨he, -⟩, rfl⟩ := hc2
  refine ⟨row, hrow, e.1, e.2, he, rfl, rfl, rfl, rfl, rfl, ?_⟩
  simp only [mkCall, rowIDOf]
  cases row.get MFX_ID <;> rfl

/-- Witness of C3: the call for `temp` of the example batch. -/
theorem Publish_message_fields_witness :
    ∃ row ∈ exampleMessage.Table, ∃ col val, (col, val) ∈ row
      ∧ "channels.ch.temp" = "channels." ++ exampleMessage.ChannelID ++ "." ++ col
      ∧ "th" = exampleMessage.ThingID
      ∧ "ch" = exampleMessage.ChannelID
      ∧ "temp" = col
      ∧ "dbreader" = "dbreader"
      ∧ "[\x7b\"n\":\"7\",\"v\":21.5\x7d]" =
          genSenML (match row.get MFX_ID with
                    | some idv => Sprint exampleFmt idv
                    | none => "mfx_id")
            (Go.Trim (Sprint exampleFmt val)) :=
  Publish_message_fields exampleFmt okPublisher exampleMessage
    ("channels.ch.temp",
      { Publisher := "th", Protocol := "dbreader", Channel := "ch", Subtopic := "temp",
        Payload := "[\x7b\"n\":\"7\",\"v\":21.5\x7d]", Created := 0 })
    (by decide)

/-- C4: a publish call that fails is the last call `Publish` makes, and `Publish` returns
the error of that call; when `Publish` returns an error, it is the error of the last call
it made; when no call it makes fails it returns no error; and the calls it makes are
always a beginning of the calls it makes when nothing fails, so after a failure no call
follows, neither for the rest of the row nor for a later row. -/
theorem Publish_stops_at_first_failure (fmtFloat : Go.Float64 → String) (pub : Publisher)
    (m : Message) :
    (∀ (pre : List Call) (c : Call) (post : List Call) (err : Error),
        (Publish fmtFloat pub m).1 = pre ++ c :: post → pub pre c.1 c.2 = some err →
        post = [] ∧ (Publish fmtFloat pub m).2 = some err)
    ∧ (∀ err : Error, (Publish fmtFloat pub m).2 = some err →
        ∃ pre c, (Publish fmtFloat pub m).1 = pre ++ [c] ∧ pub pre c.1 c.2 = some err)
    ∧ ((∀ (pre : List Call) (c : Call) (post : List Call),
          (Publish fmtFloat pub m).1 = pre ++ c :: post → pub pre c.1 c.2 = none) →
        (Publish fmtFloat pub m).2 = none)
    ∧ (Publish fmtFloat pub m).1 <+: (Publish fmtFloat (fun _ _ _ => none) m).1 := by
  have hsome : ∀ err : Error, (Publish fmtFloat pub m).2 = some err →
      ∃ pre c, (Publish fmtFloat pub m).1 = pre ++ [c] ∧ pub pre c.1 c.2 = some err := by
    intro err h
    rw [Publish_eq_attempt] at h ⊢
    obtain ⟨pre, c, h1, h2⟩ := attempt_error pub _ [] err h
    exact ⟨pre, c, by simpa using h1, by simpa using h2⟩
  refine ⟨?_, hsome, ?_, ?_⟩
  · intro pre c post err h hf
    rw [Publish_eq_attempt] at h ⊢
    exact attempt_failing_call_is_last pub _ [] pre post c err (by simpa using h) (by simpa using hf)
  · intro hall
    cases hr : (Publish fmtFloat pub m).2 with
    | none => rfl
    | some err =>
      obtain ⟨pre, c, h1, h2⟩ := hsome err hr
      have := hall pre c [] h1
      rw [this] at h2
      simp at h2
  · obtain ⟨pre, h1, h2⟩ := attempt_log pub (intendedCalls fmtFloat m m.Table) []
    rw [Publish_eq_attempt, Publish_eq_attempt, h1,
      attempt_never_fails (fun _ _ _ => none) (fun _ _ _ => rfl)]
    simpa using h2

/-- Witness of C4: with a bus that fails on the second call, `Publish` on a batch with
three cells to forward makes two calls, returns the error of the second, and never makes
the call for the second row. -/
theorem Publish_stops_at_first_failure_witness :
    (Publish exampleFmt secondCallFails twoRowMessage).2 = some "bus down"
    ∧ (Publish exampleFmt secondCallFails twoRowMessage).1.map (fun c => c.1)
        = ["channels.ch.temp", "channels.ch.hum"]
    ∧ (Publish exampleFmt okPublisher twoRowMessage).1.map (fun c => c.1)
        = ["channels.ch.temp", "channels.ch.hum", "channels.ch.temp"]
    ∧ (Publish exampleFmt secondCallFails twoRowMessage).1
        <+: (Publish exampleFmt okPublisher twoRowMessage).1 :=
  ⟨by decide, by decide, by decide,
   (Publish_stops_at_first_failure exampleFmt secondCallFails twoRowMessage).2.2.2⟩

end dbreader

/-! ### The CSV reader -/

namespace csv

open reader

theorem contains_iff (s : List String) (e : String) : contains s e = true ↔ e ∈ s := by
  induction s with
  | nil => simp [contains]
  | cons a s ih =>
    by_cases h : a = e
    · simp [contains, h]
    · simp [contains, h, ih, Ne.symm h]

theorem lookup_filter_enumFrom (q : String → Bool) (l : List String) (s i : Nat) (key : String) :
    (List.filter (fun p => q p.2) (List.enumFrom s l)).lookup i = some key
      ↔ s ≤ i ∧ l.get? (i - s) = some key ∧ q key = true := by
  induction l generalizing s with
  | nil => simp
  | cons a l ih =>
    simp only [List.enumFrom_cons, List.filter_cons]
    by_cases hi : i = s
    · subst hi
      by_cases hq : q a = true
      · simp [hq, List.lookup_cons]
        rintro rfl
        exact hq
      · have hq2 : q a = false := by simpa using hq
        simp only [hq2, Bool.false_eq_true, if_false]
        rw [ih (i + 1)]
        simp
        intro h
        rw [← h]
        simpa using hq
    · have hstep : ∀ h : s ≤ i, i - s = (i - (s + 1)) + 1 := fun h => by omega
      have hle : s ≤ i ↔ s + 1 ≤ i := by omega
      by_cases hq : q a = true
      · simp only [hq, if_true, List.lookup_cons]
        have : (i == s) = false := by simpa using hi
        rw [this, ih (s + 1)]
        constructor
        · rintro ⟨h1, h2, h3⟩
          refine ⟨hle.2 h1, ?_, h3⟩
          rw [hstep (hle.2 h1)]
          simpa using h2
        · rintro ⟨h1, h2, h3⟩
          refine ⟨hle.1 h1, ?_, h3⟩
          rw [hstep h1] at h2
          simpa using h2
      · have hq2 : q a = false := by simpa using hq
        simp only [hq2, Bool.false_eq_true, if_false]
        rw [ih (s + 1)]
        constructor
        · rintro ⟨h1, h2, h3⟩
          refine ⟨hle.2 h1, ?_, h3⟩
          rw [hstep (hle.2 h1)]
          simpa using h2
        · rintro ⟨h1, h2, h3⟩
          refine ⟨hle.1 h1, ?_, h3⟩
          rw [hstep h1] at h2
          simpa using h2

theorem setColumns_lookup (cols header : List String) (i : Nat) (key : String) :
    (setColumns cols header).lookup i = some key
      ↔ header.get? i = some key ∧ (cols ≠ [] → key ∈ cols) := by
  unfold setColumns
  by_cases hc : cols.length > 0
  · have hne : cols ≠ [] := by
      intro h
      simp [h] at hc
    simp only [hc, if_true, List.enum]
    rw [lookup_filter_enumFrom (contains cols) header 0 i key]
    simp [contains_iff, hne]
  · have he : cols = [] := by
      cases cols with
      | nil => rfl
      | cons a b => simp at hc
    simp only [hc, if_false, List.enum]
    have := lookup_filter_enumFrom (fun _ => true) header 0 i key
    simp only [List.filter_true, Nat.zero_le, true_and, Nat.sub_zero, and_true] at this
    simp [this, he]

/-- What `fillRow` leaves under `key`: the value the row had when no field of `fields` is
stored under `key`, else the parsed text of the last such field. -/
theorem fillRow_get (headers : List (Nat × String)) (key : String)
    (fields : List (Nat × String)) (row : Row) :
    ((∀ p ∈ fields, headers.lookup p.1 ≠ some key)
        ∧ (fillRow headers fields row).get key = row.get key)
    ∨ (∃ f1 i y f2, fields = f1 ++ (i, y) :: f2 ∧ headers.lookup i = some key
        ∧ (∀ p ∈ f2, headers.lookup p.1 ≠ some key)
        ∧ (fillRow headers fields row).get key = some (parseValue y)) := by
  induction fields generalizing row with
  | nil => exact Or.inl ⟨by simp, rfl⟩
  | cons f fields ih =>
    obtain ⟨i, y⟩ := f
    cases hl : headers.lookup i with
    | none =>
      have hfill : fillRow headers ((i, y) :: fields) row = fillRow headers fields row := by
        simp [fillRow, hl]
      rw [hfill]
      rcases ih row with ⟨h1, h2⟩ | ⟨f1, j, z, f2, h1, h2, h3, h4⟩
      · refine Or.inl ⟨?_, h2⟩
        intro p hp
        simp at hp
        rcases hp with rfl | hp
        · simp [hl]
        · exact h1 p hp
      · exact Or.inr ⟨(i, y) :: f1, j, z, f2, by simp [h1], h2, h3, h4⟩
    | some header =>
      have hfill : fillRow headers ((i, y) :: fields) row
          = fillRow headers fields (row.set header (parseValue y)) := by
        simp [fillRow, hl]
      rw [hfill]
      rcases ih (row.set header (parseValue y)) with ⟨h1, h2⟩ | ⟨f1, j, z, f2, h1, h2, h3, h4⟩
      · by_cases hk : header = key
        · subst hk
          refine Or.inr ⟨[], i, y, fields, rfl, hl, h1, ?_⟩
          rw [h2, Row.get_set_self]
        · refine Or.inl ⟨?_, ?_⟩
          · intro p hp
            simp at hp
            rcases hp with rfl | hp
            · simp [hl, hk]
            · exact h1 p hp
          · rw [h2, Row.get_set_ne _ _ _ _ (Ne.symm hk)]
      · exact Or.inr ⟨(i, y) :: f1, j, z, f2, by simp [h1], h2, h3, h4⟩

theorem fillRow_mem_keys (headers : List (Nat × String)) (key : String)
    (fields : List (Nat × String)) (row : Row) :
    key ∈ (fillRow headers fields row).keys
      ↔ key ∈ row.keys ∨ ∃ p ∈ fields, headers.lookup p.1 = some key := by
  induction fields generalizing row with
  | nil => simp [fillRow]
  | cons f fields ih =>
    obtain ⟨i, y⟩ := f
    cases hl : headers.lookup i with
    | none =>
      simp only [fillRow, hl, ih, List.mem_cons, exists_eq_or_imp]
      simp
    | some header =>
      simp only [fillRow, hl, ih, Row.mem_keys_set, List.mem_cons, exists_eq_or_imp]
      simp only [Option.some.injEq]
      constructor
      · rintro ((h | h) | h)
        · exact Or.inr (Or.inl h.symm)
        · exact Or.inl h
        · exact Or.inr (Or.inr h)
      · rintro (h | h | h)
        · exact Or.inl (Or.inr h)
        · exact Or.inl (Or.inl h.symm)
        · exact Or.inr h

theorem fillRow_nodup_keys (headers : List (Nat × String)) (fields : List (Nat × String))
    (row : Row) (hnd : row.keys.Nodup) : (fillRow headers fields row).keys.Nodup := by
  induction fields generalizing row with
  | nil => simpa [fillRow] using hnd
  | cons f fields ih =>
    obtain ⟨i, y⟩ := f
    cases hl : headers.lookup i with
    | none => simpa [fillRow, hl] using ih row hnd
    | some header =>
      simpa [fillRow, hl] using ih _ (Row.nodup_keys_set row header (parseValue y) hnd)

end csv

namespace csv

open reader

theorem enum_split_lt (record : List String) (f1 f2 : List (Nat × String)) (i : Nat) (y : String)
    (h : record.enum = f1 ++ (i, y) :: f2) (j : Nat) (z : String) (hj : i < j)
    (hmem : (j, z) ∈ record.enum) : (j, z) ∈ f2 := by
  have hpw : List.Pairwise (· < ·) (List.map Prod.fst record.enum) := by
    rw [List.enum_map_fst]
    exact List.pairwise_lt_range _
  rw [h] at hpw hmem
  simp only [List.map_append, List.map_cons, List.pairwise_append, List.mem_map,
    List.mem_cons] at hpw
  simp only [List.mem_append, List.mem_cons] at hmem
  rcases hmem with hm | hm | hm
  · have := hpw.2.2 j ⟨(j, z), hm, rfl⟩ i (Or.inl rfl)
    omega
  · simp at hm
    omega
  · exact hm

/-- The row `Read` builds from a record that has as many fields as the header: its keys
are `mfx_id` and the retained header names, it holds each key once, a retained name maps
to the parsed field at the last position where the header holds that name, and `mfx_id`
maps to the ordinal unless it is itself a retained header name. -/
theorem mkRow_spec (cols header record : List String) (hp : Int)
    (hlen : header ≠ [] → record.length = header.length) :
    (∀ key, key ∈ (mkRow (setColumns cols header) hp record).keys
        ↔ key = MFX_ID ∨ (key ∈ header ∧ (cols ≠ [] → key ∈ cols)))
    ∧ (mkRow (setColumns cols header) hp record).keys.Nodup
    ∧ (∀ key, key ∈ header → (cols ≠ [] → key ∈ cols) →
        ∃ (i : Nat) (cell : String), header[i]? = some key
          ∧ (∀ j : Nat, i < j → header[j]? ≠ some key)
          ∧ record[i]? = some cell
          ∧ (mkRow (setColumns cols header) hp record).get key = some (parseValue cell))
    ∧ (¬ (MFX_ID ∈ header ∧ (cols ≠ [] → MFX_ID ∈ cols)) →
        (mkRow (setColumns cols header) hp record).get MFX_ID = some (.int hp)) := by
  have hfield : ∀ (i : Nat) (key : String), header[i]? = some key →
      ∃ cell, record[i]? = some cell := by
    intro i key hi
    have hne : header ≠ [] := by
      intro h
      simp [h] at hi
    have hlt : i < header.length := by
      by_contra hge
      have : header[i]? = none := List.getElem?_eq_none (by omega)
      simp [this] at hi
    have hlt2 : i < record.length := by rw [hlen hne]; exact hlt
    exact ⟨record[i], by simp [hlt2]⟩
  have hstored : ∀ key, (∃ p ∈ record.enum, (setColumns cols header).lookup p.1 = some key)
      ↔ (key ∈ header ∧ (cols ≠ [] → key ∈ cols)) := by
    intro key
    constructor
    · rintro ⟨p, -, hl⟩
      have := (setColumns_lookup cols header p.1 key).1 hl
      simp only [List.get?_eq_getElem?] at this
      exact ⟨List.mem_iff_getElem?.2 ⟨p.1, this.1⟩, this.2⟩
    · rintro ⟨hk, hc⟩
      obtain ⟨i, hi⟩ := List.mem_iff_getElem?.1 hk
      obtain ⟨cell, hcell⟩ := hfield i key hi
      refine ⟨(i, cell), List.mk_mem_enum_iff_getElem?.2 hcell, ?_⟩
      exact (setColumns_lookup cols header i key).2 ⟨by simpa using hi, hc⟩
  refine ⟨?_, ?_, ?_, ?_⟩
  · intro key
    unfold mkRow
    rw [fillRow_mem_keys, hstored]
    simp [Row.set, Row.keys]
  · unfold mkRow
    apply fillRow_nodup_keys
    simp [Row.set, Row.keys]
  · intro key hk hc
    unfold mkRow
    rcases fillRow_get (setColumns cols header) key record.enum (Row.set [] MFX_ID (.int hp))
      with ⟨h1, -⟩ | ⟨f1, i, y, f2, h1, h2, h3, h4⟩
    · exfalso
      obtain ⟨p, hp1, hp2⟩ := (hstored key).2 ⟨hk, hc⟩
      exact h1 p hp1 hp2
    · have hi := (setColumns_lookup cols header i key).1 h2
      simp only [List.get?_eq_getElem?] at hi
      have hy : record[i]? = some y := by
        apply List.mk_mem_enum_iff_getElem?.1
        rw [h1]
        simp
      refine ⟨i, y, hi.1, ?_, hy, h4⟩
      intro j hj hjk
      obtain ⟨cell, hcell⟩ := hfield j key hjk
      have hmem : (j, cell) ∈ record.enum := List.mk_mem_enum_iff_getElem?.2 hcell
      have hin := enum_split_lt record f1 f2 i y h1 j cell hj hmem
      exact h3 (j, cell) hin ((setColumns_lookup cols header j key).2 ⟨by simpa using hjk, hi.2⟩)
  · intro hno
    unfold mkRow
    rcases fillRow_get (setColumns cols header) MFX_ID record.enum (Row.set [] MFX_ID (.int hp))
      with ⟨-, h2⟩ | ⟨f1, i, y, f2, h1, h2, -, -⟩
    · rw [h2]
      simp [Row.set, Row.get]
    · exfalso
      apply hno
      apply (hstored MFX_ID).1
      refine ⟨(i, y), ?_, h2⟩
      rw [h1]
      simp

theorem csvRecord_ok (fpr : Nat) (line : Go.CsvLine) (record : List String) (fpr1 : Nat)
    (h : Go.csvRecord fpr line = .ok (record, fpr1)) :
    line = .ok record ∧ (0 < fpr → record.length = fpr ∧ fpr1 = fpr)
      ∧ (fpr = 0 → fpr1 = record.length) := by
  unfold Go.csvRecord at h
  cases line with
  | error msg => simp at h
  | ok rec =>
    simp only at h
    by_cases h0 : fpr > 0
    · by_cases h1 : rec.length ≠ fpr
      · simp [h0, h1] at h
      · simp only [h0, h1, if_true, if_false, Except.ok.injEq, Prod.mk.injEq] at h
        obtain ⟨rfl, rfl⟩ := h
        push_neg at h1
        exact ⟨rfl, fun _ => ⟨h1, rfl⟩, fun h2 => by omega⟩
    · simp only [h0, if_false, Except.ok.injEq, Prod.mk.injEq] at h
      obtain ⟨rfl, rfl⟩ := h
      exact ⟨rfl, fun h2 => absurd h2 h0, fun _ => rfl⟩

theorem csvRecord_wf (L : Nat) (record : List String) (h : record.length = L) :
    Go.csvRecord L (.ok record) = .ok (record, L) := by
  unfold Go.csvRecord
  by_cases h0 : L > 0
  · simp [h0, h]
  · simp [h0, h]

theorem rewindHead_ok (n fpr : Nat) (lines : List Go.CsvLine) (fpr1 : Nat)
    (lines1 : List Go.CsvLine) (h : rewindHead n fpr lines = .ok (fpr1, lines1)) :
    (0 < fpr → fpr1 = fpr) ∧ ∀ l ∈ lines1, l ∈ lines := by
  induction n generalizing fpr lines with
  | zero =>
    simp only [rewindHead, Except.ok.injEq, Prod.mk.injEq] at h
    obtain ⟨rfl, rfl⟩ := h
    exact ⟨fun _ => rfl, fun l hl => hl⟩
  | succ n ih =>
    cases lines with
    | nil => simp [rewindHead] at h
    | cons line lines =>
      simp only [rewindHead] at h
      cases hr : Go.csvRecord fpr line with
      | error e => simp [hr] at h
      | ok v =>
        obtain ⟨record, fpr2⟩ := v
        rw [hr] at h
        simp only at h
        obtain ⟨h1, h2⟩ := ih fpr2 lines h
        obtain ⟨-, h3, -⟩ := csvRecord_ok fpr line record fpr2 hr
        refine ⟨fun hpos => ?_, fun l hl => List.mem_cons_of_mem _ (h2 l hl)⟩
        have := (h3 hpos).2
        rw [h1 (by omega), this]

theorem readRows_mem (headers : List (Nat × String)) (fpr : Nat) (lines : List Go.CsvLine)
    (hp : Int) (out : List Row) (row : Row)
    (h : row ∈ (readRows headers fpr lines hp out).2.1) :
    row ∈ out ∨ ∃ record hp1, Except.ok record ∈ lines ∧ row = mkRow headers hp1 record
      ∧ (0 < fpr → record.length = fpr) := by
  induction lines generalizing fpr hp out with
  | nil =>
    simp only [readRows] at h
    exact Or.inl h
  | cons line lines ih =>
    simp only [readRows] at h
    cases hr : Go.csvRecord fpr line with
    | error e =>
      rw [hr] at h
      exact Or.inl h
    | ok v =>
      obtain ⟨record, fpr2⟩ := v
      rw [hr] at h
      simp only at h
      obtain ⟨h1, h2, -⟩ := csvRecord_ok fpr line record fpr2 hr
      rcases ih fpr2 (hp + 1) _ h with hm | ⟨rec, hp1, hm1, hm2, hm3⟩
      · simp only [List.mem_append, List.mem_singleton] at hm
        rcases hm with hm | hm
        · exact Or.inl hm
        · exact Or.inr ⟨record, hp + 1, by simp [h1], hm, fun hpos => (h2 hpos).1⟩
      · refine Or.inr ⟨rec, hp1, List.mem_cons_of_mem _ hm1, hm2, fun hpos => ?_⟩
        have := (h2 hpos).2
        rw [hm3 (by omega), this]

end csv

namespace csv

open reader

theorem rewindHead_wf (L n : Nat) (rows : List (List String))
    (hwf : ∀ rec ∈ rows, rec.length = L) :
    rewindHead n L (rows.map .ok) =
      if n ≤ rows.length then .ok (L, (rows.drop n).map .ok) else .error .EOF := by
  induction n generalizing rows with
  | zero => simp [rewindHead]
  | succ n ih =>
    cases rows with
    | nil => simp [rewindHead]
    | cons rec rows =>
      simp only [List.map_cons, rewindHead, csvRecord_wf L rec (hwf rec (by simp))]
      rw [ih rows (fun x hx => hwf x (List.mem_cons_of_mem _ hx))]
      simp

theorem readRows_wf (headers : List (Nat × String)) (L : Nat) (rows : List (List String))
    (hwf : ∀ rec ∈ rows, rec.length = L) (hp : Int) (out : List Row) :
    (readRows headers L (rows.map .ok) hp out).1 = hp + rows.length
    ∧ (readRows headers L (rows.map .ok) hp out).2.2 = none
    ∧ (readRows headers L (rows.map .ok) hp out).2.1.length = out.length + rows.length
    ∧ (∀ k : Nat, k < out.length →
        (readRows headers L (rows.map .ok) hp out).2.1[k]? = out[k]?)
    ∧ (∀ (k : Nat) (rec : List String), rows[k]? = some rec →
        (readRows headers L (rows.map .ok) hp out).2.1[out.length + k]?
          = some (mkRow headers (hp + k + 1) rec)) := by
  induction rows generalizing hp out with
  | nil => simp [readRows]
  | cons rec rows ih =>
    simp only [List.map_cons, readRows, csvRecord_wf L rec (hwf rec (by simp))]
    obtain ⟨h1, h2, h3, h4, h5⟩ :=
      ih (fun x hx => hwf x (List.mem_cons_of_mem _ hx)) (hp + 1) (out ++ [mkRow headers (hp + 1) rec])
    refine ⟨?_, h2, ?_, ?_, ?_⟩
    · rw [h1]
      simp
      ring
    · rw [h3]
      simp
      ring
    · intro k hk
      rw [h4 k (by simp; omega)]
      exact List.getElem?_append_left hk
    · intro k rec1 hk
      cases k with
      | zero =>
        simp only [List.getElem?_cons_zero, Option.some.injEq] at hk
        subst hk
        rw [Nat.add_zero, h4 out.length (by simp)]
        simp
      | succ k =>
        simp only [List.getElem?_cons_succ] at hk
        have := h5 k rec1 hk
        simp only [List.length_append, List.length_singleton] at this
        rw [show out.length + (k + 1) = out.length + 1 + k by omega, this]
        congr 2
        push_cast
        ring

/-- C5 (amended): for a file that is a header and `n` data rows, each with as many fields
as the header, and a reader whose `HeadPos` is `h ≥ 0`: `Read` returns no error; it returns
`n - h` rows (none when `h ≥ n`); the `k`-th of them (from 0) is the row built from the
data row at position `h + k + 1` with ordinal `h + k + 1`; afterwards `HeadPos` is `n`
when `h ≤ n` and still `h` otherwise; and unless `mfx_id` is itself a retained header name,
the `k`-th row holds that ordinal under `mfx_id`. -/
theorem Read_incremental (r : csvReader) (header : List String) (rows : List (List String))
    (hpos : 0 ≤ r.HeadPos) (hwf : ∀ rec ∈ rows, rec.length = header.length) :
    (Read r (some (.ok header :: rows.map .ok))).2.2 = none
    ∧ (Read r (some (.ok header :: rows.map .ok))).2.1.length = rows.length - r.HeadPos.toNat
    ∧ (∀ k : Nat, k < rows.length - r.HeadPos.toNat →
        ∃ rec, rows[r.HeadPos.toNat + k]? = some rec
          ∧ (Read r (some (.ok header :: rows.map .ok))).2.1[k]?
              = some (mkRow (setColumns r.columns header) (r.HeadPos + k + 1) rec))
    ∧ (Read r (some (.ok header :: rows.map .ok))).1
        = { r with HeadPos := if r.HeadPos ≤ rows.length then rows.length else r.HeadPos }
    ∧ (¬ (MFX_ID ∈ header ∧ (r.columns ≠ [] → MFX_ID ∈ r.columns)) →
        ∀ (k : Nat) (row : Row), (Read r (some (.ok header :: rows.map .ok))).2.1[k]? = some row →
          row.get MFX_ID = some (.int (r.HeadPos + k + 1))) := by
  have hhead : Go.csvRecord 0 (.ok header) = .ok (header, header.length) := by
    simp [Go.csvRecord]
  have hread : Read r (some (.ok header :: rows.map .ok)) =
      if r.HeadPos.toNat ≤ rows.length then
        ({ r with HeadPos := (readRows (setColumns r.columns header) header.length
              ((rows.drop r.HeadPos.toNat).map .ok) r.HeadPos []).1 },
          (readRows (setColumns r.columns header) header.length
              ((rows.drop r.HeadPos.toNat).map .ok) r.HeadPos []).2.1,
          (readRows (setColumns r.columns header) header.length
              ((rows.drop r.HeadPos.toNat).map .ok) r.HeadPos []).2.2)
      else (r, [], none) := by
    simp only [Read, hhead, rewindHead_wf header.length r.HeadPos.toNat rows hwf]
    split_ifs <;> rfl
  have hwf2 : ∀ rec ∈ rows.drop r.HeadPos.toNat, rec.length = header.length :=
    fun rec hrec => hwf rec (List.mem_of_mem_drop hrec)
  obtain ⟨h1, h2, h3, -, h5⟩ :=
    readRows_wf (setColumns r.columns header) header.length (rows.drop r.HeadPos.toNat) hwf2
      r.HeadPos []
  have hrows : ∀ (k : Nat) (row : Row),
      (Read r (some (.ok header :: rows.map .ok))).2.1[k]? = some row →
      ∃ rec, rows[r.HeadPos.toNat + k]? = some rec
        ∧ row = mkRow (setColumns r.columns header) (r.HeadPos + k + 1) rec := by
    intro k row hk
    rw [hread] at hk
    by_cases hle : r.HeadPos.toNat ≤ rows.length
    · simp only [hle, if_true] at hk
      have hlt : k < (rows.drop r.HeadPos.toNat).length := by
        have := (List.getElem?_eq_some_iff.1 hk).1
        rw [h3] at this
        simpa using this
      have hrec : (rows.drop r.HeadPos.toNat)[k]? = some (rows.drop r.HeadPos.toNat)[k] := by
        simp [hlt]
      have := h5 k _ hrec
      simp only [List.length_nil, Nat.zero_add] at this
      rw [this] at hk
      refine ⟨(rows.drop r.HeadPos.toNat)[k], ?_, by simpa using hk.symm⟩
      rw [← hrec]
      simp
    · simp [hle] at hk
  refine ⟨?_, ?_, ?_, ?_, ?_⟩
  · rw [hread]
    split_ifs
    · exact h2
    · rfl
  · rw [hread]
    split_ifs with hle
    · simp only [h3]
      simp
    · simp
      omega
  · intro k hk
    have hle : r.HeadPos.toNat ≤ rows.length := by omega
    have hrec : (rows.drop r.HeadPos.toNat)[k]? = some (rows[r.HeadPos.toNat + k]) := by
      simp
    refine ⟨rows[r.HeadPos.toNat + k], by simp, ?_⟩
    rw [hread]
    simp only [hle, if_true]
    have := h5 k _ hrec
    simpa using this
  · rw [hread]
    by_cases hle : r.HeadPos.toNat ≤ rows.length
    · have hle2 : r.HeadPos ≤ rows.length := by omega
      simp only [hle, hle2, if_true, h1]
      congr 1
      simp
      omega
    · have hle2 : ¬ r.HeadPos ≤ rows.length := by omega
      simp only [hle, hle2, if_false]
  · intro hno k row hk
    obtain ⟨rec, hrec, rfl⟩ := hrows k row hk
    have hlen : header ≠ [] → rec.length = header.length :=
      fun _ => hwf rec (List.getElem?_mem hrec)
    exact (mkRow_spec r.columns header rec (r.HeadPos + k + 1) hlen).2.2.2 hno

end csv

namespace csv

open reader

/-- Witness of C5: the file with header `a,b,c` and three data rows, read from the start;
then read again unchanged; then read once more after two rows were appended. -/
theorem Read_incremental_witness :
    (0 ≤ exampleReader.HeadPos ∧ ∀ rec ∈ threeRows, rec.length = headerABC.length)
    ∧ (Read exampleReader (fileABC threeRows)).2.2 = none
    ∧ (Read exampleReader (fileABC threeRows)).2.1.map (fun row => row.get MFX_ID)
        = [some (.int 1), some (.int 2), some (.int 3)]
    ∧ (Read (Read exampleReader (fileABC threeRows)).1 (fileABC threeRows)).2 = ([], none)
    ∧ (Read (Read (Read exampleReader (fileABC threeRows)).1 (fileABC threeRows)).1
          (fileABC (threeRows ++ twoMoreRows))).2
        = ([mkRow (setColumns [] headerABC) 4 ["x", "y", "z"],
            mkRow (setColumns [] headerABC) 5 ["p", "q", "r"]], none)
    ∧ (Read (Read (Read exampleReader (fileABC threeRows)).1 (fileABC threeRows)).1
          (fileABC (threeRows ++ twoMoreRows))).2.1.map (fun row => row.get MFX_ID)
        = [some (.int 4), some (.int 5)] :=
  ⟨⟨by decide, by decide⟩,
   (Read_incremental exampleReader headerABC threeRows (by decide) (by decide)).1,
   by decide, by decide, by decide, by decide⟩

/-- Counterexample to C5 as stated: a data column that is itself named `mfx_id` replaces
the ordinal (the first row returned holds the text `zz` under `mfx_id`, not 1); a reader
whose `HeadPos` is -1 numbers the three rows 0, 1, 2 and ends with `HeadPos` 2, not 3; and
a data row with fewer fields than the header makes `Read` fail. -/
theorem Read_ordinal_not_kept :
    (Read exampleReader (some [.ok ["mfx_id", "a"], .ok ["zz", "5"]])).2
        = ([[(MFX_ID, .str "zz"), ("a", .int 5)]], none)
    ∧ (Read { exampleReader with HeadPos := -1 } (fileABC threeRows)).2.1.map
          (fun row => row.get MFX_ID) = [some (.int 0), some (.int 1), some (.int 2)]
    ∧ (Read { exampleReader with HeadPos := -1 } (fileABC threeRows)).1.HeadPos = 2
    ∧ (Read exampleReader (fileABC [["1", "2"]])).2 = ([], some (.csv .ErrFieldCount)) := by
  decide

/-- C8: every row `Read` returns has as keys `mfx_id` and the header names, or with an
allow-list the header names the allow-list holds, each key once; and the row comes from a
record of the file in which each such header name maps to `parseValue` of the cell at the
position of that name in the header: the last one, should the header repeat the name, and
so every position of a header without repeated names. -/
theorem Read_row_keys (r : csvReader) (header : List String) (lines : List Go.CsvLine)
    (row : Row) (hrow : row ∈ (Read r (some (.ok header :: lines))).2.1) :
    (∀ key, key ∈ row.keys
        ↔ key = MFX_ID ∨ (key ∈ header ∧ (r.columns ≠ [] → key ∈ r.columns)))
    ∧ row.keys.Nodup
    ∧ ∃ record, Except.ok record ∈ lines ∧ (header ≠ [] → record.length = header.length)
        ∧ (∀ key, key ∈ header → (r.columns ≠ [] → key ∈ r.columns) →
            ∃ (i : Nat) (cell : String), header[i]? = some key
              ∧ (∀ j : Nat, i < j → header[j]? ≠ some key)
              ∧ record[i]? = some cell
              ∧ row.get key = some (parseValue cell))
        ∧ (header.Nodup → ∀ (i : Nat) (key cell : String), header[i]? = some key →
            (r.columns ≠ [] → key ∈ r.columns) → record[i]? = some cell →
            row.get key = some (parseValue cell)) := by
  have hhead : Go.csvRecord 0 (.ok header) = .ok (header, header.length) := by
    simp [Go.csvRecord]
  simp only [Read, hhead] at hrow
  cases hrw : rewindHead r.HeadPos.toNat header.length lines with
  | error e =>
    rw [hrw] at hrow
    cases e <;> simp at hrow
  | ok v =>
    obtain ⟨fpr1, lines1⟩ := v
    rw [hrw] at hrow
    simp only at hrow
    obtain ⟨hf, hsub⟩ := rewindHead_ok _ _ _ _ _ hrw
    rcases readRows_mem _ _ _ _ _ _ hrow with hm | ⟨record, hp1, hm1, rfl, hm3⟩
    · simp at hm
    · have hlen : header ≠ [] → record.length = header.length := by
        intro hne
        have hpos : 0 < header.length := List.length_pos.2 hne
        rw [hm3 (by rw [hf hpos]; exact hpos), hf hpos]
      obtain ⟨h1, h2, h3, -⟩ := mkRow_spec r.columns header record hp1 hlen
      refine ⟨h1, h2, record, hsub _ hm1, hlen, h3, ?_⟩
      intro hnd i key cell hi hc hcell
      obtain ⟨i0, cell0, hi0, -, hcell0, hget⟩ := h3 key (List.getElem?_mem hi) hc
      have hlt : i < header.length := (List.getElem?_eq_some_iff.1 hi).1
      have heq : i = i0 := List.getElem?_inj hlt hnd (hi.trans hi0.symm)
      subst heq
      rw [hcell] at hcell0
      simp only [Option.some.injEq] at hcell0
      rw [hget, hcell0]

/-- Witness of C8: the first row read from the example file. -/
theorem Read_row_keys_witness :
    [(MFX_ID, Value.int 1), ("a", Value.int 1), ("b", Value.int 2), ("c", Value.int 3)]
        ∈ (Read exampleReader (some (.ok headerABC :: threeRows.map .ok))).2.1
    ∧ ∀ key, key ∈ Row.keys [(MFX_ID, Value.int 1), ("a", Value.int 1), ("b", Value.int 2),
          ("c", Value.int 3)]
        ↔ key = MFX_ID ∨ (key ∈ headerABC
            ∧ (exampleReader.columns ≠ [] → key ∈ exampleReader.columns)) :=
  ⟨by decide,
   (Read_row_keys exampleReader headerABC (threeRows.map .ok)
      [(MFX_ID, .int 1), ("a", .int 1), ("b", .int 2), ("c", .int 3)] (by decide)).1⟩

/-- C9 (amended): `Read` on a source with no record at all, not even a header line, fails
with `errEmptyCSV`; on a source that is a header line and no data row it returns an empty
batch and no error, and leaves the reader as it was. -/
theorem Read_empty_source :
    (∀ r : csvReader, Read r (some []) = (r, [], some .errEmptyCSV))
    ∧ (∀ (r : csvReader) (header : List String), Read r (some [.ok header]) = (r, [], none)) := by
  refine ⟨fun r => rfl, fun r header => ?_⟩
  have hhead : Go.csvRecord 0 (.ok header) = .ok (header, header.length) := by
    simp [Go.csvRecord]
  simp only [Read, hhead]
  cases hn : r.HeadPos.toNat with
  | zero => simp [rewindHead, readRows]
  | succ n => simp [rewindHead]

/-- Counterexample to C9 as stated: on the source that holds the header `a,b,c` and no data
row, `Read` returns an empty batch without an error, not `errEmptyCSV`. -/
theorem Read_header_only_is_no_error :
    (Read exampleReader (fileABC [])).2 = ([], none)
    ∧ (Read exampleReader (fileABC [])).2.2 ≠ some Error.errEmptyCSV := by
  decide

/-- C6, evaluated on the code: `parseValue` reads the digits of a cell in base 32, so the
cell `42` becomes the integer 130 and `10` becomes 32; only a single digit keeps its
value. The largest int64 in decimal does not fit in base 32 and becomes a float. -/
theorem parseValue_reads_base_32 :
    parseValue "42" = .int 130
    ∧ parseValue "10" = .int 32
    ∧ parseValue "-7" = .int (-7)
    ∧ parseValue "-42" = .int (-130)
    ∧ parseValue "9223372036854775807" = .float (.fin false 16777216 39) := by
  decide

/-- C7, evaluated on the code: the boolean literals and plain words made of the letters
`a` to `v` are read as base 32 integers, so `true`, `false` and `hello` come back as
integers; since all twelve spellings `strconv.ParseBool` accepts are base 32 integers,
`parseValue` returns a boolean for no cell at all. A word with a letter past `v` stays a
string. -/
theorem parseValue_never_boolean :
    parseValue "true" = .int 978894
    ∧ parseValue "false" = .int 16078734
    ∧ parseValue "hello" = .int 18306744
    ∧ parseValue "yes" = .str "yes"
    ∧ ∀ (s : String) (b : Bool), parseValue s ≠ .bool b := by
  refine ⟨by decide, by decide, by decide, by decide, ?_⟩
  intro s b h
  by_cases hs : s ∈ ["1", "t", "T", "TRUE", "true", "True", "0", "f", "F", "FALSE", "false",
      "False"]
  · simp only [List.mem_cons, List.mem_singleton, List.not_mem_nil, or_false] at hs
    rcases hs with rfl | rfl | rfl | rfl | rfl | rfl | rfl | rfl | rfl | rfl | rfl | rfl <;>
      cases b <;> revert h <;> decide
  · have hb : Go.ParseBool s = none := by
      unfold Go.ParseBool
      simp only [List.mem_cons, List.mem_singleton, List.not_mem_nil, or_false] at hs
      push_neg at hs
      simp [hs]
    unfold parseValue at h
    rw [hb] at h
    split at h
    · simp at h
    · split at h
      · simp at h
      · split at h <;> simp at h

end csv

/-! ### The registry -/

namespace dbreader

theorem mapDelete_cons {R : Type} (e : String × config R) (m : List (String × config R))
    (id : String) :
    mapDelete (e :: m) id = if e.1 = id then mapDelete m id else e :: mapDelete m id := by
  by_cases h : e.1 = id
  · simp [mapDelete, List.filter_cons, h]
  · simp [mapDelete, List.filter_cons, h]

theorem mapGet_cons {R : Type} (e : String × config R) (m : List (String × config R))
    (id : String) : mapGet (e :: m) id = if e.1 = id then some e.2 else mapGet m id := rfl

theorem mapGet_mapDelete_self {R : Type} (m : List (String × config R)) (id : String) :
    mapGet (mapDelete m id) id = none := by
  induction m with
  | nil => rfl
  | cons e m ih =>
    rw [mapDelete_cons]
    by_cases h : e.1 = id
    · rw [if_pos h]
      exact ih
    · rw [if_neg h, mapGet_cons, if_neg h]
      exact ih

theorem mapGet_mapDelete_ne {R : Type} (m : List (String × config R)) (id id1 : String)
    (hne : id1 ≠ id) : mapGet (mapDelete m id) id1 = mapGet m id1 := by
  induction m with
  | nil => rfl
  | cons e m ih =>
    rw [mapDelete_cons, mapGet_cons]
    by_cases h : e.1 = id
    · have h1 : ¬ e.1 = id1 := fun h2 => hne (h2.symm.trans h)
      rw [if_pos h, if_neg h1]
      exact ih
    · rw [if_neg h, mapGet_cons]
      by_cases h2 : e.1 = id1
      · rw [if_pos h2, if_pos h2]
      · rw [if_neg h2, if_neg h2]
        exact ih

theorem mapGet_append_single {R : Type} (m : List (String × config R)) (id id1 : String)
    (v : config R) :
    mapGet (m ++ [(id, v)]) id1 =
      match mapGet m id1 with
      | some c => some c
      | none => if id = id1 then some v else none := by
  induction m with
  | nil => simp [mapGet]
  | cons e m ih =>
    by_cases h : e.1 = id1
    · simp [mapGet, h]
    · simpa [mapGet, h] using ih

theorem mapGet_mapStore_self {R : Type} (m : List (String × config R)) (id : String)
    (v : config R) : mapGet (mapStore m id v) id = some v := by
  simp [mapStore, mapGet_append_single, mapGet_mapDelete_self]

theorem mapGet_mapStore_ne {R : Type} (m : List (String × config R)) (id id1 : String)
    (v : config R) (hne : id1 ≠ id) : mapGet (mapStore m id v) id1 = mapGet m id1 := by
  simp only [mapStore, mapGet_append_single, mapGet_mapDelete_ne m id id1 hne]
  cases mapGet m id1 with
  | some c => rfl
  | none => simp [Ne.symm hne]

theorem filter_mapStore_self {R : Type} (m : List (String × config R)) (id : String)
    (v : config R) :
    (mapStore m id v).filter (fun e => decide (e.1 = id)) = [(id, v)] := by
  simp [mapStore, mapDelete, List.filter_filter]

end dbreader

namespace dbreader

theorem filter_mapDelete_self {R : Type} (m : List (String × config R)) (id : String) :
    (mapDelete m id).filter (fun e => decide (e.1 = id)) = [] := by
  simp [mapDelete, List.filter_filter]

theorem stop_ok {R : Type} (w w1 : World R) (s : Nat) (h : scheduler.stop w s = .ok w1) :
    w1.rm = w.rm
    ∧ w1.heap.length = w.heap.length
    ∧ (∀ a : Nat, a ≠ s → w1.heap[a]? = w.heap[a]?)
    ∧ (∃ mid, w1.trace = w.trace ++ Event.stop s :: mid)
    ∧ (∀ sch, w1.heap[s]? = some sch → ∀ t, sch.ticker = some t → t.stopped = true) := by
  unfold scheduler.stop at h
  cases hs : w.heap[s]? with
  | none => simp [hs] at h
  | some sch =>
    rw [hs] at h
    simp only at h
    cases ht : sch.ticker with
    | none =>
      rw [ht] at h
      simp only [Res.ok.injEq] at h
      subst h
      refine ⟨rfl, rfl, fun a _ => rfl, ⟨[], rfl⟩, ?_⟩
      intro sch1 h1 t h2
      rw [hs] at h1
      simp only [Option.some.injEq] at h1
      subst h1
      rw [ht] at h2
      simp at h2
    | some t =>
      rw [ht] at h
      simp only at h
      cases hr : removeTask s w.tasks with
      | none => simp [hr] at h
      | some tasks1 =>
        rw [hr] at h
        simp only [Res.ok.injEq] at h
        subst h
        refine ⟨rfl, by simp, ?_, ⟨[.tickerStop s, .doneSend s], rfl⟩, ?_⟩
        · intro a ha
          simp [List.getElem?_set, Ne.symm ha]
        · intro sch1 h1 t1 h2
          have hlt : s < w.heap.length := (List.getElem?_eq_some_iff.1 hs).1
          simp [List.getElem?_set, hlt] at h1
          subst h1
          simp at h2
          subst h2
          rfl

/-- C10: when `Create(id, channelID, payload)` returns without an error, it returns `id`;
the payload was decoded to a reader; the registry holds exactly one entry for `id`, with
this `ID`, `ChannelID = channelID`, the decoded reader after `Init`, and a scheduler at a
new address that has no ticker and whose interval is `Interval()` of that reader; the
entries under other ids are as before, and so is every scheduler allocated before, the one
of a replaced entry apart; and when an entry for `id` was there before, `stop` was called
on its scheduler before the old entry was deleted and the new one stored, and that
scheduler has no running ticker afterwards. -/
theorem Create_installs {R : Type} (ops : ReaderOps R) (w w1 : World R)
    (id channelID readerData rid : String)
    (h : Create ops w id channelID readerData = .ok (w1, rid, none)) :
    rid = id
    ∧ ∃ r0 m m1 cfg,
        ops.Unmarshal readerData ops.readerFactory = .ok (some r0)
        ∧ w.rm.configs = some m
        ∧ w1.rm.configs = some m1
        ∧ m1.filter (fun e => decide (e.1 = id)) = [(id, cfg)]
        ∧ mapGet m1 id = some cfg
        ∧ (∀ id1, id1 ≠ id → mapGet m1 id1 = mapGet m id1)
        ∧ cfg.ID = id
        ∧ cfg.ChannelID = channelID
        ∧ cfg.Reader = ops.Init w.rm.params r0
        ∧ cfg.scheduler = w.heap.length
        ∧ w1.heap[cfg.scheduler]? = some { ticker := none, interval := ops.Interval cfg.Reader }
        ∧ (∀ a : Nat, a < w.heap.length → (∀ old, mapGet m id = some old → a ≠ old.scheduler) →
            w1.heap[a]? = w.heap[a]?)
        ∧ (mapGet m id = none →
            w1.trace = w.trace ++ [Event.mapStore id cfg.scheduler] ∧ w1.tasks = w.tasks)
        ∧ (∀ old, mapGet m id = some old →
            (∃ mid, w1.trace = w.trace ++ Event.stop old.scheduler :: mid
                ++ [Event.mapDelete id, Event.mapStore id cfg.scheduler])
            ∧ (∀ sch, w1.heap[old.scheduler]? = some sch →
                ∀ t, sch.ticker = some t → t.stopped = true)) := by
  unfold Create at h
  cases hu : ops.Unmarshal readerData ops.readerFactory with
  | error err => simp [hu] at h
  | ok o =>
    cases o with
    | none => simp [hu] at h
    | some r0 =>
      rw [hu] at h
      simp only at h
      cases hc : w.rm.configs with
      | none =>
        simp [hc] at h
      | some m =>
        rw [hc] at h
        simp only [Option.some_bind] at h
        cases hg : mapGet m id with
        | none =>
          rw [hg] at h
          simp only [hc, Res.ok.injEq, Prod.mk.injEq] at h
          obtain ⟨rfl, rfl, -⟩ := h
          refine ⟨rfl, r0, m, _, _, rfl, rfl, rfl, filter_mapStore_self _ _ _,
            mapGet_mapStore_self _ _ _, fun id1 hne => mapGet_mapStore_ne _ _ _ _ hne,
            rfl, rfl, rfl, rfl, by simp, ?_, fun _ => ⟨rfl, rfl⟩, ?_⟩
          · intro a ha _
            simp [List.getElem?_append_left ha]
          · intro old hold
            rw [hg] at hold
            cases hold
        | some old =>
          rw [hg] at h
          simp only at h
          cases hst : scheduler.stop w old.scheduler with
          | fault => simp [hst] at h
          | blocked => simp [hst] at h
          | ok w2 =>
            rw [hst] at h
            simp only at h
            obtain ⟨h1, h2, h3, ⟨mid, h4⟩, h5⟩ := stop_ok w w2 old.scheduler hst
            rw [h1, hc] at h
            simp only [Option.map_some', Res.ok.injEq, Prod.mk.injEq] at h
            obtain ⟨rfl, rfl, -⟩ := h
            have hlt : old.scheduler < w2.heap.length := by
              unfold scheduler.stop at hst
              cases hs : w.heap[old.scheduler]? with
              | none => simp [hs] at hst
              | some sch =>
                rw [h2]
                exact (List.getElem?_eq_some_iff.1 hs).1
            refine ⟨rfl, r0, m, _, _, rfl, rfl, rfl, filter_mapStore_self _ _ _,
              mapGet_mapStore_self _ _ _, ?_, rfl, rfl, rfl, by simp [h2], by simp,
              ?_, ?_, ?_⟩
            · intro id1 hne
              rw [mapGet_mapStore_ne _ _ _ _ hne, mapGet_mapDelete_ne _ _ _ hne]
            · intro a ha hne
              have hne2 : a ≠ old.scheduler := hne old hg
              simp only
              rw [List.getElem?_append_left (by omega), h3 a hne2]
            · intro hnone
              rw [hg] at hnone
              cases hnone
            · intro old1 hold
              rw [hg] at hold
              simp only [Option.some.injEq] at hold
              subst hold
              refine ⟨⟨mid, by simp [h4]⟩, ?_⟩
              intro sch hsch t ht
              simp only at hsch
              rw [List.getElem?_append_left hlt] at hsch
              exact h5 sch hsch t ht

/-- Witness of C10: `Create` for the id `t1` on the example registry, which holds `t1`. -/
theorem Create_installs_witness :
    ∃ w1, Create exampleOps exampleWorld "t1" "ch2" "b.csv" = .ok (w1, "t1", none)
      ∧ "t1" = "t1" :=
  ⟨_, rfl, (Create_installs exampleOps exampleWorld _ "t1" "ch2" "b.csv" "t1" rfl).1⟩

end dbreader

/-! ### The interval of a reader -/

namespace csv

/-- C18: for every csvReader configuration the value of `Interval()` after `Init` is
strictly positive: it is 60 when the configured interval is zero (which is also what an
absent interval decodes to) or negative, and the configured interval otherwise. -/
theorem Init_interval_positive (r : csvReader) (params : List (String × String)) :
    0 < Interval (Init r params)
    ∧ Interval (Init r params) = (if r.Interval64 ≤ 0 then 60 else r.Interval64) := by
  unfold Init Interval interval
  by_cases hc : r.ColsStr.length > 0 <;> by_cases hi : r.Interval64 ≤ 0
  · simp [hc, hi]
  · simp [hc, hi]
    exact lt_of_not_ge hi
  · simp [hc, hi]
  · simp [hc, hi]
    exact lt_of_not_ge hi

end csv

namespace mssql

/-- C19, evaluated on the code: `mssqlReader.Init` leaves the interval as it was configured, so the value of
`Interval()` after `Init` is not positive when the configured interval is zero (which is
also what an absent interval decodes to) or negative. -/
theorem Init_keeps_interval (r : mssqlReader) (params : List (String × String)) :
    Interval (Init r params) = r.Interval64
    ∧ (0 < Interval (Init r params) ↔ 0 < r.Interval64) := by
  have h : Interval (Init r params) = r.Interval64 := by
    unfold Init Interval
    by_cases hw : r.Where = "" <;> by_cases hc : r.Columns = "" <;> simp [hw, hc]
  exact ⟨h, by rw [h]⟩

end mssql

/-! ### Stopping, starting and scheduling -/

namespace dbreader

theorem bytes_length_pos (s : String) : (Go.bytes s).length ≤ 0 ↔ s = "" := by
  constructor
  · intro h
    have h0 : Go.bytes s = [] := List.length_eq_zero.1 (Nat.le_zero.1 h)
    unfold Go.bytes at h0
    cases hs : s.toList with
    | nil =>
      have : s = String.mk s.toList := rfl
      rw [this, hs]
    | cons c cs =>
      rw [hs] at h0
      simp only [List.flatMap_cons, List.append_eq_nil, List.map_eq_nil_iff] at h0
      have hl := congrArg List.length h0.1
      simp [String.length_utf8EncodeChar] at hl
      have := Char.utf8Size_pos c
      omega
  · rintro rfl
    decide

theorem stop_inv {R : Type} (w w1 : World R) (s : Nat) (h : scheduler.stop w s = .ok w1) :
    ∃ sch, w.heap[s]? = some sch
      ∧ ((sch.ticker = none ∧ w1 = { w with trace := w.trace ++ [.stop s] })
        ∨ (∃ t tasks1, sch.ticker = some t ∧ removeTask s w.tasks = some tasks1
            ∧ w1 = { w with heap := w.heap.set s { sch with ticker := some { t with stopped := true } },
                            tasks := tasks1,
                            trace := w.trace ++ [.stop s, .tickerStop s, .doneSend s] })) := by
  unfold scheduler.stop at h
  cases hs : w.heap[s]? with
  | none => simp [hs] at h
  | some sch =>
    rw [hs] at h
    simp only at h
    refine ⟨sch, rfl, ?_⟩
    cases ht : sch.ticker with
    | none =>
      rw [ht] at h
      simp only [Res.ok.injEq] at h
      exact Or.inl ⟨rfl, h.symm⟩
    | some t =>
      rw [ht] at h
      simp only at h
      cases hr : removeTask s w.tasks with
      | none => simp [hr] at h
      | some tasks1 =>
        rw [hr] at h
        simp only [Res.ok.injEq] at h
        exact Or.inr ⟨t, tasks1, rfl, rfl, h.symm⟩

theorem stop_none {R : Type} (w : World R) (s : Nat) (sch : scheduler)
    (hs : w.heap[s]? = some sch) (ht : sch.ticker = none) :
    scheduler.stop w s = .ok { w with trace := w.trace ++ [.stop s] } := by
  unfold scheduler.stop
  rw [hs]
  simp only
  rw [ht]

theorem stop_some {R : Type} (w : World R) (s : Nat) (sch : scheduler) (t : Ticker)
    (tasks1 : List (Nat × config R))
    (hs : w.heap[s]? = some sch) (ht : sch.ticker = some t)
    (hr : removeTask s w.tasks = some tasks1) :
    scheduler.stop w s =
      .ok { w with heap := w.heap.set s { sch with ticker := some { t with stopped := true } },
                   tasks := tasks1,
                   trace := w.trace ++ [.stop s, .tickerStop s, .doneSend s] } := by
  unfold scheduler.stop
  rw [hs]
  simp only
  rw [ht]
  simp only
  rw [hr]

theorem start_inv {R : Type} (w w2 : World R) (s : Nat) (h : scheduler.start w s = .ok w2) :
    ∃ w1 sch, scheduler.stop w s = .ok w1 ∧ w1.heap[s]? = some sch
      ∧ 0 < tickerPeriod sch.interval
      ∧ w2 = { w1 with heap := w1.heap.set s { sch with ticker := some { period := tickerPeriod sch.interval,
                                                                          stopped := false } },
                       trace := w1.trace ++ [.newTicker s (tickerPeriod sch.interval)] } := by
  unfold scheduler.start at h
  cases hst : scheduler.stop w s with
  | fault => simp [hst] at h
  | blocked => simp [hst] at h
  | ok w1 =>
    rw [hst] at h
    simp only at h
    cases hs : w1.heap[s]? with
    | none => simp [hs] at h
    | some sch =>
      rw [hs] at h
      simp only at h
      by_cases hd : tickerPeriod sch.interval ≤ 0
      · simp [hd] at h
      · rw [if_neg hd] at h
        simp only [Res.ok.injEq] at h
        exact ⟨w1, sch, rfl, hs, lt_of_not_ge hd, h.symm⟩

theorem start_of {R : Type} (w w1 : World R) (s : Nat) (sch : scheduler)
    (hst : scheduler.stop w s = .ok w1) (hs : w1.heap[s]? = some sch)
    (hp : 0 < tickerPeriod sch.interval) :
    scheduler.start w s =
      .ok { w1 with heap := w1.heap.set s { sch with ticker := some { period := tickerPeriod sch.interval,
                                                                       stopped := false } },
                    trace := w1.trace ++ [.newTicker s (tickerPeriod sch.interval)] } := by
  unfold scheduler.start
  rw [hst]
  simp only
  rw [hs]
  simp only
  rw [if_neg (not_le.2 hp)]

theorem Schedule_inv {R : Type} (w w3 : World R) (id : String) (h : Schedule w id = .ok w3) :
    ∃ m cfg w2, w.rm.configs = some m ∧ mapGet m id = some cfg
      ∧ scheduler.start w cfg.scheduler = .ok w2
      ∧ w3 = { w2 with tasks := w2.tasks ++ [(cfg.scheduler, cfg)],
                       trace := w2.trace ++ [.spawn cfg.scheduler] } := by
  unfold Schedule at h
  cases hc : w.rm.configs with
  | none => simp [hc] at h
  | some m =>
    rw [hc] at h
    simp only [Option.some_bind] at h
    cases hg : mapGet m id with
    | none => simp [hg] at h
    | some cfg =>
      rw [hg] at h
      simp only at h
      cases hst : scheduler.start w cfg.scheduler with
      | fault => simp [hst] at h
      | blocked => simp [hst] at h
      | ok w2 =>
        rw [hst] at h
        simp only [Res.ok.injEq] at h
        exact ⟨m, cfg, w2, rfl, hg, hst, h.symm⟩

theorem Schedule_of {R : Type} (w w2 : World R) (id : String) (m : List (String × config R))
    (cfg : config R) (hc : w.rm.configs = some m) (hg : mapGet m id = some cfg)
    (hst : scheduler.start w cfg.scheduler = .ok w2) :
    Schedule w id = .ok { w2 with tasks := w2.tasks ++ [(cfg.scheduler, cfg)],
                                  trace := w2.trace ++ [.spawn cfg.scheduler] } := by
  unfold Schedule
  rw [hc]
  simp only [Option.some_bind]
  rw [hg]
  simp only
  rw [hst]

/-- How a call of `Create` that returns went: the payload did not decode and nothing
changed, or it decoded, the map is not nil, an old entry was stopped and deleted (`w2` is
the state after that), and the new entry was stored. -/
theorem Create_inv {R : Type} (ops : ReaderOps R) (w w1 : World R)
    (id channelID readerData rid : String) (e : Option Error)
    (h : Create ops w id channelID readerData = .ok (w1, rid, e)) :
    (∃ err, ops.Unmarshal readerData ops.readerFactory = .error err ∧ w1 = w ∧ rid = ""
        ∧ e = some err)
    ∨ (∃ r0 w2 m2, ops.Unmarshal readerData ops.readerFactory = .ok (some r0)
        ∧ rid = id ∧ e = none ∧ w2.rm.configs = some m2
        ∧ ((w.rm.configs.bind (fun m => mapGet m id) = none ∧ w2 = w)
          ∨ (∃ old w0, w.rm.configs.bind (fun m => mapGet m id) = some old
              ∧ scheduler.stop w old.scheduler = .ok w0
              ∧ w2 = { w0 with rm := { w0.rm with configs := w0.rm.configs.map (fun m => mapDelete m id) },
                               trace := w0.trace ++ [.mapDelete id] }))
        ∧ w1 = { w2 with
            rm := { w2.rm with configs := some (mapStore m2 id
                      { ID := id, ChannelID := channelID, scheduler := w2.heap.length,
                        Reader := ops.Init w.rm.params r0 }) },
            heap := w2.heap ++ [{ ticker := none,
                                  interval := ops.Interval (ops.Init w.rm.params r0) }],
            trace := w2.trace ++ [.mapStore id w2.heap.length] }) := by
  unfold Create at h
  cases hu : ops.Unmarshal readerData ops.readerFactory with
  | error err =>
    rw [hu] at h
    simp only [Res.ok.injEq, Prod.mk.injEq] at h
    exact Or.inl ⟨err, rfl, h.1.symm, h.2.1.symm, h.2.2.symm⟩
  | ok o =>
    cases o with
    | none => simp [hu] at h
    | some r0 =>
      rw [hu] at h
      simp only at h
      right
      cases hg : w.rm.configs.bind (fun m => mapGet m id) with
      | none =>
        rw [hg] at h
        simp only at h
        cases hc : w.rm.configs with
        | none => simp [hc] at h
        | some m =>
          rw [hc] at h
          simp only [Res.ok.injEq, Prod.mk.injEq] at h
          exact ⟨r0, w, m, rfl, h.2.1.symm, h.2.2.symm, hc, Or.inl ⟨rfl, rfl⟩, h.1.symm⟩
      | some old =>
        rw [hg] at h
        simp only at h
        cases hst : scheduler.stop w old.scheduler with
        | fault => simp [hst] at h
        | blocked => simp [hst] at h
        | ok w0 =>
          rw [hst] at h
          simp only at h
          cases hc : w0.rm.configs with
          | none => simp [hc] at h
          | some m0 =>
            rw [hc] at h
            simp only [Option.map_some', Res.ok.injEq, Prod.mk.injEq] at h
            refine ⟨r0, _, mapDelete m0 id, rfl, h.2.1.symm, h.2.2.symm, ?_,
              Or.inr ⟨old, w0, rfl, hst, rfl⟩, ?_⟩
            · simp [hc]
            · rw [← h.1]

theorem Delete_inv {R : Type} (w w1 : World R) (id : String) (e : Option Error)
    (h : Delete w id = .ok (w1, e)) :
    (w.rm.configs.bind (fun m => mapGet m id) = none ∧ w1 = w ∧ e = some errCfgNotFound)
    ∨ (∃ cfg w0, w.rm.configs.bind (fun m => mapGet m id) = some cfg
        ∧ scheduler.stop w cfg.scheduler = .ok w0 ∧ e = none
        ∧ w1 = { w0 with rm := { w0.rm with configs := w0.rm.configs.map (fun m => mapDelete m id) },
                         trace := w0.trace ++ [.mapDelete id] }) := by
  unfold Delete at h
  cases hg : w.rm.configs.bind (fun m => mapGet m id) with
  | none =>
    rw [hg] at h
    simp only [Res.ok.injEq, Prod.mk.injEq] at h
    exact Or.inl ⟨rfl, h.1.symm, h.2.symm⟩
  | some cfg =>
    rw [hg] at h
    simp only at h
    cases hst : scheduler.stop w cfg.scheduler with
    | fault => simp [hst] at h
    | blocked => simp [hst] at h
    | ok w0 =>
      rw [hst] at h
      simp only [Res.ok.injEq, Prod.mk.injEq] at h
      exact Or.inr ⟨cfg, w0, rfl, hst, h.2.symm, h.1.symm⟩

end dbreader

namespace dbreader

theorem removeTask_split {R : Type} (s : Nat) (ts ts1 : List (Nat × config R))
    (h : removeTask s ts = some ts1) :
    ∃ a t b, ts = a ++ t :: b ∧ t.1 = s ∧ (∀ x ∈ a, x.1 ≠ s) ∧ ts1 = a ++ b := by
  induction ts generalizing ts1 with
  | nil => simp [removeTask] at h
  | cons t ts ih =>
    unfold removeTask at h
    by_cases ht : t.1 = s
    · rw [if_pos ht] at h
      simp only [Option.some.injEq] at h
      exact ⟨[], t, ts, rfl, ht, by simp, by simp [h]⟩
    · rw [if_neg ht] at h
      cases hr : removeTask s ts with
      | none => simp [hr] at h
      | some r =>
        rw [hr] at h
        simp only [Option.map_some', Option.some.injEq] at h
        obtain ⟨a, t1, b, h1, h2, h3, h4⟩ := ih r hr
        refine ⟨t :: a, t1, b, by simp [h1], h2, ?_, by simp [← h, h4]⟩
        intro x hx
        rcases List.mem_cons.1 hx with rfl | hx
        · exact ht
        · exact h3 x hx

theorem removeTask_of_mem {R : Type} (s : Nat) (ts : List (Nat × config R))
    (h : ∃ t ∈ ts, t.1 = s) : ∃ ts1, removeTask s ts = some ts1 := by
  induction ts with
  | nil => simp at h
  | cons t ts ih =>
    unfold removeTask
    by_cases ht : t.1 = s
    · exact ⟨ts, by rw [if_pos ht]⟩
    · rw [if_neg ht]
      obtain ⟨x, hx, hxs⟩ := h
      rcases List.mem_cons.1 hx with rfl | hx
      · exact absurd hxs ht
      · obtain ⟨ts1, h1⟩ := ih ⟨x, hx, hxs⟩
        exact ⟨t :: ts1, by simp [h1]⟩

theorem removeTask_append_last {R : Type} (s : Nat) (ts : List (Nat × config R))
    (cfg : config R) (h : ∀ t ∈ ts, t.1 ≠ s) : removeTask s (ts ++ [(s, cfg)]) = some ts := by
  induction ts with
  | nil => simp [removeTask]
  | cons t ts ih =>
    have ht : t.1 ≠ s := h t (List.mem_cons_self _ _)
    have hi := ih (fun x hx => h x (List.mem_cons_of_mem _ hx))
    simp [removeTask, ht, hi]

theorem Create_error_inv {R : Type} (ops : ReaderOps R) (w w1 : World R)
    (id channelID readerData rid : String) (err : Error)
    (h : Create ops w id channelID readerData = .ok (w1, rid, some err)) :
    ops.Unmarshal readerData ops.readerFactory = .error err ∧ w1 = w ∧ rid = "" := by
  rcases Create_inv ops w w1 id channelID readerData rid _ h with
    ⟨err1, h1, h2, h3, h4⟩ | ⟨r0, w2, m2, -, -, h3, -⟩
  · simp only [Option.some.injEq] at h4
    subst h4
    exact ⟨h1, h2, h3⟩
  · cases h3

/-- C11: `Create` returns an error exactly when the payload does not decode into a reader
of the registry's variant; it then returns the empty id with that error and the state it
was called in: the map, every scheduler and every polling task are as they were. -/
theorem Create_fails_iff {R : Type} (ops : ReaderOps R) (w : World R)
    (id channelID readerData : String) :
    (∀ err, ops.Unmarshal readerData ops.readerFactory = .error err →
        Create ops w id channelID readerData = .ok (w, "", some err))
    ∧ (∀ w1 rid err, Create ops w id channelID readerData = .ok (w1, rid, some err) →
        ops.Unmarshal readerData ops.readerFactory = .error err ∧ w1 = w ∧ rid = "") := by
  constructor
  · intro err hu
    unfold Create
    rw [hu]
  · intro w1 rid err h
    exact Create_error_inv ops w w1 id channelID readerData rid err h

/-- C12: `Delete` returns the error "configuration not found" exactly when the map has no
entry for the id, and the state is then as it was; `RemoveThing` then returns the error
`Reader <id> not found: configuration not found` without a call of `SaveAll`. When the
map has an entry, a `Delete` that returns has called `stop` on the scheduler of that
entry, removed the entry for the id and no other, left the other schedulers and their
polling tasks alone, and returns no error; and it does return when the scheduler of the
entry is allocated and, if it has a ticker, its polling task is alive. -/
theorem Delete_spec {R : Type} (ops : ReaderOps R) (w : World R) (id : String)
    (fault : SaveFault) :
    (w.rm.configs.bind (fun m => mapGet m id) = none →
        Delete w id = .ok (w, some errCfgNotFound)
        ∧ RemoveThing ops w id fault
            = .ok (w, none, some ("Reader " ++ id ++ " not found: " ++ errCfgNotFound)))
    ∧ (∀ w1 err, Delete w id = .ok (w1, some err) →
        w.rm.configs.bind (fun m => mapGet m id) = none)
    ∧ (∀ cfg, w.rm.configs.bind (fun m => mapGet m id) = some cfg →
        ∀ w1 e, Delete w id = .ok (w1, e) →
          e = none
          ∧ (∃ mid, w1.trace = w.trace ++ Event.stop cfg.scheduler :: mid ++ [Event.mapDelete id])
          ∧ (∀ sch, w1.heap[cfg.scheduler]? = some sch →
              ∀ t, sch.ticker = some t → t.stopped = true)
          ∧ w1.rm.configs.bind (fun m => mapGet m id) = none
          ∧ (∀ id1, id1 ≠ id → w1.rm.configs.bind (fun m => mapGet m id1)
                = w.rm.configs.bind (fun m => mapGet m id1))
          ∧ (∀ a : Nat, a ≠ cfg.scheduler → w1.heap[a]? = w.heap[a]?)
          ∧ (∀ t ∈ w.tasks, t.1 ≠ cfg.scheduler → t ∈ w1.tasks))
    ∧ (∀ cfg sch, w.rm.configs.bind (fun m => mapGet m id) = some cfg →
        w.heap[cfg.scheduler]? = some sch →
        (sch.ticker = none ∨ ∃ t ∈ w.tasks, t.1 = cfg.scheduler) →
        ∃ w1, Delete w id = .ok (w1, none)) := by
  refine ⟨?_, ?_, ?_, ?_⟩
  · intro hg
    have hd : Delete w id = .ok (w, some errCfgNotFound) := by
      unfold Delete
      rw [hg]
    refine ⟨hd, ?_⟩
    unfold RemoveThing
    rw [hd]
  · intro w1 err h
    rcases Delete_inv w w1 id _ h with ⟨h1, -, -⟩ | ⟨cfg, w0, -, -, h3, -⟩
    · exact h1
    · cases h3
  · intro cfg hg w1 e h
    rcases Delete_inv w w1 id _ h with ⟨h1, -, -⟩ | ⟨cfg1, w0, h1, hst, h3, h4⟩
    · rw [hg] at h1
      cases h1
    · rw [hg] at h1
      simp only [Option.some.injEq] at h1
      subst h1
      obtain ⟨k1, k2, k3, ⟨mid, k4⟩, k5⟩ := stop_ok w w0 cfg.scheduler hst
      subst h4
      refine ⟨h3, ⟨mid, by simp [k4]⟩, ?_, ?_, ?_, k3, ?_⟩
      · intro sch hsch t ht
        exact k5 sch hsch t ht
      · simp only
        rw [k1]
        cases hc : w.rm.configs with
        | none => rfl
        | some m => simp [mapGet_mapDelete_self]
      · intro id1 hne
        simp only
        rw [k1]
        cases hc : w.rm.configs with
        | none => rfl
        | some m => simp [mapGet_mapDelete_ne _ _ _ hne]
      · intro t ht hne
        simp only
        obtain ⟨sch, -, hcase⟩ := stop_inv w w0 cfg.scheduler hst
        rcases hcase with ⟨-, rfl⟩ | ⟨tk, tasks1, -, hr, rfl⟩
        · exact ht
        · simp only
          obtain ⟨a, t1, b, e1, e2, -, e4⟩ := removeTask_split _ _ _ hr
          rw [e4]
          rw [e1] at ht
          simp only [List.mem_append, List.mem_cons] at ht ⊢
          rcases ht with ht | rfl | ht
          · exact Or.inl ht
          · exact absurd e2 hne
          · exact Or.inr ht
  · intro cfg sch hg hs hwf
    unfold Delete
    rw [hg]
    simp only
    cases ht : sch.ticker with
    | none =>
      rw [stop_none w _ sch hs ht]
      exact ⟨_, rfl⟩
    | some tk =>
      rcases hwf with hn | hex
      · rw [ht] at hn
        cases hn
      · obtain ⟨ts1, hr⟩ := removeTask_of_mem _ _ hex
        rw [stop_some w _ sch tk ts1 hs ht hr]
        exact ⟨_, rfl⟩

/-- C13: `CreateThing` with metadata that is empty or the text `null` returns
`ErrMalformedIdentity` and the state it was called in, so none of `Create`, `SaveAll` and
`Schedule` has run. For other metadata it calls `Create`: when that returns an error
`CreateThing` returns it with no call of `SaveAll` or `Schedule`; when that succeeds the
result is that of `Schedule` for the returned id on the state `SaveAll` leaves, and the
trace shows the effects of `Create`, then `SaveAll`, then those of `Schedule`. -/
theorem CreateThing_calls {R : Type} (ops : ReaderOps R) (w : World R)
    (thingID channelID metadata : String) (fault : SaveFault) :
    ((metadata = "" ∨ metadata = "null") →
        CreateThing ops w thingID channelID metadata fault
          = .ok (w, none, some ErrMalformedIdentity))
    ∧ (¬ (metadata = "" ∨ metadata = "null") →
        (∀ w1 rid err, Create ops w thingID channelID metadata = .ok (w1, rid, some err) →
            CreateThing ops w thingID channelID metadata fault = .ok (w, none, some err))
        ∧ (∀ w1 rid, Create ops w thingID channelID metadata = .ok (w1, rid, none) →
            CreateThing ops w thingID channelID metadata fault
              = (match Schedule (SaveAll ops w1 fault).1 rid with
                 | .ok w3 => .ok (w3, (SaveAll ops w1 fault).2.1, none)
                 | .fault => .fault
                 | .blocked => .blocked)
            ∧ ∀ w3 file e, CreateThing ops w thingID channelID metadata fault = .ok (w3, file, e) →
                e = none ∧ ∃ mid s, w3.trace = w1.trace ++ Event.saveAll :: mid ++ [Event.spawn s])
        ∧ (Create ops w thingID channelID metadata = .fault →
            CreateThing ops w thingID channelID metadata fault = .fault)
        ∧ (Create ops w thingID channelID metadata = .blocked →
            CreateThing ops w thingID channelID metadata fault = .blocked)) := by
  constructor
  · intro hm
    have hm1 : (Go.bytes metadata).length ≤ 0 ∨ metadata = "null" := by
      rwa [bytes_length_pos]
    unfold CreateThing
    rw [if_pos hm1]
  · intro hm
    have hm1 : ¬ ((Go.bytes metadata).length ≤ 0 ∨ metadata = "null") := by
      rwa [bytes_length_pos]
    have hcT : ∀ w1 rid, Create ops w thingID channelID metadata = .ok (w1, rid, none) →
        CreateThing ops w thingID channelID metadata fault
          = (match Schedule (SaveAll ops w1 fault).1 rid with
             | .ok w3 => .ok (w3, (SaveAll ops w1 fault).2.1, none)
             | .fault => .fault
             | .blocked => .blocked) := by
      intro w1 rid hc
      unfold CreateThing
      rw [if_neg hm1, hc]
      simp only
      cases Schedule (SaveAll ops w1 fault).1 rid <;> rfl
    refine ⟨?_, ?_, ?_, ?_⟩
    · intro w1 rid err hc
      have hw := (Create_error_inv ops w w1 thingID channelID metadata rid err hc).2.1
      unfold CreateThing
      rw [if_neg hm1, hc, hw]
    · intro w1 rid hc
      refine ⟨hcT w1 rid hc, ?_⟩
      intro w3 file e h
      rw [hcT w1 rid hc] at h
      cases hs : Schedule (SaveAll ops w1 fault).1 rid with
      | fault => simp [hs] at h
      | blocked => simp [hs] at h
      | ok w4 =>
        rw [hs] at h
        simp only [Res.ok.injEq, Prod.mk.injEq] at h
        obtain ⟨rfl, -, rfl⟩ := h
        refine ⟨rfl, ?_⟩
        obtain ⟨m, cfg, w2, -, -, hst, rfl⟩ := Schedule_inv _ _ _ hs
        obtain ⟨wa, sch, hstop, -, -, rfl⟩ := start_inv _ _ _ hst
        obtain ⟨-, -, -, ⟨mid, k4⟩, -⟩ := stop_ok _ wa cfg.scheduler hstop
        refine ⟨Event.stop cfg.scheduler :: mid ++ [Event.newTicker cfg.scheduler (tickerPeriod sch.interval)],
          cfg.scheduler, ?_⟩
        simp only [k4]
        have hsv : (SaveAll ops w1 fault).1.trace = w1.trace ++ [Event.saveAll] := by
          unfold SaveAll
          cases fault <;> simp only
          split <;> rfl
        rw [hsv]
        simp
    · intro hc
      unfold CreateThing
      rw [if_neg hm1, hc]
    · intro hc
      unfold CreateThing
      rw [if_neg hm1, hc]

end dbreader

namespace dbreader

theorem Create_fresh {R : Type} (ops : ReaderOps R) (w : World R) (id channelID readerData : String)
    (r0 : R) (m : List (String × config R))
    (hu : ops.Unmarshal readerData ops.readerFactory = .ok (some r0))
    (hc : w.rm.configs = some m) (hg : mapGet m id = none) :
    Create ops w id channelID readerData =
      .ok ({ w with
              rm := { w.rm with configs := some (mapStore m id
                        { ID := id, ChannelID := channelID, scheduler := w.heap.length,
                          Reader := ops.Init w.rm.params r0 }) },
              heap := w.heap ++ [{ ticker := none,
                                   interval := ops.Interval (ops.Init w.rm.params r0) }],
              trace := w.trace ++ [.mapStore id w.heap.length] }, id, none) := by
  unfold Create
  rw [hu]
  simp only
  rw [hc]
  simp only [Option.some_bind]
  rw [hg]
  simp only
  rw [hc]

theorem Create_replace {R : Type} (ops : ReaderOps R) (w w0 : World R)
    (id channelID readerData : String) (r0 : R) (m : List (String × config R)) (old : config R)
    (hu : ops.Unmarshal readerData ops.readerFactory = .ok (some r0))
    (hc : w.rm.configs = some m) (hg : mapGet m id = some old)
    (hst : scheduler.stop w old.scheduler = .ok w0) :
    Create ops w id channelID readerData =
      .ok ({ w0 with
              rm := { w0.rm with configs := some (mapStore (mapDelete m id) id
                        { ID := id, ChannelID := channelID, scheduler := w0.heap.length,
                          Reader := ops.Init w.rm.params r0 }) },
              heap := w0.heap ++ [{ ticker := none,
                                    interval := ops.Interval (ops.Init w.rm.params r0) }],
              trace := w0.trace ++ [.mapDelete id, .mapStore id w0.heap.length] }, id, none) := by
  have hrm : w0.rm = w.rm := (stop_ok w w0 old.scheduler hst).1
  unfold Create
  rw [hu]
  simp only
  rw [hc]
  simp only [Option.some_bind]
  rw [hg]
  simp only
  rw [hst]
  simp only
  rw [hrm, hc]
  simp

theorem Schedule_new {R : Type} (w : World R) (id : String) (m : List (String × config R))
    (cfg : config R) (sch : scheduler)
    (hc : w.rm.configs = some m) (hg : mapGet m id = some cfg)
    (hs : w.heap[cfg.scheduler]? = some sch) (ht : sch.ticker = none)
    (hp : 0 < tickerPeriod sch.interval) :
    Schedule w id =
      .ok { w with
              heap := w.heap.set cfg.scheduler
                { sch with ticker := some { period := tickerPeriod sch.interval, stopped := false } },
              tasks := w.tasks ++ [(cfg.scheduler, cfg)],
              trace := w.trace ++ [.stop cfg.scheduler,
                                   .newTicker cfg.scheduler (tickerPeriod sch.interval),
                                   .spawn cfg.scheduler] } := by
  have h1 := stop_none w cfg.scheduler sch hs ht
  have h2 := start_of w _ cfg.scheduler sch h1 hs hp
  rw [Schedule_of w _ id m cfg hc hg h2]
  simp

theorem Schedule_new_fault {R : Type} (w : World R) (id : String) (m : List (String × config R))
    (cfg : config R) (sch : scheduler)
    (hc : w.rm.configs = some m) (hg : mapGet m id = some cfg)
    (hs : w.heap[cfg.scheduler]? = some sch) (ht : sch.ticker = none)
    (hp : tickerPeriod sch.interval ≤ 0) :
    Schedule w id = .fault := by
  have h1 := stop_none w cfg.scheduler sch hs ht
  unfold Schedule
  rw [hc]
  simp only [Option.some_bind]
  rw [hg]
  simp only
  unfold scheduler.start
  rw [h1]
  simp only
  rw [hs]
  simp only
  rw [if_pos hp]

theorem Schedule_rm {R : Type} (w w3 : World R) (id : String) (h : Schedule w id = .ok w3) :
    w3.rm = w.rm := by
  obtain ⟨m, cfg, w2, -, -, hst, rfl⟩ := Schedule_inv _ _ _ h
  obtain ⟨wa, sch, hstop, -, -, rfl⟩ := start_inv _ _ _ hst
  exact (stop_ok _ wa cfg.scheduler hstop).1

theorem SaveAll_world {R : Type} (ops : ReaderOps R) (w : World R) (fault : SaveFault) :
    (SaveAll ops w fault).1 = { w with trace := w.trace ++ [.saveAll] } := by
  unfold SaveAll
  cases fault <;> simp only
  split <;> rfl

end dbreader

namespace dbreader

/-- C14 (amended): `SaveAll` returns the failure of the file system, but
`CreateThing` and `RemoveThing` drop what it returns. Whatever the file system does, a
`CreateThing` whose `Create` succeeded goes on to `Schedule` and, when that returns,
returns no error with the map as `Create` left it; a `RemoveThing` whose `Delete`
succeeded returns no error with the map as `Delete` left it. -/
theorem save_failure_is_dropped {R : Type} (ops : ReaderOps R) (w : World R)
    (thingID channelID metadata : String) (fault : SaveFault) :
    (∀ err w1, (SaveAll ops w1 (.create err)).2 = (none, some err)
        ∧ (SaveAll ops w1 (.sync err)).2.2 = some err)
    ∧ (¬ (metadata = "" ∨ metadata = "null") →
        ∀ w1 rid, Create ops w thingID channelID metadata = .ok (w1, rid, none) →
          CreateThing ops w thingID channelID metadata fault
            = (match Schedule { w1 with trace := w1.trace ++ [.saveAll] } rid with
               | .ok w3 => .ok (w3, (SaveAll ops w1 fault).2.1, none)
               | .fault => .fault
               | .blocked => .blocked)
          ∧ ∀ w3 file e, CreateThing ops w thingID channelID metadata fault = .ok (w3, file, e) →
              e = none ∧ w3.rm = w1.rm)
    ∧ (∀ w1, Delete w thingID = .ok (w1, none) →
        RemoveThing ops w thingID fault
          = .ok ({ w1 with trace := w1.trace ++ [.saveAll] }, (SaveAll ops w1 fault).2.1, none)) := by
  refine ⟨fun err w1 => ⟨rfl, rfl⟩, ?_, ?_⟩
  · intro hm w1 rid hc
    have hm1 : ¬ ((Go.bytes metadata).length ≤ 0 ∨ metadata = "null") := by
      rwa [bytes_length_pos]
    have hcT : CreateThing ops w thingID channelID metadata fault
        = (match Schedule { w1 with trace := w1.trace ++ [.saveAll] } rid with
           | .ok w3 => .ok (w3, (SaveAll ops w1 fault).2.1, none)
           | .fault => .fault
           | .blocked => .blocked) := by
      unfold CreateThing
      rw [if_neg hm1, hc]
      simp only
      rw [SaveAll_world]
      cases Schedule { w1 with trace := w1.trace ++ [.saveAll] } rid <;> rfl
    refine ⟨hcT, ?_⟩
    intro w3 file e h
    rw [hcT] at h
    cases hs : Schedule { w1 with trace := w1.trace ++ [.saveAll] } rid with
    | fault => simp [hs] at h
    | blocked => simp [hs] at h
    | ok w4 =>
      rw [hs] at h
      simp only [Res.ok.injEq, Prod.mk.injEq] at h
      obtain ⟨rfl, -, rfl⟩ := h
      have hrm := Schedule_rm _ _ _ hs
      exact ⟨rfl, hrm⟩
  · intro w1 hd
    unfold RemoveThing
    rw [hd]
    simp only
    rw [SaveAll_world]

/-- Counterexample to C14 as stated: on the example registry `os.Create` fails in the `SaveAll`
of `CreateThing` for a new thing `t2`, and in that of `RemoveThing` for `t1`; `SaveAll`
returns the failure, yet both operations return no error. -/
theorem save_failure_not_returned :
    (∃ w1 w3, Create exampleOps exampleWorld "t2" "ch2" "b.csv" = .ok (w1, "t2", none)
        ∧ (SaveAll exampleOps w1 (.create "permission denied")).2.2 = some "permission denied"
        ∧ CreateThing exampleOps exampleWorld "t2" "ch2" "b.csv" (.create "permission denied")
            = .ok (w3, none, none))
    ∧ (∃ w1 w3, Delete exampleWorld "t1" = .ok (w1, none)
        ∧ (SaveAll exampleOps w1 (.create "permission denied")).2.2 = some "permission denied"
        ∧ RemoveThing exampleOps exampleWorld "t1" (.create "permission denied")
            = .ok (w3, none, none)) :=
  ⟨⟨_, _, rfl, rfl, rfl⟩, ⟨_, _, rfl, rfl, rfl⟩⟩

end dbreader

namespace dbreader

/-- C16: from a registry with no entry and no polling task for `id`, the sequence
`Create`, `Schedule`, `Create`, `Schedule` for `id` (payloads that decode, intervals that
give the ticker a positive period) runs through and leaves exactly one polling task for
`id`, that of the second entry. The trace shows the second `Create` stopping the first
scheduler and sending on its `done`, which ends the first task, before it stores the
second entry, which is then scheduled. -/
theorem second_Create_leaves_one_task {R : Type} (ops : ReaderOps R) (w : World R)
    (id ch1 data1 ch2 data2 : String) (m : List (String × config R)) (r1 r2 : R)
    (hc : w.rm.configs = some m) (hno : mapGet m id = none)
    (htasks : ∀ t ∈ w.tasks, t.1 < w.heap.length ∧ t.2.ID ≠ id)
    (hd1 : ops.Unmarshal data1 ops.readerFactory = .ok (some r1))
    (hd2 : ops.Unmarshal data2 ops.readerFactory = .ok (some r2))
    (hp1 : 0 < tickerPeriod (ops.Interval (ops.Init w.rm.params r1)))
    (hp2 : 0 < tickerPeriod (ops.Interval (ops.Init w.rm.params r2))) :
    ∃ wa wb wc wd,
      Create ops w id ch1 data1 = .ok (wa, id, none)
      ∧ Schedule wa id = .ok wb
      ∧ Create ops wb id ch2 data2 = .ok (wc, id, none)
      ∧ Schedule wc id = .ok wd
      ∧ (tasksOf wb id).length = 1
      ∧ (tasksOf wc id).length = 0
      ∧ (tasksOf wd id).length = 1
      ∧ wd.tasks = w.tasks ++ [(w.heap.length + 1,
            { ID := id, ChannelID := ch2, scheduler := w.heap.length + 1,
              Reader := ops.Init w.rm.params r2 })]
      ∧ wd.trace = w.trace ++
          [.mapStore id w.heap.length,
           .stop w.heap.length,
           .newTicker w.heap.length (tickerPeriod (ops.Interval (ops.Init w.rm.params r1))),
           .spawn w.heap.length,
           .stop w.heap.length, .tickerStop w.heap.length, .doneSend w.heap.length,
           .mapDelete id,
           .mapStore id (w.heap.length + 1),
           .stop (w.heap.length + 1),
           .newTicker (w.heap.length + 1) (tickerPeriod (ops.Interval (ops.Init w.rm.params r2))),
           .spawn (w.heap.length + 1)] := by
  have hfil : w.tasks.filter (fun t => decide (t.2.ID = id)) = [] := by
    rw [List.filter_eq_nil_iff]
    intro t ht
    simpa using (htasks t ht).2
  have hne : ∀ t ∈ w.tasks, t.1 ≠ w.heap.length := fun t ht => Nat.ne_of_lt (htasks t ht).1
  -- the first Create
  obtain ⟨wa, hwa, ha⟩ : ∃ wa : World R, wa = _ ∧ Create ops w id ch1 data1 = .ok (wa, id, none) :=
    ⟨_, rfl, Create_fresh ops w id ch1 data1 r1 m hd1 hc hno⟩
  have ha_c : wa.rm.configs = some (mapStore m id
      { ID := id, ChannelID := ch1, scheduler := w.heap.length,
        Reader := ops.Init w.rm.params r1 }) := by rw [hwa]
  have ha_p : wa.rm.params = w.rm.params := by rw [hwa]
  have ha_h : wa.heap = w.heap ++
      [{ ticker := none, interval := ops.Interval (ops.Init w.rm.params r1) }] := by rw [hwa]
  have ha_t : wa.tasks = w.tasks := by rw [hwa]
  have ha_tr : wa.trace = w.trace ++ [.mapStore id w.heap.length] := by rw [hwa]
  clear hwa
  -- the first Schedule
  obtain ⟨wb, hwb, hb⟩ : ∃ wb : World R, wb = _ ∧ Schedule wa id = .ok wb :=
    ⟨_, rfl, Schedule_new wa id _ _
      { ticker := none, interval := ops.Interval (ops.Init w.rm.params r1) }
      ha_c (mapGet_mapStore_self _ _ _)
      (by rw [ha_h]; simp) rfl hp1⟩
  have hb_c : wb.rm.configs = some (mapStore m id
      { ID := id, ChannelID := ch1, scheduler := w.heap.length,
        Reader := ops.Init w.rm.params r1 }) := by rw [hwb]; exact ha_c
  have hb_p : wb.rm.params = w.rm.params := by rw [hwb]; exact ha_p
  have hb_h : wb.heap = w.heap ++
      [{ ticker := some { period := tickerPeriod (ops.Interval (ops.Init w.rm.params r1)),
                          stopped := false },
         interval := ops.Interval (ops.Init w.rm.params r1) }] := by
    rw [hwb]; simp [ha_h]
  have hb_t : wb.tasks = w.tasks ++ [(w.heap.length,
      { ID := id, ChannelID := ch1, scheduler := w.heap.length,
        Reader := ops.Init w.rm.params r1 })] := by rw [hwb]; simp [ha_t]
  have hb_tr : wb.trace = w.trace ++ [.mapStore id w.heap.length, .stop w.heap.length,
      .newTicker w.heap.length (tickerPeriod (ops.Interval (ops.Init w.rm.params r1))),
      .spawn w.heap.length] := by rw [hwb]; simp [ha_tr]
  clear hwb
  -- the second Create
  obtain ⟨w0, hw0, h0⟩ : ∃ w0 : World R, w0 = _ ∧ scheduler.stop wb w.heap.length = .ok w0 :=
    ⟨_, rfl, stop_some wb w.heap.length
      { ticker := some { period := tickerPeriod (ops.Interval (ops.Init w.rm.params r1)),
                         stopped := false },
        interval := ops.Interval (ops.Init w.rm.params r1) }
      { period := tickerPeriod (ops.Interval (ops.Init w.rm.params r1)), stopped := false }
      w.tasks (by rw [hb_h]; simp) rfl
      (by rw [hb_t]; exact removeTask_append_last _ _ _ hne)⟩
  have h0_h : w0.heap.length = w.heap.length + 1 := by rw [hw0]; simp [hb_h]
  have h0_t : w0.tasks = w.tasks := by rw [hw0]
  have h0_tr : w0.trace = wb.trace ++ [.stop w.heap.length, .tickerStop w.heap.length,
      .doneSend w.heap.length] := by rw [hw0]
  have h0_l : ∀ x, (w0.heap ++ [x])[w.heap.length + 1]? = some x := by
    intro x
    rw [← h0_h]
    simp
  clear hw0
  obtain ⟨wc, hwc, hcc⟩ : ∃ wc : World R, wc = _ ∧ Create ops wb id ch2 data2 = .ok (wc, id, none) :=
    ⟨_, rfl, Create_replace ops wb w0 id ch2 data2 r2 _ _ hd2 hb_c (mapGet_mapStore_self _ _ _) h0⟩
  rw [h0_h, hb_p] at hwc
  have hc_t : wc.tasks = w.tasks := by rw [hwc]; exact h0_t
  -- the second Schedule
  obtain ⟨wd, hwd, hd⟩ : ∃ wd : World R, wd = _ ∧ Schedule wc id = .ok wd :=
    ⟨_, rfl, Schedule_new wc id _ _
      { ticker := none, interval := ops.Interval (ops.Init w.rm.params r2) }
      (by rw [hwc]) (mapGet_mapStore_self _ _ _) (by rw [hwc]; exact h0_l _) rfl hp2⟩
  have hd_t : wd.tasks = w.tasks ++ [(w.heap.length + 1,
      { ID := id, ChannelID := ch2, scheduler := w.heap.length + 1,
        Reader := ops.Init w.rm.params r2 })] := by rw [hwd]; simp [hc_t]
  have hd_tr : wd.trace = wc.trace ++ [.stop (w.heap.length + 1),
      .newTicker (w.heap.length + 1) (tickerPeriod (ops.Interval (ops.Init w.rm.params r2))),
      .spawn (w.heap.length + 1)] := by rw [hwd]
  refine ⟨wa, wb, wc, wd, ha, hb, hcc, hd, ?_, ?_, ?_, hd_t, ?_⟩
  · unfold tasksOf
    rw [hb_t, List.filter_append, hfil]
    simp
  · unfold tasksOf
    rw [hc_t, hfil]
    rfl
  · unfold tasksOf
    rw [hd_t, List.filter_append, hfil]
    simp
  · rw [hd_tr, hwc]
    simp only
    rw [h0_tr, hb_tr]
    simp

end dbreader

namespace dbreader

theorem stop_tasks_sub {R : Type} (w w0 : World R) (s : Nat) (h : scheduler.stop w s = .ok w0) :
    ∀ t ∈ w0.tasks, t ∈ w.tasks := by
  obtain ⟨sch, -, hcase⟩ := stop_inv w w0 s h
  rcases hcase with ⟨-, rfl⟩ | ⟨tk, tasks1, -, hr, rfl⟩
  · exact fun t ht => ht
  · obtain ⟨a, t1, b, e1, -, -, e4⟩ := removeTask_split _ _ _ hr
    intro t ht
    simp only [e4, List.mem_append] at ht
    rw [e1]
    simp only [List.mem_append, List.mem_cons]
    rcases ht with ht | ht
    · exact Or.inl ht
    · exact Or.inr (Or.inr ht)

/-- How a `CreateThing` that returns no error went, by the fields of the state it leaves:
the new entry is stored, its scheduler is the last one allocated and has a running
ticker, and its polling task is the last one spawned. -/
theorem CreateThing_inv {R : Type} (ops : ReaderOps R) (w w1 : World R)
    (id ch md : String) (f : SaveFault) (file : Option (List (StoredConfig R)))
    (h : CreateThing ops w id ch md f = .ok (w1, file, none)) :
    ∃ (r0 : R) (m2 : List (String × config R)) (H : List scheduler) (T : List (Nat × config R)),
      ops.Unmarshal md ops.readerFactory = .ok (some r0)
      ∧ ¬ ((Go.bytes md).length ≤ 0 ∨ md = "null")
      ∧ 0 < tickerPeriod (ops.Interval (ops.Init w.rm.params r0))
      ∧ w1.rm.configs = some (mapStore m2 id
          { ID := id, ChannelID := ch, scheduler := H.length, Reader := ops.Init w.rm.params r0 })
      ∧ w1.rm.params = w.rm.params
      ∧ H.length = w.heap.length
      ∧ w1.heap = H ++
          [{ ticker := some { period := tickerPeriod (ops.Interval (ops.Init w.rm.params r0)),
                              stopped := false },
             interval := ops.Interval (ops.Init w.rm.params r0) }]
      ∧ (∀ t ∈ T, t ∈ w.tasks)
      ∧ w1.tasks = T ++ [(H.length,
          { ID := id, ChannelID := ch, scheduler := H.length, Reader := ops.Init w.rm.params r0 })] := by
  unfold CreateThing at h
  by_cases hm : (Go.bytes md).length ≤ 0 ∨ md = "null"
  · rw [if_pos hm] at h
    simp at h
  · rw [if_neg hm] at h
    cases hcr : Create ops w id ch md with
    | fault => simp [hcr] at h
    | blocked => simp [hcr] at h
    | ok res =>
      obtain ⟨wa, rid, e⟩ := res
      rw [hcr] at h
      cases e with
      | some err => simp at h
      | none =>
        simp only [SaveAll_world] at h
        rcases Create_inv ops w wa id ch md rid _ hcr with
          ⟨err1, -, -, -, h4⟩ | ⟨r0, w2, m2, hu, hrid, -, hc2, hclear, hwa⟩
        · cases h4
        · rw [hrid] at h
          clear hrid hcr
          have hP : w2.rm.params = w.rm.params ∧ w2.heap.length = w.heap.length
              ∧ ∀ t ∈ w2.tasks, t ∈ w.tasks := by
            rcases hclear with ⟨-, rfl⟩ | ⟨old, w0, -, hst, rfl⟩
            · exact ⟨rfl, rfl, fun t ht => ht⟩
            · obtain ⟨k1, k2, -, -, -⟩ := stop_ok w w0 old.scheduler hst
              exact ⟨by simp [k1], k2, stop_tasks_sub w w0 _ hst⟩
          have hsc : ∀ (x : scheduler), (w2.heap ++ [x])[w2.heap.length]? = some x := by
            intro x
            simp
          by_cases hp : tickerPeriod (ops.Interval (ops.Init w.rm.params r0)) ≤ 0
          · rw [Schedule_new_fault { wa with trace := wa.trace ++ [.saveAll] } id _ _
              { ticker := none, interval := ops.Interval (ops.Init w.rm.params r0) }
              (by rw [hwa]) (mapGet_mapStore_self _ _ _) (by rw [hwa]; exact hsc _) rfl hp] at h
            simp at h
          · have hp1 := lt_of_not_ge hp
            rw [Schedule_new { wa with trace := wa.trace ++ [.saveAll] } id _ _
              { ticker := none, interval := ops.Interval (ops.Init w.rm.params r0) }
              (by rw [hwa]) (mapGet_mapStore_self _ _ _) (by rw [hwa]; exact hsc _) rfl hp1] at h
            simp only [Res.ok.injEq, Prod.mk.injEq] at h
            obtain ⟨h, -⟩ := h
            refine ⟨r0, m2, w2.heap, w2.tasks, hu, hm, hp1, ?_, ?_, hP.2.1, ?_, hP.2.2, ?_⟩
            · rw [← h, hwa]
            · rw [← h, hwa]
              exact hP.1
            · rw [← h, hwa]
              simp
            · rw [← h, hwa]

/-- A `CreateThing` for an id whose entry is scheduled, its polling task being the last one
spawned: the old scheduler is stopped, and a new entry is stored and scheduled. -/
theorem CreateThing_again {R : Type} (ops : ReaderOps R) (w : World R)
    (id ch md : String) (f : SaveFault) (r0 : R) (m : List (String × config R))
    (old : config R) (sch : scheduler) (tk : Ticker) (T : List (Nat × config R))
    (hu : ops.Unmarshal md ops.readerFactory = .ok (some r0))
    (hm : ¬ ((Go.bytes md).length ≤ 0 ∨ md = "null"))
    (hp : 0 < tickerPeriod (ops.Interval (ops.Init w.rm.params r0)))
    (hc : w.rm.configs = some m) (hg : mapGet m id = some old)
    (hs : w.heap[old.scheduler]? = some sch) (ht : sch.ticker = some tk)
    (htasks : w.tasks = T ++ [(old.scheduler, old)]) (hT : ∀ t ∈ T, t.1 ≠ old.scheduler) :
    ∃ w2 file2, CreateThing ops w id ch md f = .ok (w2, file2, none)
      ∧ w2.rm.configs = some (mapStore (mapDelete m id) id
          { ID := id, ChannelID := ch, scheduler := w.heap.length,
            Reader := ops.Init w.rm.params r0 })
      ∧ w2.rm.params = w.rm.params
      ∧ w2.heap = w.heap.set old.scheduler { sch with ticker := some { tk with stopped := true } } ++
          [{ ticker := some { period := tickerPeriod (ops.Interval (ops.Init w.rm.params r0)),
                              stopped := false },
             interval := ops.Interval (ops.Init w.rm.params r0) }]
      ∧ w2.tasks = T ++ [(w.heap.length,
          { ID := id, ChannelID := ch, scheduler := w.heap.length,
            Reader := ops.Init w.rm.params r0 })] := by
  obtain ⟨w0, hw0, h0⟩ : ∃ w0 : World R, w0 = _ ∧ scheduler.stop w old.scheduler = .ok w0 :=
    ⟨_, rfl, stop_some w old.scheduler sch tk T hs ht
      (by rw [htasks]; exact removeTask_append_last _ _ _ hT)⟩
  have h0_h : w0.heap.length = w.heap.length := by rw [hw0]; simp
  obtain ⟨wc, hwc, hcc⟩ : ∃ wc : World R, wc = _ ∧ Create ops w id ch md = .ok (wc, id, none) :=
    ⟨_, rfl, Create_replace ops w w0 id ch md r0 m old hu hc hg h0⟩
  rw [h0_h] at hwc
  have hsc : ∀ (x : scheduler), (w0.heap ++ [x])[w.heap.length]? = some x := by
    intro x
    rw [← h0_h]
    simp
  obtain ⟨wd, hwd, hsd⟩ : ∃ wd : World R, wd = _
      ∧ Schedule { wc with trace := wc.trace ++ [.saveAll] } id = .ok wd :=
    ⟨_, rfl, Schedule_new { wc with trace := wc.trace ++ [.saveAll] } id _ _
      { ticker := none, interval := ops.Interval (ops.Init w.rm.params r0) }
      (by rw [hwc]) (mapGet_mapStore_self _ _ _) (by rw [hwc]; exact hsc _) rfl hp⟩
  refine ⟨wd, (SaveAll ops wc f).2.1, ?_, ?_, ?_, ?_, ?_⟩
  · unfold CreateThing
    rw [if_neg hm, hcc]
    simp only [SaveAll_world]
    rw [hsd]
  · rw [hwd, hwc]
  · rw [hwd, hwc, hw0]
  · have hset : ∀ (x y : scheduler), (w0.heap ++ [x]).set w.heap.length y = w0.heap ++ [y] := by
      intro x y
      rw [← h0_h]
      simp
    rw [hwd, hwc]
    simp only [hset]
    rw [hw0]
  · rw [hwd, hwc, hw0]

end dbreader

namespace dbreader

/-- C15: in a state whose polling tasks wait on allocated schedulers, when `CreateThing`
has handled a create (it returned no error), handling the same create again returns no
error as well and ends in the same registry: every id has the same entry as after the
first call (id, channel id, reader), the entry for `id` is scheduled once in both states,
and as many polling tasks are alive for `id`. -/
theorem CreateThing_twice {R : Type} (ops : ReaderOps R) (w w1 : World R)
    (id ch md : String) (f1 f2 : SaveFault) (file1 : Option (List (StoredConfig R)))
    (hwf : ∀ t ∈ w.tasks, t.1 < w.heap.length)
    (h1 : CreateThing ops w id ch md f1 = .ok (w1, file1, none)) :
    ∃ w2 file2, CreateThing ops w1 id ch md f2 = .ok (w2, file2, none)
      ∧ (∀ id1, entryView w2 id1 = entryView w1 id1)
      ∧ scheduledOnce w1 id ∧ scheduledOnce w2 id
      ∧ (tasksOf w2 id).length = (tasksOf w1 id).length := by
  obtain ⟨r0, m2, H, T, hu, hm, hp, hc1, hpar, hH, hheap, hT, htasks⟩ :=
    CreateThing_inv ops w w1 id ch md f1 file1 h1
  have hT1 : ∀ t ∈ T, t.1 < H.length := fun t ht => by
    rw [hH]
    exact hwf t (hT t ht)
  have hlen : w1.heap.length = H.length + 1 := by rw [hheap]; simp
  have hs1 : w1.heap[H.length]? = some
      { ticker := some { period := tickerPeriod (ops.Interval (ops.Init w.rm.params r0)),
                         stopped := false },
        interval := ops.Interval (ops.Init w.rm.params r0) } := by
    rw [hheap]
    simp
  obtain ⟨w2, file2, h2, hc2, -, hheap2, htasks2⟩ :=
    CreateThing_again ops w1 id ch md f2 r0 _
      { ID := id, ChannelID := ch, scheduler := H.length, Reader := ops.Init w.rm.params r0 }
      _ { period := tickerPeriod (ops.Interval (ops.Init w.rm.params r0)), stopped := false }
      T hu hm (by rw [hpar]; exact hp) hc1 (mapGet_mapStore_self _ _ _) hs1 rfl htasks
      (fun t ht => Nat.ne_of_lt (hT1 t ht))
  rw [hpar, hlen] at hc2 htasks2
  refine ⟨w2, file2, h2, ?_, ?_, ?_, ?_⟩
  · intro id1
    unfold entryView
    rw [hc2, hc1]
    simp only [Option.some_bind]
    by_cases hid : id1 = id
    · subst hid
      rw [mapGet_mapStore_self, mapGet_mapStore_self]
      rfl
    · rw [mapGet_mapStore_ne _ _ _ _ hid, mapGet_mapDelete_ne _ _ _ hid]
  · refine ⟨_, _, _, by rw [hc1]; exact mapGet_mapStore_self _ _ _, hs1, rfl, rfl, ?_⟩
    rw [htasks, List.filter_append]
    have : T.filter (fun t => decide (t.1 = H.length)) = [] := by
      rw [List.filter_eq_nil_iff]
      intro t ht
      simpa using Nat.ne_of_lt (hT1 t ht)
    simp [this]
  · refine ⟨_, { ticker := some { period := tickerPeriod (ops.Interval (ops.Init w.rm.params r0)),
                                   stopped := false },
                 interval := ops.Interval (ops.Init w.rm.params r0) }, _,
      by rw [hc2]; exact mapGet_mapStore_self _ _ _, ?_, rfl, rfl, ?_⟩
    · rw [hheap2]
      simp only
      have hl : (w1.heap.set H.length
          { ticker := some { period := tickerPeriod (ops.Interval (ops.Init w.rm.params r0)),
                             stopped := true },
            interval := ops.Interval (ops.Init w.rm.params r0) }).length = H.length + 1 := by
        simp [hlen]
      rw [← hl]
      simp [hpar]
    · rw [htasks2, List.filter_append]
      have : T.filter (fun t => decide (t.1 = H.length + 1)) = [] := by
        rw [List.filter_eq_nil_iff]
        intro t ht
        have := hT1 t ht
        simp
        omega
      simp [this]
  · unfold tasksOf
    rw [htasks2, htasks, List.filter_append, List.filter_append]
    simp

end dbreader

/-! ### The invariant of the registry -/

namespace dbreader

theorem mapGet_mem {R : Type} (m : List (String × config R)) (id : String) (cfg : config R)
    (h : mapGet m id = some cfg) : (id, cfg) ∈ m := by
  induction m with
  | nil => simp [mapGet] at h
  | cons e m ih =>
    rw [mapGet_cons] at h
    by_cases he : e.1 = id
    · rw [if_pos he] at h
      simp only [Option.some.injEq] at h
      have : e = (id, cfg) := Prod.ext he h
      rw [this]
      exact List.mem_cons_self _ _
    · rw [if_neg he] at h
      exact List.mem_cons_of_mem _ (ih h)

theorem mapGet_none {R : Type} (m : List (String × config R)) (id : String)
    (h : mapGet m id = none) : ∀ e ∈ m, e.1 ≠ id := by
  induction m with
  | nil => simp
  | cons e m ih =>
    rw [mapGet_cons] at h
    by_cases he : e.1 = id
    · rw [if_pos he] at h
      cases h
    · rw [if_neg he] at h
      intro x hx
      rcases List.mem_cons.1 hx with rfl | hx
      · exact he
      · exact ih h x hx

theorem mapGet_of_mem {R : Type} (m : List (String × config R)) (e : String × config R)
    (hk : (m.map (fun e => e.1)).Nodup) (he : e ∈ m) : mapGet m e.1 = some e.2 := by
  cases hg : mapGet m e.1 with
  | none => exact absurd rfl (mapGet_none m e.1 hg e he)
  | some cfg =>
    have h1 := mapGet_mem m e.1 cfg hg
    have := List.inj_on_of_nodup_map hk h1 he rfl
    rw [← this]

theorem mem_mapDelete {R : Type} (m : List (String × config R)) (id : String)
    (e : String × config R) : e ∈ mapDelete m id ↔ e ∈ m ∧ e.1 ≠ id := by
  simp [mapDelete]

theorem mem_mapStore {R : Type} (m : List (String × config R)) (id : String) (cfg : config R)
    (e : String × config R) :
    e ∈ mapStore m id cfg ↔ (e ∈ m ∧ e.1 ≠ id) ∨ e = (id, cfg) := by
  simp [mapStore, mem_mapDelete]

theorem InvOn_nil {R : Type} (heap : List scheduler) :
    InvOn ([] : List (String × config R)) heap [] :=
  { keys := List.nodup_nil, entry := by simp, scheds := List.nodup_nil, owner := by simp,
    single := List.nodup_nil, ticking := by simp }

theorem InvOn_filter {R : Type} (m : List (String × config R)) (heap : List scheduler)
    (tasks : List (Nat × config R)) (id : String) (h : InvOn m heap tasks)
    (hid : ∀ t ∈ tasks, ∀ e ∈ m, e.2.scheduler = t.1 → e.1 ≠ id) :
    InvOn (mapDelete m id) heap tasks :=
  { keys := h.keys.sublist (List.Sublist.map _ (List.filter_sublist _)),
    entry := fun e he => h.entry e ((mem_mapDelete m id e).1 he).1,
    scheds := h.scheds.sublist (List.Sublist.map _ (List.filter_sublist _)),
    owner := fun t ht => by
      obtain ⟨e, he, h1, h2⟩ := h.owner t ht
      exact ⟨e, (mem_mapDelete m id e).2 ⟨he, hid t ht e he h2⟩, h1, h2⟩,
    single := h.single,
    ticking := fun e he => h.ticking e ((mem_mapDelete m id e).1 he).1 }

theorem InvOn_add {R : Type} (m : List (String × config R)) (heap : List scheduler)
    (tasks : List (Nat × config R)) (id ch : String) (rd : R) (iv : Rat)
    (h : InvOn m heap tasks) (hid : ∀ e ∈ m, e.1 ≠ id) :
    InvOn (m ++ [(id, { ID := id, ChannelID := ch, scheduler := heap.length, Reader := rd })])
      (heap ++ [{ ticker := none, interval := iv }]) tasks := by
  have hlt : ∀ t ∈ tasks, t.1 < heap.length := fun t ht => by
    obtain ⟨e, he, -, h2⟩ := h.owner t ht
    rw [← h2]
    exact (h.entry e he).2
  refine
    { keys := ?_, entry := ?_, scheds := ?_, owner := ?_, single := h.single, ticking := ?_ }
  · rw [List.map_append, List.nodup_append]
    refine ⟨h.keys, by simp, ?_⟩
    intro a ha hb
    simp only [List.map_cons, List.map_nil, List.mem_singleton] at hb
    obtain ⟨e, he, rfl⟩ := List.mem_map.1 ha
    exact hid e he hb
  · intro e he
    rcases List.mem_append.1 he with he | he
    · refine ⟨(h.entry e he).1, ?_⟩
      have := (h.entry e he).2
      simp
      omega
    · simp only [List.mem_singleton] at he
      subst he
      simp
  · rw [List.map_append, List.nodup_append]
    refine ⟨h.scheds, by simp, ?_⟩
    intro a ha hb
    simp only [List.map_cons, List.map_nil, List.mem_singleton] at hb
    obtain ⟨e, he, rfl⟩ := List.mem_map.1 ha
    have := (h.entry e he).2
    omega
  · intro t ht
    obtain ⟨e, he, h1, h2⟩ := h.owner t ht
    exact ⟨e, List.mem_append_left _ he, h1, h2⟩
  · intro e he sch hs
    rcases List.mem_append.1 he with he | he
    · rw [List.getElem?_append_left (h.entry e he).2] at hs
      exact h.ticking e he sch hs
    · simp only [List.mem_singleton] at he
      subst he
      simp only [List.getElem?_concat_length, Option.some.injEq] at hs
      subst hs
      simp only [ne_eq, not_true_eq_false, false_iff, not_exists, not_and]
      intro t ht
      exact Nat.ne_of_lt (hlt t ht)

theorem InvOn_store {R : Type} (m : List (String × config R)) (heap : List scheduler)
    (tasks : List (Nat × config R)) (id ch : String) (rd : R) (iv : Rat)
    (h : InvOn m heap tasks)
    (hid : ∀ t ∈ tasks, ∀ e ∈ m, e.2.scheduler = t.1 → e.1 ≠ id) :
    InvOn (mapStore m id { ID := id, ChannelID := ch, scheduler := heap.length, Reader := rd })
      (heap ++ [{ ticker := none, interval := iv }]) tasks :=
  InvOn_add (mapDelete m id) heap tasks id ch rd iv (InvOn_filter m heap tasks id h hid)
    (fun e he => ((mem_mapDelete m id e).1 he).2)

end dbreader

namespace dbreader

/-- What `stop` on the scheduler of an entry does to a state that has the invariant: the
map is as it was, the other schedulers are as they were, and the tasks are those that did
not wait on this scheduler. -/
theorem stop_facts {R : Type} (w w0 : World R) (m : List (String × config R))
    (e : String × config R) (h : InvOn m w.heap w.tasks) (he : e ∈ m)
    (hst : scheduler.stop w e.2.scheduler = .ok w0) :
    w0.rm = w.rm ∧ w0.heap.length = w.heap.length
    ∧ (∀ a : Nat, a ≠ e.2.scheduler → w0.heap[a]? = w.heap[a]?)
    ∧ (∀ t, t ∈ w0.tasks ↔ t ∈ w.tasks ∧ t.1 ≠ e.2.scheduler)
    ∧ (w0.tasks.map (fun t => t.1)).Nodup := by
  obtain ⟨k1, k2, k3, -, -⟩ := stop_ok w w0 e.2.scheduler hst
  refine ⟨k1, k2, k3, ?_⟩
  obtain ⟨sch, hs, hcase⟩ := stop_inv w w0 e.2.scheduler hst
  rcases hcase with ⟨hn, rfl⟩ | ⟨tk, tasks1, -, hr, rfl⟩
  · refine ⟨?_, h.single⟩
    intro t
    simp only [iff_self_and]
    intro ht heq
    have := (h.ticking e he sch hs).2 ⟨t, ht, heq⟩
    exact this hn
  · obtain ⟨a, t1, b, e1, e2, -, e4⟩ := removeTask_split _ _ _ hr
    have hnd := h.single
    rw [e1, List.map_append, List.map_cons] at hnd
    have hnd1 : (a.map (fun t => t.1) ++ b.map (fun t => t.1)).Nodup :=
      hnd.sublist (List.Sublist.append_left (List.sublist_cons_self _ _) _)
    rw [List.nodup_append] at hnd
    obtain ⟨-, hb, hdis⟩ := hnd
    rw [List.nodup_cons] at hb
    have ha1 : ∀ x ∈ a, x.1 ≠ e.2.scheduler := by
      intro x hx heq
      exact hdis (List.mem_map.2 ⟨x, hx, rfl⟩) (by rw [heq, ← e2]; exact List.mem_cons_self _ _)
    have hb1 : ∀ x ∈ b, x.1 ≠ e.2.scheduler := by
      intro x hx heq
      exact hb.1 (by rw [e2, ← heq]; exact List.mem_map.2 ⟨x, hx, rfl⟩)
    simp only
    refine ⟨?_, by rw [e4, List.map_append]; exact hnd1⟩
    intro t
    rw [e4, e1]
    simp only [List.mem_append, List.mem_cons]
    constructor
    · rintro (ht | ht)
      · exact ⟨Or.inl ht, ha1 t ht⟩
      · exact ⟨Or.inr (Or.inr ht), hb1 t ht⟩
    · rintro ⟨ht | rfl | ht, hne⟩
      · exact Or.inl ht
      · exact absurd e2 hne
      · exact Or.inr ht

theorem InvOn_delete {R : Type} (w w0 : World R) (m : List (String × config R)) (id : String)
    (cfg : config R) (h : InvOn m w.heap w.tasks) (hg : mapGet m id = some cfg)
    (hst : scheduler.stop w cfg.scheduler = .ok w0) :
    InvOn (mapDelete m id) w0.heap w0.tasks := by
  have he : (id, cfg) ∈ m := mapGet_mem m id cfg hg
  obtain ⟨-, k2, k3, k4, k5⟩ := stop_facts w w0 m (id, cfg) h he hst
  simp only at k3 k4
  have hne : ∀ e1 ∈ mapDelete m id, e1.2.scheduler ≠ cfg.scheduler := by
    intro e1 he1 heq
    obtain ⟨hm1, hk1⟩ := (mem_mapDelete m id e1).1 he1
    have := List.inj_on_of_nodup_map h.scheds hm1 he heq
    rw [this] at hk1
    exact hk1 rfl
  refine
    { keys := h.keys.sublist (List.Sublist.map _ (List.filter_sublist _)),
      entry := ?_,
      scheds := h.scheds.sublist (List.Sublist.map _ (List.filter_sublist _)),
      owner := ?_, single := k5, ticking := ?_ }
  · intro e1 he1
    rw [k2]
    exact h.entry e1 ((mem_mapDelete m id e1).1 he1).1
  · intro t ht
    obtain ⟨ht1, ht2⟩ := (k4 t).1 ht
    obtain ⟨e1, he1, h1, h2⟩ := h.owner t ht1
    refine ⟨e1, (mem_mapDelete m id e1).2 ⟨he1, ?_⟩, h1, h2⟩
    intro hk
    have : e1 = (id, cfg) := List.inj_on_of_nodup_map h.keys he1 he hk
    rw [this] at h2
    exact ht2 h2.symm
  · intro e1 he1 sch hs
    rw [k3 _ (hne e1 he1)] at hs
    rw [h.ticking e1 ((mem_mapDelete m id e1).1 he1).1 sch hs]
    constructor
    · rintro ⟨t, ht, heq⟩
      exact ⟨t, (k4 t).2 ⟨ht, by rw [heq]; exact hne e1 he1⟩, heq⟩
    · rintro ⟨t, ht, heq⟩
      exact ⟨t, ((k4 t).1 ht).1, heq⟩

theorem InvOn_schedule {R : Type} (w w3 : World R) (m : List (String × config R)) (id : String)
    (hc : w.rm.configs = some m) (h : InvOn m w.heap w.tasks)
    (hs : Schedule w id = .ok w3) :
    w3.rm = w.rm ∧ InvOn m w3.heap w3.tasks := by
  refine ⟨Schedule_rm w w3 id hs, ?_⟩
  obtain ⟨m1, cfg, w2, hc1, hg, hst, rfl⟩ := Schedule_inv _ _ _ hs
  rw [hc] at hc1
  simp only [Option.some.injEq] at hc1
  subst hc1
  obtain ⟨w1, sch, hstop, hsch, -, rfl⟩ := start_inv _ _ _ hst
  have he : (id, cfg) ∈ m := mapGet_mem m id cfg hg
  obtain ⟨-, k2, k3, k4, k5⟩ := stop_facts w w1 m (id, cfg) h he hstop
  simp only at k3 k4 ⊢
  have hlt : cfg.scheduler < w1.heap.length := (List.getElem?_eq_some_iff.1 hsch).1
  refine
    { keys := h.keys, entry := ?_, scheds := h.scheds, owner := ?_, single := ?_, ticking := ?_ }
  · intro e1 he1
    rw [List.length_set, k2]
    exact h.entry e1 he1
  · intro t ht
    rcases List.mem_append.1 ht with ht | ht
    · obtain ⟨ht1, -⟩ := (k4 t).1 ht
      exact h.owner t ht1
    · simp only [List.mem_singleton] at ht
      subst ht
      exact ⟨(id, cfg), he, ((h.entry _ he).1).symm, rfl⟩
  · rw [List.map_append, List.nodup_append]
    refine ⟨k5, by simp, ?_⟩
    intro a ha hb
    simp only [List.map_cons, List.map_nil, List.mem_singleton] at hb
    obtain ⟨t, ht, rfl⟩ := List.mem_map.1 ha
    exact ((k4 t).1 ht).2 hb
  · intro e1 he1 sch1 hs1
    by_cases heq : e1.2.scheduler = cfg.scheduler
    · rw [heq] at hs1 ⊢
      rw [List.getElem?_set_self hlt] at hs1
      simp only [Option.some.injEq] at hs1
      subst hs1
      simp
    · rw [List.getElem?_set_ne (Ne.symm heq), k3 _ heq] at hs1
      rw [h.ticking e1 he1 sch1 hs1]
      constructor
      · rintro ⟨t, ht, hteq⟩
        exact ⟨t, List.mem_append_left _ ((k4 t).2 ⟨ht, by rw [hteq]; exact heq⟩), hteq⟩
      · rintro ⟨t, ht, hteq⟩
        rcases List.mem_append.1 ht with ht | ht
        · exact ⟨t, ((k4 t).1 ht).1, hteq⟩
        · simp only [List.mem_singleton] at ht
          subst ht
          exact absurd hteq.symm heq

theorem Inv_startEach {R : Type} (ids : List String) (w w1 : World R) (h : Inv w)
    (hs : startEach ids w = .ok w1) : Inv w1 := by
  induction ids generalizing w with
  | nil =>
    simp only [startEach, Res.ok.injEq] at hs
    rw [← hs]
    exact h
  | cons id ids ih =>
    unfold startEach at hs
    cases hsc : Schedule w id with
    | fault => simp [hsc] at hs
    | blocked => simp [hsc] at hs
    | ok w2 =>
      rw [hsc] at hs
      simp only at hs
      obtain ⟨m, cfg, w3, hc, -, -, -⟩ := Schedule_inv _ _ _ hsc
      have h1 : InvOn m w.heap w.tasks := by
        have := h
        unfold Inv at this
        rwa [hc] at this
      obtain ⟨hrm, h2⟩ := InvOn_schedule w w2 m id hc h1 hsc
      apply ih w2 _ hs
      unfold Inv
      rw [hrm, hc]
      exact h2

theorem Inv_loadLines {R : Type} (ops : ReaderOps R) (lines : List (StoreLine R))
    (w w1 : World R) (m : List (String × config R)) (hc : w.rm.configs = some m)
    (h : InvOn m w.heap w.tasks) (ht : w.tasks = [])
    (hl : loadLines ops lines w = .ok w1) : Inv w1 := by
  induction lines generalizing w m with
  | nil =>
    simp only [loadLines, Res.ok.injEq] at hl
    rw [← hl]
    unfold Inv
    rw [hc]
    exact h
  | cons line lines ih =>
    cases line with
    | none =>
      simp only [loadLines] at hl
      exact ih w m hc h ht hl
    | some sc =>
      simp only [loadLines] at hl
      cases hr : sc.Reader with
      | none => simp [hr] at hl
      | some r =>
        rw [hr] at hl
        simp only at hl
        rw [hc] at hl
        simp only at hl
        refine ih _ (mapStore m sc.ID
          { ID := sc.ID, ChannelID := sc.ChannelID, scheduler := w.heap.length,
            Reader := ops.Init w.rm.params r }) ?_ ?_ ?_ hl
        · rfl
        · exact InvOn_store m w.heap w.tasks sc.ID sc.ChannelID _ _ h (by rw [ht]; simp)
        · exact ht

end dbreader

namespace dbreader

theorem Inv_of_reachable {R : Type} (ops : ReaderOps R) (w : World R)
    (h : Reachable ops true w) : Inv w := by
  induction h with
  | fresh cfgFile readerType => exact InvOn_nil []
  | setParams w params _ ih => exact ih
  | loadAll w w1 disk err _ hg hl ih =>
    have ht : w.tasks = [] := hg rfl
    unfold LoadAll at hl
    cases disk with
    | missing cause =>
      simp only [Res.ok.injEq, Prod.mk.injEq] at hl
      rw [← hl.1]
      exact ih
    | unreadable cause =>
      simp only [Res.ok.injEq, Prod.mk.injEq] at hl
      rw [← hl.1]
      exact ih
    | file lines =>
      simp only at hl
      cases hll : loadLines ops lines { w with rm := { w.rm with configs := some [] },
                                               trace := w.trace ++ [.mapNew] } with
      | fault => simp [hll] at hl
      | blocked => simp [hll] at hl
      | ok w2 =>
        rw [hll] at hl
        simp only [Res.ok.injEq, Prod.mk.injEq] at hl
        rw [← hl.1]
        refine Inv_loadLines ops lines _ w2 [] ?_ ?_ ?_ hll
        · rfl
        · show InvOn [] w.heap w.tasks
          rw [ht]
          exact InvOn_nil _
        · exact ht
  | create w w1 id channelID readerData rid err _ hcr ih =>
    rcases Create_inv ops w w1 id channelID readerData rid err hcr with
      ⟨err1, -, h2, -, -⟩ | ⟨r0, w2, m2, -, -, -, hc2, hclear, hw1⟩
    · rw [h2]
      exact ih
    · have key : InvOn m2 w2.heap w2.tasks ∧ ∀ e ∈ m2, e.1 ≠ id := by
        rcases hclear with ⟨hb, rfl⟩ | ⟨old, w0, hb, hst, rfl⟩
        · rw [hc2] at hb
          simp only [Option.some_bind] at hb
          refine ⟨?_, mapGet_none m2 id hb⟩
          have := ih
          unfold Inv at this
          rwa [hc2] at this
        · cases hc : w.rm.configs with
          | none => simp [hc] at hb
          | some m =>
            rw [hc] at hb
            simp only [Option.some_bind] at hb
            have h1 : InvOn m w.heap w.tasks := by
              have := ih
              unfold Inv at this
              rwa [hc] at this
            have hrm : w0.rm = w.rm := (stop_ok w w0 old.scheduler hst).1
            simp only [hrm, hc, Option.map_some', Option.some.injEq] at hc2
            subst hc2
            exact ⟨InvOn_delete w w0 m id old h1 hb hst,
              fun e he => ((mem_mapDelete m id e).1 he).2⟩
      rw [hw1]
      unfold Inv
      simp only [Option.getD_some]
      exact InvOn_store m2 w2.heap w2.tasks id channelID _ _ key.1
        (fun t _ e he _ => key.2 e he)
  | delete w w1 id err _ hd ih =>
    rcases Delete_inv w w1 id err hd with ⟨-, h2, -⟩ | ⟨cfg, w0, hb, hst, -, rfl⟩
    · rw [h2]
      exact ih
    · cases hc : w.rm.configs with
      | none => simp [hc] at hb
      | some m =>
        rw [hc] at hb
        simp only [Option.some_bind] at hb
        have h1 : InvOn m w.heap w.tasks := by
          have := ih
          unfold Inv at this
          rwa [hc] at this
        have hrm : w0.rm = w.rm := (stop_ok w w0 cfg.scheduler hst).1
        unfold Inv
        simp only [hrm, hc, Option.map_some', Option.getD_some]
        exact InvOn_delete w w0 m id cfg h1 hb hst
  | schedule w w1 id _ hs ih =>
    obtain ⟨m, cfg, w3, hc, -, -, -⟩ := Schedule_inv _ _ _ hs
    have h1 : InvOn m w.heap w.tasks := by
      have := ih
      unfold Inv at this
      rwa [hc] at this
    obtain ⟨hrm, h2⟩ := InvOn_schedule w w1 m id hc h1 hs
    unfold Inv
    rw [hrm, hc]
    exact h2
  | startAll w w1 _ hs ih => exact Inv_startEach _ w w1 ih hs

theorem length_le_one_of_nodup_map {α β : Type} (f : α → β) (l : List α)
    (hn : (l.map f).Nodup) (hc : ∀ x ∈ l, ∀ y ∈ l, f x = f y) : l.length ≤ 1 := by
  match l, hn, hc with
  | [], _, _ => simp
  | [_], _, _ => simp
  | a :: b :: l, hn, hc =>
    exfalso
    simp only [List.map_cons, List.nodup_cons, List.mem_cons, not_or] at hn
    exact hn.1.1 (hc a (by simp) b (by simp))

/-- C17 (amended): in every state that calls of `LoadAll`, `Create`, `Delete`,
`Schedule` and `StartAll` (and `SetParams`) lead to from a new manager, `LoadAll` being
called only while no polling task is alive, at most one polling task is alive for an id,
and every polling task waits on the scheduler of the entry the map holds for its id. -/
theorem one_task_per_id {R : Type} (ops : ReaderOps R) (w : World R)
    (h : Reachable ops true w) :
    (∀ id, (tasksOf w id).length ≤ 1) ∧ tasksOwned w := by
  have hinv := Inv_of_reachable ops w h
  unfold Inv at hinv
  have hown : ∀ t ∈ w.tasks, ∃ m e, w.rm.configs = some m ∧ e ∈ m ∧ e.1 = t.2.ID
      ∧ e.2.scheduler = t.1 := by
    intro t ht
    obtain ⟨e, he, h1, h2⟩ := hinv.owner t ht
    cases hc : w.rm.configs with
    | none =>
      rw [hc] at he
      simp at he
    | some m =>
      rw [hc] at he
      exact ⟨m, e, rfl, he, h1, h2⟩
  constructor
  · intro id
    unfold tasksOf
    apply length_le_one_of_nodup_map (fun t => t.1)
    · exact hinv.single.sublist (List.Sublist.map _ (List.filter_sublist _))
    · intro x hx y hy
      obtain ⟨hx1, hx2⟩ := List.mem_filter.1 hx
      obtain ⟨hy1, hy2⟩ := List.mem_filter.1 hy
      simp only [decide_eq_true_eq] at hx2 hy2
      obtain ⟨m, e, hc, he, h1, h2⟩ := hown x hx1
      obtain ⟨m1, e1, hc1, he1, h3, h4⟩ := hown y hy1
      rw [hc] at hc1
      simp only [Option.some.injEq] at hc1
      subst hc1
      rw [hc] at hinv
      have : e = e1 := List.inj_on_of_nodup_map hinv.keys he he1 (by rw [h1, h3, hx2, hy2])
      rw [← h2, ← h4, this]
  · intro t ht
    obtain ⟨m, e, hc, he, h1, h2⟩ := hown t ht
    rw [hc] at hinv
    refine ⟨e.2, ?_, h2⟩
    rw [hc]
    simp only [Option.some_bind]
    rw [← h1]
    exact mapGet_of_mem m e hinv.keys he

/-- Witness of C17: the state after `LoadAll` of the one-line store and `StartAll`, in which
the polling task of `t1` is alive. -/
theorem one_task_per_id_witness :
    ∃ w : World csv.csvReader, Reachable exampleOps true w ∧ (tasksOf w "t1").length = 1
      ∧ (∀ id, (tasksOf w id).length ≤ 1) ∧ tasksOwned w := by
  have r0 : Reachable exampleOps true (newWorld "readers.cfg" "csv") := .fresh _ _
  have r1 := Reachable.loadAll _ _ storeT1 none r0 (fun _ => rfl) rfl
  have r2 := Reachable.startAll _ _ r1 rfl
  exact ⟨_, r2, rfl, one_task_per_id exampleOps _ r2⟩

/-- Counterexample to C17 as stated: a new manager calls `LoadAll` and `StartAll`, and then both
again. The second `LoadAll` replaces the map and leaves the polling task of `t1` alive and
its scheduler running; the second `StartAll` spawns a second task for `t1`. Two polling
tasks are alive for `t1`, and the first waits on a scheduler that no entry of the map has. -/
theorem LoadAll_twice_two_tasks :
    ∃ w : World csv.csvReader, Reachable exampleOps false w ∧ (tasksOf w "t1").length = 2
      ∧ ¬ tasksOwned w := by
  have r0 : Reachable exampleOps false (newWorld "readers.cfg" "csv") := .fresh _ _
  have r1 := Reachable.loadAll _ _ storeT1 none r0 (fun h => by cases h) rfl
  have r2 := Reachable.startAll _ _ r1 rfl
  have r3 := Reachable.loadAll _ _ storeT1 none r2 (fun h => by cases h) rfl
  have r4 := Reachable.startAll _ _ r3 rfl
  refine ⟨_, r4, rfl, ?_⟩
  intro hown
  obtain ⟨cfg, h1, h2⟩ := hown _ (List.mem_cons_self _ _)
  cases h1
  exact absurd h2 (by decide)

end dbreader

/-! ### The persisted store -/

namespace dbreader

theorem lastLine_some {R : Type} (lines : List (StoredConfig R)) (id : String)
    (sc : StoredConfig R) (h : lastLine lines id = some sc) : sc ∈ lines ∧ sc.ID = id := by
  induction lines with
  | nil => simp [lastLine] at h
  | cons x lines ih =>
    unfold lastLine at h
    cases hl : lastLine lines id with
    | some y =>
      rw [hl] at h
      simp only [Option.some.injEq] at h
      subst h
      exact ⟨List.mem_cons_of_mem _ (ih hl).1, (ih hl).2⟩
    | none =>
      rw [hl] at h
      simp only at h
      by_cases hx : x.ID = id
      · rw [if_pos hx] at h
        simp only [Option.some.injEq] at h
        subst h
        exact ⟨List.mem_cons_self _ _, hx⟩
      · rw [if_neg hx] at h
        cases h

theorem lastLine_none {R : Type} (lines : List (StoredConfig R)) (id : String)
    (h : lastLine lines id = none) : ∀ sc ∈ lines, sc.ID ≠ id := by
  induction lines with
  | nil => simp
  | cons x lines ih =>
    unfold lastLine at h
    cases hl : lastLine lines id with
    | some y => simp [hl] at h
    | none =>
      rw [hl] at h
      simp only at h
      by_cases hx : x.ID = id
      · simp [hx] at h
      · intro sc hsc
        rcases List.mem_cons.1 hsc with rfl | hsc
        · exact hx
        · exact ih hl sc hsc

theorem lastLine_cons {R : Type} (sc : StoredConfig R) (lines : List (StoredConfig R))
    (id : String) :
    lastLine (sc :: lines) id
      = (match lastLine lines id with
         | some x => some x
         | none => if sc.ID = id then some sc else none) := rfl

/-- What the loop of `LoadAll` leaves for lines that all decode to a reader: it returns,
every entry is stored under its id, the ids are distinct, and an id has the entry of its
last line, or the entry it had when no line has the id. -/
theorem loadLines_spec {R : Type} (ops : ReaderOps R) (lines : List (StoredConfig R))
    (w : World R) (m : List (String × config R)) (hc : w.rm.configs = some m)
    (hr : ∀ sc ∈ lines, ∃ r, sc.Reader = some r)
    (hk : (m.map (fun e => e.1)).Nodup) (hid : ∀ e ∈ m, e.2.ID = e.1) :
    ∃ w1 m1, loadLines ops (lines.map some) w = .ok w1 ∧ w1.rm.configs = some m1
      ∧ (m1.map (fun e => e.1)).Nodup ∧ (∀ e ∈ m1, e.2.ID = e.1)
      ∧ ∀ id, (mapGet m1 id).map (fun c => (c.ID, c.ChannelID, c.Reader))
          = (match lastLine lines id with
             | some sc => sc.Reader.map (fun r => (sc.ID, sc.ChannelID, ops.Init w.rm.params r))
             | none => (mapGet m id).map (fun c => (c.ID, c.ChannelID, c.Reader))) := by
  induction lines generalizing w m with
  | nil =>
    refine ⟨w, m, rfl, hc, hk, hid, ?_⟩
    intro id
    simp [lastLine]
  | cons sc lines ih =>
    obtain ⟨r, hrd⟩ := hr sc (List.mem_cons_self _ _)
    have hk1 : ((mapStore m sc.ID
        { ID := sc.ID, ChannelID := sc.ChannelID, scheduler := w.heap.length,
          Reader := ops.Init w.rm.params r }).map (fun e => e.1)).Nodup := by
      unfold mapStore
      rw [List.map_append, List.nodup_append]
      refine ⟨hk.sublist (List.Sublist.map _ (List.filter_sublist _)), by simp, ?_⟩
      intro a ha hb
      simp only [List.map_cons, List.map_nil, List.mem_singleton] at hb
      obtain ⟨e, he, rfl⟩ := List.mem_map.1 ha
      exact ((mem_mapDelete m sc.ID e).1 he).2 hb
    have hid1 : ∀ e ∈ mapStore m sc.ID
        { ID := sc.ID, ChannelID := sc.ChannelID, scheduler := w.heap.length,
          Reader := ops.Init w.rm.params r }, e.2.ID = e.1 := by
      intro e he
      rcases (mem_mapStore _ _ _ _).1 he with ⟨he, -⟩ | rfl
      · exact hid e he
      · rfl
    obtain ⟨w1, m1, h1, h2, h3, h4, h5⟩ :=
      ih { w with rm := { w.rm with configs := some (mapStore m sc.ID
                            { ID := sc.ID, ChannelID := sc.ChannelID, scheduler := w.heap.length,
                              Reader := ops.Init w.rm.params r }) },
                  heap := w.heap ++ [{ ticker := none,
                                       interval := ops.Interval (ops.Init w.rm.params r) }],
                  trace := w.trace ++ [.mapStore sc.ID w.heap.length] }
        _ rfl (fun x hx => hr x (List.mem_cons_of_mem _ hx)) hk1 hid1
    refine ⟨w1, m1, ?_, h2, h3, h4, ?_⟩
    · simp only [List.map_cons, loadLines]
      rw [hrd]
      simp only
      rw [hc]
      exact h1
    · intro id
      rw [h5 id, lastLine_cons]
      cases hl : lastLine lines id with
      | some x => rfl
      | none =>
        simp only
        by_cases hx : sc.ID = id
        · rw [if_pos hx]
          subst hx
          rw [mapGet_mapStore_self]
          simp [hrd]
        · rw [if_neg hx]
          rw [mapGet_mapStore_ne _ _ _ _ (Ne.symm hx)]

/-- C20 (amended): for a store whose lines all decode to an entry with a reader
(and readers that `json.Marshal` accepts), `LoadAll` returns and the `SaveAll` that
follows writes one line for every id of the store and no other: the line has the channel
id of the last line of the store with that id, and the reader of that line as `Init`
leaves it. For a csv reader `Init` leaves the exported fields as they are, except that an
interval that is zero or negative becomes 60. -/
theorem LoadAll_SaveAll {R : Type} (ops : ReaderOps R) (w : World R)
    (lines : List (StoredConfig R))
    (hr : ∀ sc ∈ lines, ∃ r, sc.Reader = some r)
    (hM : ∀ r, ∃ r1, ops.Marshal r = some r1) :
    (∃ w1 saved, LoadAll ops w (.file (lines.map some)) = .ok (w1, none)
      ∧ (SaveAll ops w1 .none).2 = (some saved, none)
      ∧ (saved.map (fun l => l.ID)).Nodup
      ∧ (∀ id, (∃ l ∈ saved, l.ID = id) ↔ (∃ sc ∈ lines, sc.ID = id))
      ∧ (∀ l ∈ saved, ∃ sc r, lastLine lines l.ID = some sc ∧ sc.Reader = some r
          ∧ l.ChannelID = sc.ChannelID ∧ l.Reader = ops.Marshal (ops.Init w.rm.params r)))
    ∧ (∀ (r : csv.csvReader) (params : List (String × String)),
        csv.Marshal (csv.Init r params)
          = some { r with Interval64 := (if r.Interval64 ≤ 0 then 60 else r.Interval64),
                          columns := [] }) := by
  constructor
  · obtain ⟨w1, m1, h1, h2, h3, h4, h5⟩ :=
      loadLines_spec ops lines
        { w with rm := { w.rm with configs := some [] }, trace := w.trace ++ [.mapNew] }
        [] rfl hr List.nodup_nil (by simp)
    simp only at h5
    have hsaved : savedLines ops m1 = m1.map (fun e =>
        { ID := e.2.ID, ChannelID := e.2.ChannelID, Reader := ops.Marshal e.2.Reader }) := by
      unfold savedLines
      clear h3 h4 h5 h2
      induction m1 with
      | nil => rfl
      | cons e m1 ih =>
        obtain ⟨r1, hr1⟩ := hM e.2.Reader
        simp only [List.filterMap_cons, List.map_cons, hr1, Option.map_some', ih]
    have hmem : ∀ e ∈ m1, ∃ sc r, lastLine lines e.1 = some sc ∧ sc.Reader = some r
        ∧ e.2.ID = sc.ID ∧ e.2.ChannelID = sc.ChannelID
        ∧ e.2.Reader = ops.Init w.rm.params r := by
      intro e he
      have hg := mapGet_of_mem m1 e h3 he
      have h6 := h5 e.1
      rw [hg] at h6
      cases hl : lastLine lines e.1 with
      | none =>
        rw [hl] at h6
        simp [mapGet] at h6
      | some sc =>
        rw [hl] at h6
        simp only [Option.map_some'] at h6
        obtain ⟨r, hrd⟩ := hr sc (lastLine_some lines e.1 sc hl).1
        rw [hrd] at h6
        simp only [Option.map_some', Option.some.injEq, Prod.mk.injEq] at h6
        exact ⟨sc, r, rfl, hrd, h6.1, h6.2.1, h6.2.2⟩
    refine ⟨w1, savedLines ops m1, ?_, ?_, ?_, ?_, ?_⟩
    · unfold LoadAll
      simp only
      rw [h1]
    · unfold SaveAll
      simp only [h2, Option.getD_some]
    · rw [hsaved, List.map_map]
      have : ((fun l : StoredConfig R => l.ID) ∘ fun e : String × config R =>
          ({ ID := e.2.ID, ChannelID := e.2.ChannelID, Reader := ops.Marshal e.2.Reader }
            : StoredConfig R)) = fun e => e.2.ID := rfl
      rw [this]
      have h7 : m1.map (fun e => e.2.ID) = m1.map (fun e => e.1) :=
        List.map_congr_left (fun e he => h4 e he)
      rw [h7]
      exact h3
    · intro id
      rw [hsaved]
      constructor
      · rintro ⟨l, hl, rfl⟩
        obtain ⟨e, he, rfl⟩ := List.mem_map.1 hl
        obtain ⟨sc, r, k1, -, k3, -, -⟩ := hmem e he
        exact ⟨sc, (lastLine_some lines e.1 sc k1).1, k3.symm⟩
      · rintro ⟨sc, hsc, rfl⟩
        cases hl : lastLine lines sc.ID with
        | none => exact absurd rfl (lastLine_none lines sc.ID hl sc hsc)
        | some sc1 =>
          have h6 := h5 sc.ID
          rw [hl] at h6
          obtain ⟨r, hrd⟩ := hr sc1 (lastLine_some lines sc.ID sc1 hl).1
          simp only [hrd] at h6
          cases hg : mapGet m1 sc.ID with
          | none => simp [hg] at h6
          | some cfg =>
            have he := mapGet_mem m1 sc.ID cfg hg
            refine ⟨_, List.mem_map.2 ⟨_, he, rfl⟩, ?_⟩
            exact h4 _ he
    · intro l hl
      rw [hsaved] at hl
      obtain ⟨e, he, rfl⟩ := List.mem_map.1 hl
      obtain ⟨sc, r, k1, k2, k3, k4, k5⟩ := hmem e he
      refine ⟨sc, r, ?_, k2, k4, ?_⟩
      · simp only
        rw [h4 e he]
        exact k1
      · simp only
        rw [k5]
  · intro r params
    unfold csv.Marshal csv.Init csv.interval
    by_cases hc : r.ColsStr.length > 0 <;> by_cases hi : r.Interval64 ≤ 0 <;> simp [hc, hi]

end dbreader

namespace dbreader

/-- Witness of C20: the store of three lines, two of them for `t1`. -/
theorem LoadAll_SaveAll_witness :
    (∀ sc ∈ threeLines, ∃ r, sc.Reader = some r)
    ∧ ∃ w1 saved, LoadAll exampleOps emptyWorld (.file (threeLines.map some)) = .ok (w1, none)
        ∧ (SaveAll exampleOps w1 .none).2 = (some saved, none)
        ∧ (saved.map (fun l => l.ID)).Nodup
        ∧ (∀ id, (∃ l ∈ saved, l.ID = id) ↔ (∃ sc ∈ threeLines, sc.ID = id)) := by
  have hr : ∀ sc ∈ threeLines, ∃ r, sc.Reader = some r := by
    intro sc hsc
    simp only [threeLines, List.mem_cons, List.mem_singleton, List.not_mem_nil, or_false] at hsc
    rcases hsc with rfl | rfl | rfl <;> exact ⟨_, rfl⟩
  obtain ⟨⟨w1, saved, h1, h2, h3, h4, -⟩, -⟩ :=
    LoadAll_SaveAll exampleOps emptyWorld threeLines hr (fun r => ⟨_, rfl⟩)
  exact ⟨hr, w1, saved, h1, h2, h3, h4⟩

/-- Counterexample to C20 as stated: the store has one line, for `t1`, whose reader has no
interval. `LoadAll` then `SaveAll` writes a line for `t1` whose reader has the interval 60:
the reader fields of the store are not the same. -/
theorem LoadAll_SaveAll_rewrites_interval :
    ∃ w1 saved r0 r1,
      LoadAll exampleOps emptyWorld (.file [some lineNoInterval]) = .ok (w1, none)
      ∧ (SaveAll exampleOps w1 .none).2 = (some [saved], none)
      ∧ saved.ID = lineNoInterval.ID
      ∧ lineNoInterval.Reader = some r0 ∧ saved.Reader = some r1
      ∧ r0.Interval64 = 0 ∧ r1.Interval64 = 60 ∧ r1 ≠ r0 :=
  ⟨_, _, _, _, rfl, rfl, rfl, rfl, rfl, rfl, rfl, by decide⟩

/-- Witness of C15: the thing `t2` is created twice on the example registry. -/
theorem CreateThing_twice_witness :
    ∃ w1 file1, CreateThing exampleOps exampleWorld "t2" "ch2" "b.csv" .none = .ok (w1, file1, none)
      ∧ ∃ w2 file2, CreateThing exampleOps w1 "t2" "ch2" "b.csv" .none = .ok (w2, file2, none)
        ∧ (∀ id1, entryView w2 id1 = entryView w1 id1)
        ∧ scheduledOnce w1 "t2" ∧ scheduledOnce w2 "t2"
        ∧ (tasksOf w2 "t2").length = (tasksOf w1 "t2").length :=
  ⟨_, _, rfl, CreateThing_twice exampleOps exampleWorld _ "t2" "ch2" "b.csv" .none .none _
    (by
      intro t ht
      simp only [exampleWorld, List.mem_singleton] at ht
      subst ht
      decide) rfl⟩

/-- Witness of C16: the thing `t1` is created and scheduled twice on the empty registry. -/
theorem second_Create_leaves_one_task_witness :
    ∃ wa wb wc wd,
      Create exampleOps emptyWorld "t1" "ch1" "a.csv" = .ok (wa, "t1", none)
      ∧ Schedule wa "t1" = .ok wb
      ∧ Create exampleOps wb "t1" "ch2" "b.csv" = .ok (wc, "t1", none)
      ∧ Schedule wc "t1" = .ok wd
      ∧ (tasksOf wd "t1").length = 1 := by
  obtain ⟨wa, wb, wc, wd, h1, h2, h3, h4, -, -, h7, -⟩ :=
    second_Create_leaves_one_task exampleOps emptyWorld "t1" "ch1" "a.csv" "ch2" "b.csv" []
      { FileName := "a.csv", ColsStr := "", columns := [], Interval64 := 0, DBType := "",
        HeadPos := 0 }
      { FileName := "b.csv", ColsStr := "", columns := [], Interval64 := 0, DBType := "",
        HeadPos := 0 }
      rfl rfl (by simp [emptyWorld]) rfl rfl (by decide) (by decide)
  exact ⟨wa, wb, wc, wd, h1, h2, h3, h4, h7⟩

end dbreader

/-! ### Rule requests -/

namespace rules

/-- C22 (amended): `ruleReq.validate` looks at the token only. It returns
`ErrUnauthorizedAccess` for a request with an empty token and no error for every other
request, whatever the name and the rule hold; it never returns `ErrMalformedEntity`. -/
theorem validate_checks_token_only (req : ruleReq) :
    req.validate = (if req.token = "" then some .ErrUnauthorizedAccess else none)
    ∧ req.validate ≠ some .ErrMalformedEntity
    ∧ (req.validate = none ↔ req.token ≠ "") := by
  refine ⟨rfl, ?_, ?_⟩
  · unfold ruleReq.validate
    by_cases h : req.token = "" <;> simp [h]
  · unfold ruleReq.validate
    by_cases h : req.token = "" <;> simp [h]

/-- Counterexample to C22 as stated: a rule request with a token whose rule has an empty
id, empty SQL and an action with an empty host and an empty channel passes validation. -/
theorem validate_accepts_empty_rule :
    ruleReq.validate
      { token := "token", name := "",
        Rule := { ID := "", SQL := "",
                  Actions := [{ Host := "", Port := "", Channel := "", Subtopic := "" }],
                  SendMetaToSink := false } } = none
    ∧ ruleReq.validate
      { token := "token", name := "",
        Rule := { ID := "", SQL := "",
                  Actions := [{ Host := "", Port := "", Channel := "", Subtopic := "" }],
                  SendMetaToSink := false } } ≠ some .ErrMalformedEntity :=
  ⟨rfl, by decide⟩

end rules

/-! ### The scheduler -/

namespace dbreader

theorem removeTask_none {R : Type} (s : Nat) (ts : List (Nat × config R))
    (h : ∀ x ∈ ts, x.1 ≠ s) : removeTask s ts = none := by
  induction ts with
  | nil => rfl
  | cons t ts ih =>
    have ht : t.1 ≠ s := h t (List.mem_cons_self _ _)
    have hi := ih (fun x hx => h x (List.mem_cons_of_mem _ hx))
    simp [removeTask, ht, hi]

theorem loadLines_tasks {R : Type} (ops : ReaderOps R) (lines : List (StoreLine R))
    (w w1 : World R) (hl : loadLines ops lines w = .ok w1) : w1.tasks = w.tasks := by
  induction lines generalizing w with
  | nil =>
    simp only [loadLines, Res.ok.injEq] at hl
    rw [← hl]
  | cons line lines ih =>
    cases line with
    | none =>
      simp only [loadLines] at hl
      exact ih w hl
    | some sc =>
      simp only [loadLines] at hl
      cases hr : sc.Reader with
      | none => simp [hr] at hl
      | some r =>
        rw [hr] at hl
        simp only at hl
        cases hc : w.rm.configs with
        | none => simp [hc] at hl
        | some m =>
          rw [hc] at hl
          simp only at hl
          have h2 := ih _ hl
          exact h2

theorem tickersRun_of_no_task {R : Type} (w : World R) (h : Inv w) (ht : w.tasks = []) :
    tickersRun w := by
  intro e he sch t hs htk
  have := (h.ticking e he sch hs).1 (by rw [htk]; simp)
  rw [ht] at this
  simp at this

theorem tickersRun_schedule {R : Type} (w w3 : World R) (id : String) (h : Inv w)
    (hr : tickersRun w) (hs : Schedule w id = .ok w3) : tickersRun w3 := by
  obtain ⟨m, cfg, w2, hc, hg, hst, rfl⟩ := Schedule_inv _ _ _ hs
  obtain ⟨w1, sch, hstop, hsch, -, rfl⟩ := start_inv _ _ _ hst
  have h1 : InvOn m w.heap w.tasks := by
    have := h
    unfold Inv at this
    rwa [hc] at this
  have he : (id, cfg) ∈ m := mapGet_mem m id cfg hg
  obtain ⟨k1, -, k3, -, -⟩ := stop_facts w w1 m (id, cfg) h1 he hstop
  simp only at k3
  have hlt : cfg.scheduler < w1.heap.length := (List.getElem?_eq_some_iff.1 hsch).1
  intro e1 he1 sch1 t1 hs1 ht1
  simp only [k1] at he1
  simp only at hs1
  by_cases heq : e1.2.scheduler = cfg.scheduler
  · rw [heq, List.getElem?_set_self hlt] at hs1
    simp only [Option.some.injEq] at hs1
    subst hs1
    simp only [Option.some.injEq] at ht1
    rw [← ht1]
  · rw [List.getElem?_set_ne (Ne.symm heq), k3 _ heq] at hs1
    exact hr e1 he1 sch1 t1 hs1 ht1

theorem tickersRun_startEach {R : Type} (ids : List String) (w w1 : World R) (h : Inv w)
    (hr : tickersRun w) (hs : startEach ids w = .ok w1) : tickersRun w1 := by
  induction ids generalizing w with
  | nil =>
    simp only [startEach, Res.ok.injEq] at hs
    rw [← hs]
    exact hr
  | cons id ids ih =>
    unfold startEach at hs
    cases hsc : Schedule w id with
    | fault => simp [hsc] at hs
    | blocked => simp [hsc] at hs
    | ok w2 =>
      rw [hsc] at hs
      simp only at hs
      have h2 : Inv w2 := Inv_startEach [id] w w2 h (by simp [startEach, hsc])
      exact ih w2 h2 (tickersRun_schedule w w2 id h hr hsc) hs

/-- What `stop` on the scheduler of an entry leaves of the tickers of the other entries of
a state that has the invariant. -/
theorem tickersRun_stop {R : Type} (w w0 : World R) (m : List (String × config R))
    (id : String) (old : config R) (h : InvOn m w.heap w.tasks) (hr : tickersRun w)
    (hc : w.rm.configs = some m) (hg : mapGet m id = some old)
    (hst : scheduler.stop w old.scheduler = .ok w0) :
    ∀ e ∈ mapDelete m id, e.2.scheduler < w0.heap.length
      ∧ ∀ sch t, w0.heap[e.2.scheduler]? = some sch → sch.ticker = some t →
          t.stopped = false := by
  have hmem := mapGet_mem m id old hg
  obtain ⟨-, k2, k3, -, -⟩ := stop_facts w w0 m (id, old) h hmem hst
  simp only at k3
  intro e he
  obtain ⟨hm1, hk1⟩ := (mem_mapDelete m id e).1 he
  have hne : e.2.scheduler ≠ old.scheduler := by
    intro heq
    have := List.inj_on_of_nodup_map h.scheds hm1 hmem heq
    rw [this] at hk1
    exact hk1 rfl
  refine ⟨by rw [k2]; exact (h.entry e hm1).2, ?_⟩
  intro sch t hs ht
  rw [k3 _ hne] at hs
  exact hr e (by rw [hc]; exact hm1) sch t hs ht

/-- In every state that calls of the registry lead to from a new manager, `LoadAll` being
called only while no polling task is alive, no entry has a scheduler whose ticker has been
stopped. -/
theorem tickersRun_of_reachable {R : Type} (ops : ReaderOps R) (w : World R)
    (h : Reachable ops true w) : tickersRun w := by
  induction h with
  | fresh cfgFile readerType =>
    intro e he
    simp [newWorld, NewReaderManager] at he
  | setParams w params _ ih => exact ih
  | loadAll w w1 disk err hre hg hl ih =>
    have hinv1 : Inv w1 := Inv_of_reachable ops w1 (.loadAll w w1 disk err hre hg hl)
    have ht : w.tasks = [] := hg rfl
    unfold LoadAll at hl
    cases disk with
    | missing cause =>
      simp only [Res.ok.injEq, Prod.mk.injEq] at hl
      rw [← hl.1]
      exact ih
    | unreadable cause =>
      simp only [Res.ok.injEq, Prod.mk.injEq] at hl
      rw [← hl.1]
      exact ih
    | file lines =>
      simp only at hl
      cases hll : loadLines ops lines { w with rm := { w.rm with configs := some [] },
                                               trace := w.trace ++ [.mapNew] } with
      | fault => simp [hll] at hl
      | blocked => simp [hll] at hl
      | ok w2 =>
        rw [hll] at hl
        simp only [Res.ok.injEq, Prod.mk.injEq] at hl
        have ht2 : w2.tasks = [] := by
          rw [loadLines_tasks ops lines _ w2 hll]
          exact ht
        rw [← hl.1] at hinv1 ⊢
        exact tickersRun_of_no_task w2 hinv1 ht2
  | create w w1 id channelID readerData rid err hre hcr ih =>
    have hinv := Inv_of_reachable ops w hre
    rcases Create_inv ops w w1 id channelID readerData rid err hcr with
      ⟨err1, -, h2, -, -⟩ | ⟨r0, w2, m2, -, -, -, hc2, hclear, hw1⟩
    · rw [h2]
      exact ih
    · have key : ∀ e ∈ m2, e.2.scheduler < w2.heap.length
          ∧ ∀ sch t, w2.heap[e.2.scheduler]? = some sch → sch.ticker = some t →
              t.stopped = false := by
        rcases hclear with ⟨-, rfl⟩ | ⟨old, w0, hb, hst, rfl⟩
        · have h1 : InvOn m2 w2.heap w2.tasks := by
            have := hinv
            unfold Inv at this
            rwa [hc2] at this
          intro e he
          exact ⟨(h1.entry e he).2, fun sch t hs ht => ih e (by rw [hc2]; exact he) sch t hs ht⟩
        · cases hc : w.rm.configs with
          | none => simp [hc] at hb
          | some m =>
            rw [hc] at hb
            simp only [Option.some_bind] at hb
            have h1 : InvOn m w.heap w.tasks := by
              have := hinv
              unfold Inv at this
              rwa [hc] at this
            have hrm : w0.rm = w.rm := (stop_ok w w0 old.scheduler hst).1
            simp only [hrm, hc, Option.map_some', Option.some.injEq] at hc2
            subst hc2
            exact tickersRun_stop w w0 m id old h1 ih hc hb hst
      rw [hw1]
      intro e he sch t hs ht
      simp only [Option.getD_some] at he
      simp only at hs
      rcases (mem_mapStore m2 id _ e).1 he with ⟨hm, -⟩ | rfl
      · rw [List.getElem?_append_left (key e hm).1] at hs
        exact (key e hm).2 sch t hs ht
      · simp only [List.getElem?_concat_length, Option.some.injEq] at hs
        subst hs
        simp at ht
  | delete w w1 id err hre hd ih =>
    have hinv := Inv_of_reachable ops w hre
    rcases Delete_inv w w1 id err hd with ⟨-, h2, -⟩ | ⟨cfg, w0, hb, hst, -, rfl⟩
    · rw [h2]
      exact ih
    · cases hc : w.rm.configs with
      | none => simp [hc] at hb
      | some m =>
        rw [hc] at hb
        simp only [Option.some_bind] at hb
        have h1 : InvOn m w.heap w.tasks := by
          have := hinv
          unfold Inv at this
          rwa [hc] at this
        have hrm : w0.rm = w.rm := (stop_ok w w0 cfg.scheduler hst).1
        intro e he sch t hs ht
        simp only [hrm, hc, Option.map_some', Option.getD_some] at he
        simp only at hs
        exact (tickersRun_stop w w0 m id cfg h1 ih hc hb hst e he).2 sch t hs ht
  | schedule w w1 id hre hs ih =>
    exact tickersRun_schedule w w1 id (Inv_of_reachable ops w hre) ih hs
  | startAll w w1 hre hs ih =>
    exact tickersRun_startEach _ w w1 (Inv_of_reachable ops w hre) ih hs

/-- C23 (amended): `stop` on a scheduler that was never started changes nothing and sends
nothing. `stop` on a scheduler with a ticker and a polling task stops the ticker and sends
once on `done`, which the task receives; the ticker stays set, so with no task left a
further `stop` would send again and block. In every state that calls of the registry lead
to from a new manager (`LoadAll` only while no polling task is alive) the scheduler of
every entry was never started, or has a ticker that is running and exactly one polling
task, and `stop` on it returns. -/
theorem stop_once {R : Type} (ops : ReaderOps R) (w : World R) (s : Nat) (sch : scheduler) :
    (w.heap[s]? = some sch → sch.ticker = none →
        scheduler.stop w s = .ok { w with trace := w.trace ++ [.stop s] })
    ∧ (∀ t ts1, w.heap[s]? = some sch → sch.ticker = some t →
        removeTask s w.tasks = some ts1 →
        ∃ w1, scheduler.stop w s = .ok w1
          ∧ w1 = { w with heap := w.heap.set s
                              { sch with ticker := some { t with stopped := true } },
                          tasks := ts1,
                          trace := w.trace ++ [.stop s, .tickerStop s, .doneSend s] }
          ∧ w1.heap[s]? = some { sch with ticker := some { t with stopped := true } }
          ∧ ((∀ x ∈ ts1, x.1 ≠ s) → scheduler.stop w1 s = .blocked))
    ∧ (Reachable ops true w → ∀ m id cfg, w.rm.configs = some m → mapGet m id = some cfg →
        ∃ sch1 w1, w.heap[cfg.scheduler]? = some sch1
          ∧ scheduler.stop w cfg.scheduler = .ok w1
          ∧ (sch1.ticker = none
            ∨ ∃ t ts1, sch1.ticker = some t ∧ t.stopped = false
                ∧ removeTask cfg.scheduler w.tasks = some ts1
                ∧ ∀ x ∈ ts1, x.1 ≠ cfg.scheduler)) := by
  refine ⟨fun hs ht => stop_none w s sch hs ht, ?_, ?_⟩
  · intro t ts1 hs ht hr
    have hlt : s < w.heap.length := (List.getElem?_eq_some_iff.1 hs).1
    refine ⟨_, stop_some w s sch t ts1 hs ht hr, rfl, ?_, ?_⟩
    · simp only
      rw [List.getElem?_set_self hlt]
    · intro hno
      unfold scheduler.stop
      simp only
      rw [List.getElem?_set_self hlt]
      simp only
      rw [removeTask_none s ts1 hno]
  · intro hre m id cfg hc hg
    have hinv := Inv_of_reachable ops w hre
    have hrun := tickersRun_of_reachable ops w hre
    unfold Inv at hinv
    rw [hc] at hinv
    have he : (id, cfg) ∈ m := mapGet_mem m id cfg hg
    have hlt : cfg.scheduler < w.heap.length := (hinv.entry _ he).2
    obtain ⟨sch1, hs1⟩ : ∃ sch1, w.heap[cfg.scheduler]? = some sch1 :=
      ⟨_, List.getElem?_eq_getElem hlt⟩
    cases htk : sch1.ticker with
    | none => exact ⟨sch1, _, hs1, stop_none w cfg.scheduler sch1 hs1 htk, Or.inl htk⟩
    | some t =>
      have hex := (hinv.ticking _ he sch1 hs1).1 (by rw [htk]; simp)
      obtain ⟨ts1, hrm⟩ := removeTask_of_mem cfg.scheduler w.tasks hex
      have hst := stop_some w cfg.scheduler sch1 t ts1 hs1 htk hrm
      obtain ⟨-, -, -, k4, -⟩ := stop_facts w _ m (id, cfg) hinv he hst
      refine ⟨sch1, _, hs1, hst, Or.inr ⟨t, ts1, htk, ?_, hrm, ?_⟩⟩
      · exact hrun (id, cfg) (by rw [hc]; exact he) sch1 t hs1 htk
      · intro x hx
        exact ((k4 x).1 hx).2

/-- Counterexample to C23 as stated: a new manager loads the one-line store and starts its
entry. `stop` on the scheduler of the entry returns and ends the polling task; the
scheduler keeps its stopped ticker, and `stop` on it once more sends on `done` again and
blocks, no task being left to receive. -/
theorem stop_after_stop_blocks :
    ∃ w w1 : World csv.csvReader, Reachable exampleOps true w
      ∧ scheduler.stop w 0 = .ok w1 ∧ w1.tasks = []
      ∧ (w1.heap[0]?).map (fun x => x.ticker.map (fun t => t.stopped)) = some (some true)
      ∧ scheduler.stop w1 0 = .blocked := by
  have r0 : Reachable exampleOps true (newWorld "readers.cfg" "csv") := .fresh _ _
  have r1 := Reachable.loadAll _ _ storeT1 none r0 (fun _ => rfl) rfl
  have r2 := Reachable.startAll _ _ r1 rfl
  exact ⟨_, _, r2, rfl, rfl, rfl, rfl⟩

theorem truncInt64_floor (x : Rat) (h0 : 0 ≤ x) (h1 : ⌊x⌋ < 2 ^ 63) :
    Go.truncInt64 x = ⌊x⌋ := by
  have hn : 0 ≤ x.num := Rat.num_nonneg.2 h0
  have hd : (0 : Int) ≤ (x.den : Int) := Int.ofNat_nonneg _
  have ht : Int.tdiv x.num x.den = ⌊x⌋ := by
    rw [Int.tdiv_eq_ediv hn hd, Rat.floor_def]
  have hf : 0 ≤ ⌊x⌋ := Int.floor_nonneg.2 h0
  unfold Go.truncInt64
  simp only [ht]
  rw [if_pos]
  constructor
  · have : (-(2 ^ 63) : Int) ≤ 0 := by norm_num
    exact le_trans this hf
  · exact h1

/-- C24, evaluated on the code: the period `start` gives the ticker is the whole number of
seconds below the interval, `time.Second * time.Duration(interval)`, not the interval. For
an interval between 0 and 1 second it is 0, and `start` faults in `time.NewTicker`; for
an interval of a second and a half it is one second. -/
theorem tickerPeriod_truncates (x : Rat) :
    (0 ≤ x → Go.Second * ⌊x⌋ < 2 ^ 63 → tickerPeriod x = Go.Second * ⌊x⌋)
    ∧ (0 < x → x < 1 →
        tickerPeriod x = 0
        ∧ ∀ (R : Type) (w w1 : World R) (s : Nat) (sch : scheduler),
            scheduler.stop w s = .ok w1 → w1.heap[s]? = some sch → sch.interval = x →
            scheduler.start w s = .fault)
    ∧ tickerPeriod (1 / 2) = 0
    ∧ tickerPeriod (3 / 2) = 1000000000 := by
  have main : ∀ y : Rat, 0 ≤ y → Go.Second * ⌊y⌋ < 2 ^ 63 →
      tickerPeriod y = Go.Second * ⌊y⌋ := by
    intro y h0 h1
    have hf : 0 ≤ ⌊y⌋ := Int.floor_nonneg.2 h0
    have hlt : ⌊y⌋ < 2 ^ 63 := by
      unfold Go.Second at h1
      omega
    unfold tickerPeriod
    rw [truncInt64_floor y h0 hlt]
    unfold Go.wrapInt64
    have hnn : 0 ≤ Go.Second * ⌊y⌋ := by
      unfold Go.Second
      omega
    omega
  have small : ∀ y : Rat, 0 < y → y < 1 → tickerPeriod y = 0 := by
    intro y h0 h1
    have hfl : ⌊y⌋ = 0 := Int.floor_eq_zero_iff.2 ⟨le_of_lt h0, h1⟩
    rw [main y (le_of_lt h0) (by rw [hfl]; norm_num), hfl]
    rfl
  refine ⟨main x, ?_, small _ (by norm_num) (by norm_num), ?_⟩
  · intro h0 h1
    refine ⟨small x h0 h1, ?_⟩
    intro R w w1 s sch hst hs hi
    unfold scheduler.start
    rw [hst]
    simp only
    rw [hs]
    simp only
    rw [hi, small x h0 h1]
    rfl
  · have hfl : ⌊(3 / 2 : Rat)⌋ = 1 := by
      rw [Int.floor_eq_iff]
      constructor <;> norm_num
    rw [main _ (by norm_num) (by rw [hfl]; unfold Go.Second; norm_num), hfl]
    rfl

/-- C29, evaluated on the code: on the manager `NewReaderManager` builds the map is nil.
`LoadAll` that finds no file returns an error and leaves it nil. `Create` then never
installs an entry: for a payload that decodes to a reader it faults on the assignment to
an entry of the nil map. -/
theorem Create_on_new_manager_faults {R : Type} (ops : ReaderOps R)
    (cfgFile readerType id channelID readerData cause : String) :
    LoadAll ops (newWorld cfgFile readerType) (.missing cause)
      = .ok (newWorld cfgFile readerType, some { wrapper := errFileNotFound, cause := cause })
    ∧ (∀ r0, ops.Unmarshal readerData ops.readerFactory = .ok (some r0) →
        Create ops (newWorld cfgFile readerType) id channelID readerData = .fault)
    ∧ (∀ w1 rid, Create ops (newWorld cfgFile readerType) id channelID readerData
        ≠ .ok (w1, rid, none))
    ∧ Create exampleOps (newWorld "readers.cfg" "csv") "t1" "ch1" "a.csv" = .fault := by
  refine ⟨rfl, ?_, ?_, rfl⟩
  · intro r0 hu
    unfold Create
    rw [hu]
    rfl
  · intro w1 rid h
    rcases Create_inv ops _ w1 id channelID readerData rid none h with
      ⟨err, -, -, -, h4⟩ | ⟨r0, w2, m2, -, -, -, hc2, hclear, -⟩
    · cases h4
    · rcases hclear with ⟨-, rfl⟩ | ⟨old, w0, hb, -, -⟩
      · cases hc2
      · cases hb

end dbreader

/-! ### A failing read -/

namespace csv

open reader

theorem readRows_headPos (headers : List (Nat × String)) (lines : List Go.CsvLine) :
    ∀ (fpr : Nat) (headPos : Int) (out : List Row),
      (readRows headers fpr lines headPos out).1 + out.length
        = headPos + (readRows headers fpr lines headPos out).2.1.length := by
  induction lines with
  | nil =>
    intro fpr headPos out
    simp [readRows]
  | cons line lines ih =>
    intro fpr headPos out
    unfold readRows
    cases hrec : Go.csvRecord fpr line with
    | error e => simp only
    | ok res =>
      obtain ⟨record, fpr1⟩ := res
      simp only
      have := ih fpr1 (headPos + 1) (out ++ [mkRow headers (headPos + 1) record])
      simp only [List.length_append, List.length_singleton, Nat.cast_add, Nat.cast_one] at this
      omega

/-- C25, evaluated on the code: whether `Read` fails or not, it leaves `HeadPos` advanced
by the number of rows it parsed, the rest of the reader being as it was, and the polling
task publishes nothing when `Read` returns an error while it keeps the reader with the
advanced `HeadPos`. So the rows parsed before a failing record are lost: on the file that
holds the row `1,2,3` and then a record of two fields, `Read` from position 0 returns the
first row with the error and leaves `HeadPos` at 1, the tick publishes nothing, and once
the record has been completed the next `Read` returns the second row only. -/
theorem Read_advances_HeadPos (r : csvReader) (file : Option (List Go.CsvLine)) :
    (Read r file).1 = { r with HeadPos := r.HeadPos + ((Read r file).2.1.length : Int) }
    ∧ (∀ e, (Read r file).2.2 = some e →
        ∀ (readerType : String) (cfg : dbreader.config csvReader), cfg.Reader = r →
          dbreader.tick (fun x => Read x file) readerType cfg
            = ({ cfg with Reader := (Read r file).1 }, none))
    ∧ (∃ r1 r2 row1 row2 e,
        Read exampleReader shortRecordFile = (r1, [row1], some e)
        ∧ exampleReader.HeadPos = 0 ∧ r1.HeadPos = 1
        ∧ dbreader.tick (fun x => Read x shortRecordFile) "csv"
            { ID := "t1", ChannelID := "ch1", scheduler := 0, Reader := exampleReader }
          = ({ ID := "t1", ChannelID := "ch1", scheduler := 0, Reader := r1 }, none)
        ∧ Read r1 completedFile = (r2, [row2], none)
        ∧ row1.get MFX_ID = some (.int 1) ∧ row2.get MFX_ID = some (.int 2)) := by
  refine ⟨?_, ?_, ⟨_, _, _, _, _, rfl, rfl, rfl, rfl, rfl, rfl, rfl⟩⟩
  · have hsame : ({ r with HeadPos := r.HeadPos + ((([] : List Row).length : Nat) : Int) }
        : csvReader) = r := by
      cases r
      simp
    unfold Read
    cases file with
    | none => exact hsame.symm
    | some lines0 =>
      cases lines0 with
      | nil => exact hsame.symm
      | cons first lines =>
        simp only
        cases hrec : Go.csvRecord 0 first with
        | error e => exact hsame.symm
        | ok res =>
          obtain ⟨record, fpr⟩ := res
          simp only
          cases hrw : rewindHead r.HeadPos.toNat fpr lines with
          | error e =>
            cases e with
            | EOF => exact hsame.symm
            | parse e => exact hsame.symm
          | ok res1 =>
            obtain ⟨fpr1, lines1⟩ := res1
            simp only
            have := readRows_headPos (setColumns r.columns record) lines1 fpr1 r.HeadPos []
            simp only [List.length_nil, Nat.cast_zero, add_zero] at this
            rw [this]
  · intro e he readerType cfg hcfg
    unfold dbreader.tick
    simp only [hcfg, he]

end csv

/-! ### The payload as a JSON text -/

namespace dbreader

/-- C30, evaluated on the code: `genSenML` pastes the value into the payload as it is. The
payload is a well-formed JSON text for the values `21.5` and `abc`, but not for the text
`a"b` (the quote is not escaped), for `t` and `.5` (which `strconv` accepts as a boolean
and as a number, and JSON does not) or for a date, which is written without quotes; and
`Publish` hands the bus such a payload for a cell that holds `a"b`. -/
theorem genSenML_not_always_JSON :
    Json.Valid (genSenML "1" "21.5") = true
    ∧ Json.Valid (genSenML "1" "abc") = true
    ∧ Json.Valid (genSenML "1" "a\"b") = false
    ∧ Json.Valid (genSenML "1" "t") = false
    ∧ Json.Valid (genSenML "1" ".5") = false
    ∧ Json.Valid (genSenML "1" "2020-01-02T15:04:05Z") = false
    ∧ (Publish exampleFmt okPublisher quoteMessage).1.map (fun c => Json.Valid c.2.Payload)
        = [false] := by
  refine ⟨by decide, by decide, by decide, by decide, by decide, by decide, rfl⟩

end dbreader

/-! ### The event consumer -/

namespace dbreader

theorem stop_entry_returns {R : Type} (w : World R) (m : List (String × config R))
    (e : String × config R) (h : InvOn m w.heap w.tasks) (he : e ∈ m) :
    ∃ w0, scheduler.stop w e.2.scheduler = .ok w0 := by
  have hlt := (h.entry e he).2
  obtain ⟨sch1, hs1⟩ : ∃ sch1, w.heap[e.2.scheduler]? = some sch1 :=
    ⟨_, List.getElem?_eq_getElem hlt⟩
  cases htk : sch1.ticker with
  | none => exact ⟨_, stop_none w _ sch1 hs1 htk⟩
  | some t =>
    obtain ⟨ts1, hrm⟩ := removeTask_of_mem _ w.tasks
      ((h.ticking e he sch1 hs1).1 (by rw [htk]; simp))
    exact ⟨_, stop_some w _ sch1 t ts1 hs1 htk hrm⟩

/-- `CreateThing` returns with no error in a state that has the invariant and a map, for a
reader text that decodes to a reader whose interval gives a positive ticker period: the
`stop` on the scheduler of an old entry returns, and the new scheduler is started. -/
theorem CreateThing_returns {R : Type} (ops : ReaderOps R) (w : World R)
    (id ch md : String) (f : SaveFault) (r0 : R) (m : List (String × config R))
    (hinv : Inv w) (hc : w.rm.configs = some m)
    (hu : ops.Unmarshal md ops.readerFactory = .ok (some r0))
    (hm : ¬ ((Go.bytes md).length ≤ 0 ∨ md = "null"))
    (hp : 0 < tickerPeriod (ops.Interval (ops.Init w.rm.params r0))) :
    ∃ w1 file, CreateThing ops w id ch md f = .ok (w1, file, none) := by
  have h1 : InvOn m w.heap w.tasks := by
    have := hinv
    unfold Inv at this
    rwa [hc] at this
  have fin : ∀ (wc : World R) (m2 : List (String × config R)) (H : List scheduler),
      Create ops w id ch md = .ok (wc, id, none) →
      wc.rm.configs = some (mapStore m2 id
        { ID := id, ChannelID := ch, scheduler := H.length,
          Reader := ops.Init w.rm.params r0 }) →
      wc.heap = H ++ [{ ticker := none, interval := ops.Interval (ops.Init w.rm.params r0) }] →
      ∃ w1 file, CreateThing ops w id ch md f = .ok (w1, file, none) := by
    intro wc m2 H hcc hcfg hheap
    obtain ⟨wd, hsd⟩ : ∃ wd : World R,
        Schedule { wc with trace := wc.trace ++ [.saveAll] } id = .ok wd :=
      ⟨_, Schedule_new { wc with trace := wc.trace ++ [.saveAll] } id _ _
        { ticker := none, interval := ops.Interval (ops.Init w.rm.params r0) }
        hcfg (mapGet_mapStore_self _ _ _) (by simp [hheap]) rfl hp⟩
    refine ⟨wd, (SaveAll ops wc f).2.1, ?_⟩
    unfold CreateThing
    rw [if_neg hm, hcc]
    simp only [SaveAll_world]
    rw [hsd]
  cases hg : mapGet m id with
  | none => exact fin _ m w.heap (Create_fresh ops w id ch md r0 m hu hc hg) rfl rfl
  | some old =>
    obtain ⟨w0, hst⟩ := stop_entry_returns w m (id, old) h1 (mapGet_mem m id old hg)
    exact fin _ (mapDelete m id) w0.heap
      (Create_replace ops w w0 id ch md r0 m old hu hc hg hst) rfl rfl

end dbreader

namespace redis

open dbreader

theorem called_ok {σ : Type} (call : Effect) (res : Res (σ × Option Error)) (st1 : σ)
    (done : List Effect) (e : Option Err) (h : called call res = .ok (st1, done, e)) :
    done = [call] ∧ ∃ e0, res = .ok (st1, e0) ∧ e = e0.map Err.service := by
  unfold called at h
  cases res with
  | fault => simp at h
  | blocked => simp at h
  | ok r =>
    simp only [Res.ok.injEq, Prod.mk.injEq] at h
    obtain ⟨h1, h2, h3⟩ := h
    exact ⟨h2.symm, r.2, by rw [← h1], h3.symm⟩

theorem acked_append (a b : List Effect) : acked (a ++ b) = acked a ++ acked b := by
  induction a with
  | nil => rfl
  | cons x a ih => cases x <;> simp [acked, ih]

theorem get_cons_ne (k : String) (v : Value) (event : Values) (key : String) (h : k ≠ key) :
    get ((k, v) :: event) key = get event key := by
  simp [get, h]

theorem decodeCreateThing_operation {D : Type} (js : JSON D) (v : Value) (vals : Values) :
    decodeCreateThing js (("operation", v) :: vals) = decodeCreateThing js vals := by
  unfold decodeCreateThing read
  rw [get_cons_ne _ _ _ _ (by decide), get_cons_ne _ _ _ _ (by decide)]

/-- What one entry leaves in the log: nothing, a debug line, or one call, which is not a
call of `UpdateThing`; never an acknowledgement. -/
theorem handleEvent_done {σ D : Type} (js : JSON D) (svc : Service σ) (st st1 : σ)
    (event : Values) (done : List Effect) (e : Option Err)
    (h : handleEvent js svc st event = .ok (st1, done, e)) :
    acked done = [] ∧ ∀ a b c, Effect.updateThing a b c ∉ done := by
  unfold handleEvent at h
  split at h
  · rename_i op hop
    split at h
    · split at h
      · simp only [Res.ok.injEq, Prod.mk.injEq] at h
        rw [← h.2.1]
        simp [acked]
      · obtain ⟨hd, -⟩ := called_ok _ _ _ _ _ h
        rw [hd]
        simp [acked]
    · split at h
      · split at h
        · simp only [Res.ok.injEq, Prod.mk.injEq] at h
          rw [← h.2.1]
          simp [acked]
        · obtain ⟨hd, -⟩ := called_ok _ _ _ _ _ h
          rw [hd]
          simp [acked]
      · split at h
        · obtain ⟨hd, -⟩ := called_ok _ _ _ _ _ h
          rw [hd]
          simp [acked]
        · split at h
          · obtain ⟨hd, -⟩ := called_ok _ _ _ _ _ h
            rw [hd]
            simp [acked]
          · simp only [Res.ok.injEq, Prod.mk.injEq] at h
            rw [← h.2.1]
            simp [acked]
  · simp only [Res.ok.injEq, Prod.mk.injEq] at h
    rw [← h.2.1]
    simp [acked]

theorem Handled_acked {σ D : Type} (js : JSON D) (svc : Service σ) (st st1 : σ)
    (msgs : List XMessage) (log : List Effect) (h : Handled js svc st msgs st1 log) :
    acked log = msgs.map (fun m => m.ID) := by
  induction h with
  | nil st => rfl
  | cons st st1 st2 msg msgs done log err he _ _ ih =>
    rw [acked_append, acked_append, (handleEvent_done js svc st st1 _ done err he).1, ih]
    rfl

/-- C21: for a `thing.create` or `thing.update` entry whose metadata (the text `\x7b\x7d`
when the entry has no metadata field) decodes and has a type other than `dbReader`,
`decodeCreateThing` returns `errMetadataType`; the entry leaves the state as it is and
calls no service method, it is acknowledged, and the loop goes on with the next entry. -/
theorem type_mismatch_is_skipped {σ D : Type} (js : JSON D) (svc : Service σ) (st : σ)
    (msg : XMessage) (msgs : List XMessage) (log : List Effect) (md : dbReaderMetadata D)
    (hop : get msg.Values "operation" = some (.str thingCreate)
      ∨ get msg.Values "operation" = some (.str thingUpdate))
    (hdec : js.Unmarshal (read msg.Values "metadata" "\x7b\x7d") = .ok md)
    (hty : md.Typ ≠ "dbReader") :
    decodeCreateThing js msg.Values = .error .errMetadataType
    ∧ (get msg.Values "metadata" = none → read msg.Values "metadata" "\x7b\x7d" = "\x7b\x7d")
    ∧ ∃ done, handleEvent js svc st msg.Values = .ok (st, done, some .errMetadataType)
        ∧ calls done = [] ∧ acked done = []
        ∧ handleMessages js svc (msg :: msgs) st log
            = handleMessages js svc msgs st (log ++ done ++ [.ack msg.ID]) := by
  have hd : decodeCreateThing js msg.Values = .error .errMetadataType := by
    unfold decodeCreateThing
    simp only [hdec, hty, ne_eq, not_false_eq_true, if_true]
  refine ⟨hd, ?_, ?_⟩
  · intro hn
    unfold read
    rw [hn]
  · rcases hop with hop | hop
    · have he : handleEvent js svc st msg.Values = .ok (st, [], some .errMetadataType) := by
        unfold handleEvent
        rw [hop]
        simp only [if_true, hd]
      refine ⟨[], he, rfl, rfl, ?_⟩
      rw [handleMessages, he]
      simp
    · have he : handleEvent js svc st msg.Values
          = .ok (st, [.debug Err.errMetadataType.Error], some .errMetadataType) := by
        unfold handleEvent
        rw [hop]
        have hne : ¬ thingUpdate = thingCreate := by decide
        simp only [hne, if_false, if_true, hd]
      refine ⟨_, he, rfl, rfl, ?_⟩
      rw [handleMessages, he]
      simp

/-- Witness of C21: the `thing.create` entry whose metadata has the type `other`, on the
example registry. -/
theorem type_mismatch_is_skipped_witness :
    decodeCreateThing exampleJSON otherTypeEntry.Values = .error .errMetadataType
    ∧ ∃ done, handleEvent exampleJSON (adapterService exampleOps .none) exampleWorld
          otherTypeEntry.Values = .ok (exampleWorld, done, some .errMetadataType)
        ∧ calls done = [] := by
  obtain ⟨h1, -, done, h2, h3, -⟩ :=
    type_mismatch_is_skipped exampleJSON (adapterService exampleOps .none) exampleWorld
      otherTypeEntry [] [] { Typ := "other", DbReaderData := "x.csv", ChannelID := "ch9" }
      (Or.inl rfl) rfl (by decide)
  exact ⟨h1, done, h2, h3⟩

theorem handleMessages_spec {σ D : Type} (js : JSON D) (svc : Service σ)
    (msgs : List XMessage) :
    ∀ (st st1 : σ) (log0 log : List Effect),
      handleMessages js svc msgs st log0 = .ok (st1, log) →
      ∃ (k : Nat) (st0 : σ) (logp : List Effect), k ≤ msgs.length
        ∧ Handled js svc st (msgs.take k) st0 logp
        ∧ ((k = msgs.length ∧ st1 = st0 ∧ log = log0 ++ logp)
          ∨ (∃ msg done e, msgs[k]? = some msg
              ∧ handleEvent js svc st0 msg.Values = .ok (st1, done, some e)
              ∧ e ≠ .errMetadataType
              ∧ log = log0 ++ logp ++ done
                  ++ [.warn ("Failed to handle event sourcing: " ++ e.Error)])) := by
  induction msgs with
  | nil =>
    intro st st1 log0 log h
    simp only [handleMessages, Res.ok.injEq, Prod.mk.injEq] at h
    exact ⟨0, st, [], le_refl _, Handled.nil st, Or.inl ⟨rfl, h.1.symm, by simp [h.2]⟩⟩
  | cons msg msgs ih =>
    intro st st1 log0 log h
    rw [handleMessages] at h
    cases he : handleEvent js svc st msg.Values with
    | fault => simp [he] at h
    | blocked => simp [he] at h
    | ok res =>
      obtain ⟨st2, done, err⟩ := res
      rw [he] at h
      simp only at h
      have step : ∀ (herr : err = none ∨ err = some .errMetadataType),
          handleMessages js svc msgs st2 (log0 ++ done ++ [.ack msg.ID]) = .ok (st1, log) →
          ∃ (k : Nat) (st0 : σ) (logp : List Effect), k ≤ (msg :: msgs).length
            ∧ Handled js svc st ((msg :: msgs).take k) st0 logp
            ∧ ((k = (msg :: msgs).length ∧ st1 = st0 ∧ log = log0 ++ logp)
              ∨ (∃ m1 done1 e, (msg :: msgs)[k]? = some m1
                  ∧ handleEvent js svc st0 m1.Values = .ok (st1, done1, some e)
                  ∧ e ≠ .errMetadataType
                  ∧ log = log0 ++ logp ++ done1
                      ++ [.warn ("Failed to handle event sourcing: " ++ e.Error)])) := by
        intro herr h1
        obtain ⟨k, st0, logp, hk, hh, hcase⟩ := ih st2 st1 _ log h1
        refine ⟨k + 1, st0, done ++ [Effect.ack msg.ID] ++ logp, by simp; omega,
          by rw [List.take_succ_cons]; exact Handled.cons st st2 st0 msg _ done logp err he herr hh,
          ?_⟩
        rcases hcase with ⟨h2, h3, h4⟩ | ⟨m1, done1, e, h2, h3, h4, h5⟩
        · exact Or.inl ⟨by simp [h2], h3, by simp [h4]⟩
        · exact Or.inr ⟨m1, done1, e, by simpa using h2, h3, h4, by simp [h5]⟩
      cases err with
      | none => exact step (Or.inl rfl) h
      | some e =>
        simp only at h
        by_cases hty : e = .errMetadataType
        · subst hty
          simp only [ne_eq, not_true_eq_false, if_false] at h
          exact step (Or.inr rfl) h
        · simp only [ne_eq, hty, not_false_eq_true, if_true, Res.ok.injEq,
            Prod.mk.injEq] at h
          refine ⟨0, st, [], by simp, Handled.nil st, Or.inr ⟨msg, done, e, by simp, ?_, hty, ?_⟩⟩
          · rw [he, h.1]
          · simp [h.2]

/-- C26: when the loop over a batch returns, the entries acknowledged are those of a
beginning of the batch, each handled with no error or with `errMetadataType`. Either that is
the whole batch, or the next entry failed with another error: it is not acknowledged, a
warning is logged, and nothing is done for the entries after it. -/
theorem acks_stop_at_first_failure {σ D : Type} (js : JSON D) (svc : Service σ)
    (msgs : List XMessage) (st st1 : σ) (log : List Effect)
    (h : handleMessages js svc msgs st [] = .ok (st1, log)) :
    ∃ (k : Nat) (st0 : σ) (logp : List Effect), k ≤ msgs.length
      ∧ Handled js svc st (msgs.take k) st0 logp
      ∧ acked log = (msgs.take k).map (fun m => m.ID)
      ∧ ((k = msgs.length ∧ st1 = st0 ∧ log = logp)
        ∨ (∃ msg done e, msgs[k]? = some msg
            ∧ handleEvent js svc st0 msg.Values = .ok (st1, done, some e)
            ∧ e ≠ .errMetadataType
            ∧ log = logp ++ done
                ++ [.warn ("Failed to handle event sourcing: " ++ e.Error)])) := by
  obtain ⟨k, st0, logp, hk, hh, hcase⟩ := handleMessages_spec js svc msgs st st1 [] log h
  have ha := Handled_acked js svc st st0 _ logp hh
  refine ⟨k, st0, logp, hk, hh, ?_, ?_⟩
  · rcases hcase with ⟨-, -, h4⟩ | ⟨m1, done1, e, -, h3, -, h5⟩
    · rw [h4]
      simpa using ha
    · rw [h5]
      simp only [List.nil_append, acked_append, ha,
        (handleEvent_done js svc st0 st1 _ done1 _ h3).1]
      simp [acked]
  · rcases hcase with ⟨h2, h3, h4⟩ | ⟨m1, done1, e, h2, h3, h4, h5⟩
    · exact Or.inl ⟨h2, h3, by simpa using h4⟩
    · exact Or.inr ⟨m1, done1, e, h2, h3, h4, by simpa using h5⟩

/-- Witness of C26: on the example registry the second removal of `t1` fails; the first
entry is acknowledged and no other. -/
theorem acks_stop_at_first_failure_witness :
    ∃ w1 log, handleMessages exampleJSON (adapterService exampleOps .none) removeTwiceBatch
        exampleWorld [] = .ok (w1, log)
      ∧ acked log = ["1-0"]
      ∧ ∃ k, acked log = (removeTwiceBatch.take k).map (fun m => m.ID) := by
  have h : ∃ w1 log, handleMessages exampleJSON (adapterService exampleOps .none)
      removeTwiceBatch exampleWorld [] = .ok (w1, log) ∧ acked log = ["1-0"] :=
    ⟨_, _, rfl, rfl⟩
  obtain ⟨w1, log, h1, h2⟩ := h
  obtain ⟨k, -, -, -, -, h3, -⟩ :=
    acks_stop_at_first_failure exampleJSON (adapterService exampleOps .none) removeTwiceBatch
      exampleWorld w1 log h1
  exact ⟨w1, log, h1, h2, k, h3⟩

/-- C28: a `thing.update` entry is decoded and handled as the `thing.create` entry with the
same fields. When the metadata decodes to the type `dbReader`, `decodeCreateThing` gives
for both the id of the entry, the channel id of the metadata and the reader text, and both
call `CreateThing` with them; when `decodeCreateThing` fails both end with its error and no
call (the update logs it as a debug line). No entry makes the consumer call `UpdateThing`.
With the adapter as the service, on a registry that calls of the manager lead to and whose
map exists, a `thing.update` whose reader text decodes to a reader with a positive ticker
period returns with no error, as the `thing.create` does, and leaves under the id of the
entry, whether the map held that id or not, the registry entry with that id, the channel
id of the metadata and the decoded reader, scheduled once. -/
theorem update_handled_as_create {σ D R : Type} (js : JSON D) (svc : Service σ) (st : σ)
    (vals : Values) (md : dbReaderMetadata D) (text : String) (ops : ReaderOps R)
    (fault : SaveFault) (w : World R) (m : List (String × config R)) (r0 : R)
    (hmd : js.Unmarshal (read vals "metadata" "\x7b\x7d") = .ok md)
    (hty : md.Typ = "dbReader")
    (hdata : js.Marshal md.DbReaderData = .ok text)
    (hre : Reachable ops true w) (hc : w.rm.configs = some m)
    (hu : ops.Unmarshal text ops.readerFactory = .ok (some r0))
    (hne : text ≠ "" ∧ text ≠ "null")
    (hp : 0 < tickerPeriod (ops.Interval (ops.Init w.rm.params r0))) :
    decodeCreateThing js (("operation", .str thingUpdate) :: vals)
      = .ok { id := read vals "id" "", channelID := md.ChannelID, dbReaderData := text }
    ∧ decodeCreateThing js (("operation", .str thingCreate) :: vals)
      = .ok { id := read vals "id" "", channelID := md.ChannelID, dbReaderData := text }
    ∧ handleEvent js svc st (("operation", .str thingUpdate) :: vals)
      = called (.createThing (read vals "id" "") md.ChannelID text)
          (svc.CreateThing st (read vals "id" "") md.ChannelID text)
    ∧ handleEvent js svc st (("operation", .str thingCreate) :: vals)
      = called (.createThing (read vals "id" "") md.ChannelID text)
          (svc.CreateThing st (read vals "id" "") md.ChannelID text)
    ∧ (∃ w1, handleEvent js (adapterService ops fault) w
              (("operation", .str thingUpdate) :: vals)
            = .ok (w1, [.createThing (read vals "id" "") md.ChannelID text], none)
        ∧ handleEvent js (adapterService ops fault) w
              (("operation", .str thingCreate) :: vals)
            = .ok (w1, [.createThing (read vals "id" "") md.ChannelID text], none)
        ∧ w1.rm.configs.bind (fun m1 => mapGet m1 (read vals "id" ""))
            = some { ID := read vals "id" "", ChannelID := md.ChannelID,
                     scheduler := w.heap.length, Reader := ops.Init w.rm.params r0 }
        ∧ scheduledOnce w1 (read vals "id" ""))
    ∧ (∀ event st1 done e, handleEvent js svc st event = .ok (st1, done, e) →
        ∀ a b c, Effect.updateThing a b c ∉ done)
    ∧ (∀ vals1 : Values,
        decodeCreateThing js (("operation", .str thingUpdate) :: vals1)
          = decodeCreateThing js (("operation", .str thingCreate) :: vals1)
        ∧ (∀ e, decodeCreateThing js (("operation", .str thingCreate) :: vals1) = .error e →
            handleEvent js svc st (("operation", .str thingCreate) :: vals1)
              = .ok (st, [], some e)
            ∧ handleEvent js svc st (("operation", .str thingUpdate) :: vals1)
              = .ok (st, [.debug e.Error], some e))
        ∧ (∀ cte, decodeCreateThing js (("operation", .str thingCreate) :: vals1) = .ok cte →
            handleEvent js svc st (("operation", .str thingCreate) :: vals1)
              = called (.createThing cte.id cte.channelID cte.dbReaderData)
                  (svc.CreateThing st cte.id cte.channelID cte.dbReaderData)
            ∧ handleEvent js svc st (("operation", .str thingUpdate) :: vals1)
              = called (.createThing cte.id cte.channelID cte.dbReaderData)
                  (svc.CreateThing st cte.id cte.channelID cte.dbReaderData))) := by
  have hnu : ¬ thingUpdate = thingCreate := by decide
  have hc1 : ∀ (τ : Type) (svc1 : Service τ) (s : τ) (vals1 : Values),
      handleEvent js svc1 s (("operation", .str thingCreate) :: vals1)
        = (match decodeCreateThing js (("operation", .str thingCreate) :: vals1) with
           | .error e => .ok (s, [], some e)
           | .ok cte => handleCreateThing svc1 s cte) := by
    intro τ svc1 s vals1
    rw [handleEvent]
    simp [get]
  have hu1 : ∀ (τ : Type) (svc1 : Service τ) (s : τ) (vals1 : Values),
      handleEvent js svc1 s (("operation", .str thingUpdate) :: vals1)
        = (match decodeCreateThing js (("operation", .str thingCreate) :: vals1) with
           | .error e => .ok (s, [.debug e.Error], some e)
           | .ok cte => handleCreateThing svc1 s cte) := by
    intro τ svc1 s vals1
    rw [handleEvent, decodeCreateThing_operation js (.str thingUpdate) vals1,
      ← decodeCreateThing_operation js (.str thingCreate) vals1]
    simp [get, hnu]
  have hdec : decodeCreateThing js vals
      = .ok { id := read vals "id" "", channelID := md.ChannelID, dbReaderData := text } := by
    unfold decodeCreateThing
    simp only [hmd, hty, ne_eq, not_true_eq_false, if_false, hdata]
  have hdc : decodeCreateThing js (("operation", .str thingCreate) :: vals)
      = .ok { id := read vals "id" "", channelID := md.ChannelID, dbReaderData := text } := by
    rw [decodeCreateThing_operation, hdec]
  have hdu : decodeCreateThing js (("operation", .str thingUpdate) :: vals)
      = .ok { id := read vals "id" "", channelID := md.ChannelID, dbReaderData := text } := by
    rw [decodeCreateThing_operation, hdec]
  have hinv := Inv_of_reachable ops w hre
  have hm : ¬ ((Go.bytes text).length ≤ 0 ∨ text = "null") := by
    rw [bytes_length_pos]
    exact fun h => h.elim hne.1 hne.2
  obtain ⟨w1, file, hct⟩ := CreateThing_returns ops w (read vals "id" "") md.ChannelID text
    fault r0 m hinv hc hu hm hp
  obtain ⟨r1, m2, H, T, hu2, -, -, hcfg, -, hH, hheap, hT, htasks⟩ :=
    CreateThing_inv ops w w1 _ _ _ fault file hct
  rw [hu] at hu2
  simp only [Except.ok.injEq, Option.some.injEq] at hu2
  subst hu2
  have h1 : InvOn m w.heap w.tasks := by
    have := hinv
    unfold dbreader.Inv at this
    rwa [hc] at this
  have hs1 : w1.heap[H.length]? = some
      { ticker := some { period := tickerPeriod (ops.Interval (ops.Init w.rm.params r0)),
                         stopped := false },
        interval := ops.Interval (ops.Init w.rm.params r0) } := by
    rw [hheap]
    simp
  have hT1 : ∀ t ∈ T, t.1 < H.length := fun t ht => by
    obtain ⟨e, he, -, h2⟩ := h1.owner t (hT t ht)
    rw [hH, ← h2]
    exact (h1.entry e he).2
  refine ⟨hdu, hdc, ?_, ?_, ⟨w1, ?_, ?_, ?_, ?_⟩, ?_, ?_⟩
  · rw [hu1, hdc]
    rfl
  · rw [hc1, hdc]
    rfl
  · rw [hu1, hdc]
    simp only [handleCreateThing, adapterService, hct, called, Option.map_none']
  · rw [hc1, hdc]
    simp only [handleCreateThing, adapterService, hct, called, Option.map_none']
  · rw [hcfg, ← hH]
    exact mapGet_mapStore_self _ _ _
  · refine ⟨_, _, _, by rw [hcfg]; exact mapGet_mapStore_self _ _ _, hs1, rfl, rfl, ?_⟩
    rw [htasks, List.filter_append]
    have : T.filter (fun t => decide (t.1 = H.length)) = [] := by
      rw [List.filter_eq_nil_iff]
      intro t ht
      simpa using Nat.ne_of_lt (hT1 t ht)
    simp [this]
  · intro event st1 done e h
    exact (handleEvent_done js svc st st1 event done e h).2
  · intro vals1
    refine ⟨by rw [decodeCreateThing_operation, decodeCreateThing_operation], ?_, ?_⟩
    · intro e he
      rw [hc1, hu1, he]
      exact ⟨rfl, rfl⟩
    · intro cte he
      rw [hc1, hu1, he]
      exact ⟨rfl, rfl⟩

/-- Witness of C28: a new manager loads the one-line store and starts its entry, `t1` on the
channel `ch1`. A `thing.update` entry for `t1` with the channel `ch2` and the file `b.csv`
calls `CreateThing` and replaces the entry. -/
theorem update_handled_as_create_witness :
    ∃ w w1 : World csv.csvReader, Reachable exampleOps true w
      ∧ (w.rm.configs.bind (fun m1 => mapGet m1 "t1")).map (fun c => c.ChannelID) = some "ch1"
      ∧ handleEvent exampleJSON (adapterService exampleOps .none) w
          [("operation", .str thingUpdate), ("id", .str "t1"),
           ("metadata", .str "dbReader|ch2|b.csv")]
        = .ok (w1, [.createThing "t1" "ch2" "b.csv"], none)
      ∧ (w1.rm.configs.bind (fun m1 => mapGet m1 "t1")).map
          (fun c => (c.ID, c.ChannelID, c.Reader.FileName)) = some ("t1", "ch2", "b.csv")
      ∧ scheduledOnce w1 "t1" := by
  have r0 : Reachable exampleOps true (newWorld "readers.cfg" "csv") := .fresh _ _
  have r1 := Reachable.loadAll _ _ storeT1 none r0 (fun _ => rfl) rfl
  have r2 := Reachable.startAll _ _ r1 rfl
  obtain ⟨-, -, -, -, ⟨w1, h1, -, h3, h4⟩, -, -⟩ :=
    update_handled_as_create exampleJSON (adapterService exampleOps .none) exampleWorld
      [("id", .str "t1"), ("metadata", .str "dbReader|ch2|b.csv")]
      { Typ := "dbReader", DbReaderData := "b.csv", ChannelID := "ch2" } "b.csv"
      exampleOps .none _ _
      { FileName := "b.csv", ColsStr := "", columns := [], Interval64 := 0, DBType := "",
        HeadPos := 0 }
      rfl rfl rfl r2 rfl rfl (by decide) (by decide)
  have h5 : w1.rm.configs.bind (fun m1 => mapGet m1 "t1") = _ := h3
  refine ⟨_, w1, r2, rfl, h1, ?_, h4⟩
  rw [h5]
  rfl

end redis

/-! ### The field binding -/

namespace fieldbinding

theorem mapFind_append {α : Type} (a b : List (String × α)) (k : String) :
    mapFind (a ++ b) k = (match mapFind a k with
                          | some v => some v
                          | none => mapFind b k) := by
  induction a with
  | nil => rfl
  | cons e a ih =>
    by_cases h : e.1 = k
    · simp [mapFind, h]
    · simp only [List.cons_append, mapFind, h, if_false]
      exact ih

theorem mapFind_filter_ne {α : Type} (m : List (String × α)) (k k1 : String) :
    mapFind (m.filter (fun e => e.1 != k)) k1 = if k1 = k then none else mapFind m k1 := by
  induction m with
  | nil =>
    simp [mapFind]
  | cons e m ih =>
    by_cases h : e.1 = k
    · have hf : (e :: m).filter (fun e => e.1 != k) = m.filter (fun e => e.1 != k) := by
        simp [List.filter_cons, h]
      rw [hf, ih]
      by_cases hk : k1 = k
      · rw [if_pos hk, if_pos hk]
      · have h1 : ¬ e.1 = k1 := fun h2 => hk (h2.symm.trans h)
        rw [if_neg hk, if_neg hk]
        simp [mapFind, h1]
    · have hf : (e :: m).filter (fun e => e.1 != k) = e :: m.filter (fun e => e.1 != k) := by
        simp [List.filter_cons, h]
      rw [hf]
      by_cases h1 : e.1 = k1
      · have hk : ¬ k1 = k := fun h2 => h (h1.trans h2)
        rw [if_neg hk]
        simp [mapFind, h1]
      · simp only [mapFind, h1, if_false]
        exact ih

theorem mapFind_mapPut_self {α : Type} (m : List (String × α)) (k : String) (v : α) :
    mapFind (mapPut m k v) k = some v := by
  unfold mapPut
  rw [mapFind_append, mapFind_filter_ne, if_pos rfl]
  simp [mapFind]

theorem mapFind_mapPut_ne {α : Type} (m : List (String × α)) (k k1 : String) (v : α)
    (hne : k1 ≠ k) : mapFind (mapPut m k v) k1 = mapFind m k1 := by
  unfold mapPut
  rw [mapFind_append, mapFind_filter_ne, if_neg hne]
  cases mapFind m k1 with
  | some x => rfl
  | none => simp [mapFind, Ne.symm hne]

theorem mem_keys_mapPut {α : Type} (m : List (String × α)) (k k1 : String) (v : α) :
    k1 ∈ (mapPut m k v).map (fun e => e.1) ↔ k1 = k ∨ k1 ∈ m.map (fun e => e.1) := by
  unfold mapPut
  simp only [List.map_append, List.mem_append, List.mem_map, List.mem_filter, bne_iff_ne,
    ne_eq, decide_not, Bool.not_eq_true', decide_eq_false_iff_not, List.map_cons,
    List.map_nil, List.mem_singleton]
  constructor
  · rintro (⟨e, ⟨he, -⟩, rfl⟩ | h)
    · exact Or.inr ⟨e, he, rfl⟩
    · exact Or.inl h
  · rintro (h | ⟨e, he, rfl⟩)
    · exact Or.inr h
    · by_cases hk : e.1 = k
      · exact Or.inr hk
      · exact Or.inl ⟨e, ⟨he, hk⟩, rfl⟩

theorem nodup_keys_mapPut {α : Type} (m : List (String × α)) (k : String) (v : α)
    (h : (m.map (fun e => e.1)).Nodup) : ((mapPut m k v).map (fun e => e.1)).Nodup := by
  unfold mapPut
  rw [List.map_append, List.nodup_append]
  refine ⟨h.sublist (List.Sublist.map _ (List.filter_sublist _)), by simp, ?_⟩
  intro a ha hb
  simp only [List.map_cons, List.map_nil, List.mem_singleton] at hb
  obtain ⟨e, he, rfl⟩ := List.mem_map.1 ha
  have := (List.mem_filter.1 he).2
  simp only [bne_iff_ne, ne_eq, decide_not, Bool.not_eq_true', decide_eq_false_iff_not] at this
  exact this hb

theorem mapFind_none_iff {α : Type} (m : List (String × α)) (k : String) :
    mapFind m k = none ↔ k ∉ m.map (fun e => e.1) := by
  induction m with
  | nil => simp [mapFind]
  | cons e m ih =>
    by_cases h : e.1 = k
    · simp [mapFind, h]
    · simp only [mapFind, h, if_false, ih, List.map_cons, List.mem_cons, not_or]
      constructor
      · intro h1
        exact ⟨fun h2 => h h2.symm, h1⟩
      · intro h1
        exact h1.2

theorem lastIndexOf_cons (x : String) (names : List String) (name : String) :
    lastIndexOf (x :: names) name
      = (match lastIndexOf names name with
         | some j => some (j + 1)
         | none => if x = name then some 0 else none) := rfl

theorem lastIndexOf_isSome (names : List String) (name : String) :
    (∃ j, lastIndexOf names name = some j) ↔ name ∈ names := by
  induction names with
  | nil => simp [lastIndexOf]
  | cons x names ih =>
    rw [lastIndexOf_cons]
    cases hl : lastIndexOf names name with
    | some j =>
      have : name ∈ names := ih.1 ⟨j, hl⟩
      simp [this]
    | none =>
      have hn : name ∉ names := fun h => by
        obtain ⟨j, hj⟩ := ih.2 h
        rw [hl] at hj
        cases hj
      by_cases hx : x = name
      · simp [hx]
      · simp [hx, hn, Ne.symm hx]

theorem lastIndexOf_get (names : List String) (name : String) (j : Nat)
    (h : lastIndexOf names name = some j) : names[j]? = some name := by
  induction names generalizing j with
  | nil => simp [lastIndexOf] at h
  | cons x names ih =>
    rw [lastIndexOf_cons] at h
    cases hl : lastIndexOf names name with
    | some i =>
      rw [hl] at h
      simp only [Option.some.injEq] at h
      subst h
      simpa using ih i hl
    | none =>
      rw [hl] at h
      simp only at h
      by_cases hx : x = name
      · rw [if_pos hx] at h
        simp only [Option.some.injEq] at h
        subst h
        simp [hx]
      · rw [if_neg hx] at h
        cases h

theorem lastIndexOf_nodup (names : List String) (hn : names.Nodup) (i : Nat) (name : String)
    (h : names[i]? = some name) : lastIndexOf names name = some i := by
  induction names generalizing i with
  | nil => simp at h
  | cons x names ih =>
    rw [List.nodup_cons] at hn
    rw [lastIndexOf_cons]
    cases i with
    | zero =>
      simp only [List.getElem?_cons_zero, Option.some.injEq] at h
      subst h
      cases hl : lastIndexOf names x with
      | some j => exact absurd ((lastIndexOf_isSome names x).1 ⟨j, hl⟩) hn.1
      | none => simp
    | succ i =>
      simp only [List.getElem?_cons_succ] at h
      rw [ih hn.2 i h]

theorem putLoop_spec {V : Type} (names : List String) :
    ∀ (k : Nat) (fb : FieldBinding V) (m : List (String × Int)),
      fb.MapFieldToID = some m → (m.map (fun e => e.1)).Nodup →
      k + names.length ≤ fb.FieldPtrArr.length → k + names.length ≤ fb.FieldArr.length →
      ∃ fb1 m1, putLoop names k fb = some fb1
        ∧ fb1.FieldArr = fb.FieldArr
        ∧ fb1.FieldPtrArr.length = fb.FieldPtrArr.length
        ∧ (∀ i : Nat, fb1.FieldPtrArr[i]?
            = if k ≤ i ∧ i < k + names.length then some (some i) else fb.FieldPtrArr[i]?)
        ∧ fb1.MapFieldToID = some m1 ∧ (m1.map (fun e => e.1)).Nodup
        ∧ (∀ name, mapFind m1 name
            = (match lastIndexOf names name with
               | some j => some (((k + j : Nat)) : Int)
               | none => mapFind m name))
        ∧ (∀ name, name ∈ m1.map (fun e => e.1) ↔ name ∈ names ∨ name ∈ m.map (fun e => e.1)) := by
  induction names with
  | nil =>
    intro k fb m hm hnd _ _
    refine ⟨fb, m, rfl, rfl, rfl, ?_, hm, hnd, ?_, ?_⟩
    · intro i
      have : ¬ (k ≤ i ∧ i < k + ([] : List String).length) := by
        simp only [List.length_nil, Nat.add_zero]
        omega
      rw [if_neg this]
    · intro name
      rfl
    · intro name
      simp
  | cons v names ih =>
    intro k fb m hm hnd hp ha
    simp only [List.length_cons] at hp ha
    have hk1 : k < fb.FieldPtrArr.length := by omega
    have hk2 : k < fb.FieldArr.length := by omega
    obtain ⟨fb1, m1, h1, h2, h3, h4, h5, h6, h7, h8⟩ :=
      ih (k + 1)
        { fb with FieldPtrArr := fb.FieldPtrArr.set k (some k),
                  MapFieldToID := some (mapPut m v (k : Int)) }
        (mapPut m v (k : Int)) rfl (nodup_keys_mapPut m v _ hnd)
        (by simp only [List.length_set]; omega) (by simp only; omega)
    refine ⟨fb1, m1, ?_, h2, ?_, ?_, h5, h6, ?_, ?_⟩
    · rw [putLoop, if_pos ⟨hk1, hk2⟩]
      simp only [put, hm]
      exact h1
    · rw [h3]
      simp
    · intro i
      rw [h4 i]
      simp only [List.length_cons]
      by_cases hi : i = k
      · subst hi
        have hf : ¬ (i + 1 ≤ i ∧ i < i + 1 + names.length) := by omega
        have ht : i ≤ i ∧ i < i + (names.length + 1) := by omega
        rw [if_neg hf, if_pos ht, List.getElem?_set_self hk1]
      · by_cases hr : k + 1 ≤ i ∧ i < k + 1 + names.length
        · have ht : k ≤ i ∧ i < k + (names.length + 1) := by omega
          rw [if_pos hr, if_pos ht]
        · have ht : ¬ (k ≤ i ∧ i < k + (names.length + 1)) := by omega
          rw [if_neg hr, if_neg ht, List.getElem?_set_ne (Ne.symm hi)]
    · intro name
      rw [h7 name, lastIndexOf_cons]
      cases hl : lastIndexOf names name with
      | some j =>
        simp only [Option.some.injEq]
        have : k + 1 + j = k + (j + 1) := by omega
        rw [this]
      | none =>
        simp only
        by_cases hx : v = name
        · subst hx
          rw [if_pos rfl, mapFind_mapPut_self]
          simp
        · rw [if_neg hx, mapFind_mapPut_ne _ _ _ _ (Ne.symm hx)]
    · intro name
      rw [h8 name, mem_keys_mapPut]
      simp only [List.mem_cons]
      constructor
      · rintro (h | h | h)
        · exact Or.inl (Or.inr h)
        · exact Or.inl (Or.inl h)
        · exact Or.inr h
      · rintro ((h | h) | h)
        · exact Or.inr (Or.inl h)
        · exact Or.inl h
        · exact Or.inr (Or.inr h)

theorem getLoop_spec {V : Type} (drv : Driver V) (arr : List (Option V))
    (entries : List (String × Int)) :
    ∀ (m : List (String × Option V)),
      (entries.map (fun e => e.1)).Nodup → (m.map (fun e => e.1)).Nodup →
      (∀ e ∈ entries, 0 ≤ e.2 ∧ e.2.toNat < arr.length) →
      ∃ row, getLoop drv arr entries m = some row
        ∧ (row.map (fun e => e.1)).Nodup
        ∧ (∀ name, name ∈ row.map (fun e => e.1)
            ↔ name ∈ entries.map (fun e => e.1) ∨ name ∈ m.map (fun e => e.1))
        ∧ (∀ name, mapFind row name
            = (match mapFind entries name with
               | some v => (arr[v.toNat]?).map (rendered drv)
               | none => mapFind m name)) := by
  induction entries with
  | nil =>
    intro m _ hm _
    exact ⟨m, rfl, hm, by simp, fun name => rfl⟩
  | cons e entries ih =>
    intro m hnd hm hr
    rw [List.map_cons, List.nodup_cons] at hnd
    obtain ⟨h0, hlt⟩ := hr e (List.mem_cons_self _ _)
    obtain ⟨cell, hcell⟩ : ∃ cell, arr[e.2.toNat]? = some cell :=
      ⟨arr[e.2.toNat], List.getElem?_eq_getElem hlt⟩
    obtain ⟨row, h1, h2, h3, h4⟩ :=
      ih (mapPut m e.1 (rendered drv cell)) hnd.2 (nodup_keys_mapPut m e.1 _ hm)
        (fun x hx => hr x (List.mem_cons_of_mem _ hx))
    refine ⟨row, ?_, h2, ?_, ?_⟩
    · rw [getLoop, if_neg (not_lt.2 h0), hcell]
      exact h1
    · intro name
      rw [h3 name, mem_keys_mapPut]
      simp only [List.map_cons, List.mem_cons]
      constructor
      · rintro (h | h | h)
        · exact Or.inl (Or.inr h)
        · exact Or.inl (Or.inl h)
        · exact Or.inr h
      · rintro ((h | h) | h)
        · exact Or.inr (Or.inl h)
        · exact Or.inl h
        · exact Or.inr (Or.inr h)
    · intro name
      rw [h4 name]
      by_cases hx : e.1 = name
      · subst hx
        have hnone : mapFind entries e.1 = none := (mapFind_none_iff entries e.1).2 hnd.1
        rw [hnone]
        simp only [mapFind, if_true]
        rw [mapFind_mapPut_self, hcell]
        rfl
      · simp only [mapFind, hx, if_false]
        cases mapFind entries name with
        | some v => rfl
        | none =>
          simp only
          rw [mapFind_mapPut_ne _ _ _ _ (Ne.symm hx)]

/-- C27 (amended): `PutFields(names)` returns; there are `len(names)` scratch slots, all
nil, `FieldPtrArr[i]` refers to slot `i`, and the map sends a name to the last position it
has in `names`: `names[i]` to `i` for every `i` when the names are distinct. Whatever the
slots then hold, `GetFieldArr` returns a row with one key for every name of `names`, and a
name is mapped to the content of the slot at its last position, given by the text of the
unique identifier when the content scans as one. -/
theorem PutFields_GetFieldArr {V : Type} (drv : Driver V) (fb : FieldBinding V)
    (names : List String) :
    ∃ fb1 m, PutFields fb names = some fb1
      ∧ fb1.FieldArr = List.replicate names.length none
      ∧ GetFieldPtrArr fb1 = (List.range names.length).map some
      ∧ fb1.MapFieldToID = some m
      ∧ (∀ name, mapFind m name = (lastIndexOf names name).map Int.ofNat)
      ∧ (names.Nodup → ∀ (i : Nat) name, names[i]? = some name → mapFind m name = some (i : Int))
      ∧ ∀ slots : List (Option V), slots.length = names.length →
          ∃ row, GetFieldArr drv { fb1 with FieldArr := slots } = some row
            ∧ (row.map (fun e => e.1)).Nodup
            ∧ (∀ name, name ∈ row.map (fun e => e.1) ↔ name ∈ names)
            ∧ (∀ name (j : Nat), lastIndexOf names name = some j →
                ∃ cell, slots[j]? = some cell ∧ mapFind row name = some (rendered drv cell)) := by
  obtain ⟨fb1, m, h1, h2, h3, h4, h5, h6, h7, h8⟩ :=
    putLoop_spec names 0
      ({ fb with FieldArr := List.replicate names.length none,
                 FieldPtrArr := List.replicate names.length none,
                 MapFieldToID := some [] } : FieldBinding V)
      [] rfl List.nodup_nil (by simp) (by simp)
  have hfind : ∀ name, mapFind m name = (lastIndexOf names name).map Int.ofNat := by
    intro name
    rw [h7 name]
    cases lastIndexOf names name with
    | some j => simp
    | none => rfl
  refine ⟨fb1, m, h1, h2, ?_, h5, hfind, ?_, ?_⟩
  · unfold GetFieldPtrArr
    apply List.ext_getElem?
    intro i
    rw [h4 i]
    by_cases hi : i < names.length
    · have : 0 ≤ i ∧ i < 0 + names.length := by omega
      rw [if_pos this]
      simp [hi]
    · have : ¬ (0 ≤ i ∧ i < 0 + names.length) := by omega
      rw [if_neg this]
      simp only [not_lt] at hi
      have ha : (List.replicate names.length (none : Option Nat))[i]? = none :=
        List.getElem?_eq_none (by simpa using hi)
      have hb : (List.range names.length)[i]? = none :=
        List.getElem?_eq_none (by simpa using hi)
      rw [List.getElem?_map, hb]
      exact ha
  · intro hn i name hi
    rw [hfind name, lastIndexOf_nodup names hn i name hi]
    rfl
  · intro slots hlen
    have hrange : ∀ e ∈ m, 0 ≤ e.2 ∧ e.2.toNat < slots.length := by
      intro e he
      have hk : e.1 ∈ m.map (fun e => e.1) := List.mem_map.2 ⟨e, he, rfl⟩
      have hf : mapFind m e.1 = some e.2 := by
        cases hg : mapFind m e.1 with
        | none => exact absurd hk ((mapFind_none_iff m e.1).1 hg)
        | some v =>
          have key : ∀ (l : List (String × Int)), (l.map (fun e => e.1)).Nodup → e ∈ l →
              mapFind l e.1 = some e.2 := by
            intro l
            induction l with
            | nil => simp
            | cons x l ih =>
              intro hnd hmem
              rw [List.map_cons, List.nodup_cons] at hnd
              rcases List.mem_cons.1 hmem with rfl | hmem
              · simp [mapFind]
              · have hne : ¬ x.1 = e.1 := fun hx =>
                  hnd.1 (by rw [hx]; exact List.mem_map.2 ⟨e, hmem, rfl⟩)
                simp only [mapFind, hne, if_false]
                exact ih hnd.2 hmem
          rw [← hg]
          exact key m h6 he
      rw [hfind e.1] at hf
      cases hl : lastIndexOf names e.1 with
      | none => simp [hl] at hf
      | some j =>
        rw [hl] at hf
        simp only [Option.map_some', Option.some.injEq] at hf
        have hj := lastIndexOf_get names e.1 j hl
        have hjlt : j < names.length := (List.getElem?_eq_some_iff.1 hj).1
        rw [← hf]
        simp only [Int.ofNat_eq_coe, Int.toNat_ofNat]
        omega
    obtain ⟨row, g1, g2, g3, g4⟩ := getLoop_spec drv slots m [] h6 List.nodup_nil hrange
    refine ⟨row, ?_, g2, ?_, ?_⟩
    · unfold GetFieldArr
      simp only [h5, Option.getD_some]
      exact g1
    · intro name
      rw [g3 name, h8 name]
      simp
    · intro name j hl
      have hj := lastIndexOf_get names name j hl
      have hjlt : j < slots.length := by
        rw [hlen]
        exact (List.getElem?_eq_some_iff.1 hj).1
      refine ⟨slots[j], List.getElem?_eq_getElem hjlt, ?_⟩
      rw [g4 name, hfind name, hl]
      simp only [Option.map_some', Int.ofNat_eq_coe, Int.toNat_ofNat]
      rw [List.getElem?_eq_getElem hjlt]
      rfl

/-- Counterexample to C27 as stated: for the names `a, a` the map sends `a`, the name at
position 0, to 1. -/
theorem PutFields_duplicate_name :
    ∃ (fb1 : FieldBinding String) (m : List (String × Int)),
      PutFields NewFieldBinding ["a", "a"] = some fb1
      ∧ fb1.MapFieldToID = some m
      ∧ ["a", "a"][0]? = some "a" ∧ mapFind m "a" = some 1 :=
  ⟨_, _, rfl, rfl, rfl, rfl⟩

end fieldbinding
